import Mathlib

/-!
# Verification of the slice vectorization and layer-interchange engine

Shallow embedding of the contour / slice data model (`src/slice.rs`) and the
CLI layer-file reader and writer (`src/cli.rs`).  `f32` scalars are modelled
as exact rationals `ℚ`; text lines are modelled as `List Char` (the Rust
reader consumes the file through `BufRead::lines`, so a file is a list of
lines).  Error payloads (`crate::Error`) are modelled by an inductive with
one constructor per error site; warning strings are modelled as a list of
structured warning records carrying the 1-based line number that the Rust
code interpolates into the warning text.
-/

namespace PicoGK

/-- 2D point, modelling `nalgebra::Vector2<f32>` with exact rationals. -/
structure Vec2 where
  x : ℚ
  y : ℚ
deriving DecidableEq, Repr

namespace Vec2

/-- `(a - b).norm_squared()`. -/
def normSq (a b : Vec2) : ℚ :=
  (a.x - b.x) * (a.x - b.x) + (a.y - b.y) * (a.y - b.y)

end Vec2

/-- `Winding` from `src/slice.rs`. -/
inductive Winding where
  | Unknown
  | Clockwise
  | CounterClockwise
deriving DecidableEq, Repr

/-- One cyclic-pair term of the shoelace sum in `detect_winding`:
`(v[j].x - v[i].x) * (v[j].y + v[i].y)` for the pair `(v[i], v[j])`. -/
def shoelaceTerm (a b : Vec2) : ℚ := (b.x - a.x) * (b.y + a.y)

/-- Walks the loop of `detect_winding`: `shoelaceAux first rest cur` sums the
terms for consecutive pairs starting at `cur` through `rest`, wrapping the
final pair back to `first` (the `j = (i+1) % len` wrap-around). -/
def shoelaceAux (first : Vec2) : List Vec2 → Vec2 → ℚ
  | [], cur => shoelaceTerm cur first
  | b :: rest, cur => shoelaceTerm cur b + shoelaceAux first rest b

/-- Signed area sum computed by `PolyContour::detect_winding`. -/
def shoelaceSum : List Vec2 → ℚ
  | [] => 0
  | a :: rest => shoelaceAux a rest a

/-- `PolyContour::detect_winding` from `src/slice.rs`. -/
def detect_winding (vs : List Vec2) : Winding :=
  if vs.length < 3 then Winding.Unknown
  else if shoelaceSum vs > 0 then Winding.Clockwise
  else if shoelaceSum vs < 0 then Winding.CounterClockwise
  else Winding.Unknown

/-- 2D bounding box (`BBox2` from `picogk-rs/src/types.rs`).  The `f32`
sentinels `f32::MAX` / `f32::MIN` used by `BBox2::empty` are modelled by the
rational constants below. -/
def fmax : ℚ := (2 : ℚ) ^ 128

structure BBox2 where
  minx : ℚ
  miny : ℚ
  maxx : ℚ
  maxy : ℚ
deriving DecidableEq, Repr

namespace BBox2

def empty : BBox2 := ⟨fmax, fmax, -fmax, -fmax⟩

def is_empty (b : BBox2) : Bool :=
  b.minx > b.maxx || b.miny > b.maxy

def include_point (b : BBox2) (p : Vec2) : BBox2 :=
  ⟨min b.minx p.x, min b.miny p.y, max b.maxx p.x, max b.maxy p.y⟩

def include_bbox (b other : BBox2) : BBox2 :=
  if other.is_empty then b
  else (b.include_point ⟨other.minx, other.miny⟩).include_point ⟨other.maxx, other.maxy⟩

end BBox2

/-- 3D bounding box (`BBox3`). -/
structure BBox3 where
  minx : ℚ
  miny : ℚ
  minz : ℚ
  maxx : ℚ
  maxy : ℚ
  maxz : ℚ
deriving DecidableEq, Repr

namespace BBox3

def empty : BBox3 := ⟨fmax, fmax, fmax, -fmax, -fmax, -fmax⟩

def mk' (min max : ℚ × ℚ × ℚ) : BBox3 :=
  ⟨min.1, min.2.1, min.2.2, max.1, max.2.1, max.2.2⟩

def is_empty (b : BBox3) : Bool :=
  b.minx > b.maxx || b.miny > b.maxy || b.minz > b.maxz

def include_point (b : BBox3) (x y z : ℚ) : BBox3 :=
  ⟨min b.minx x, min b.miny y, min b.minz z, max b.maxx x, max b.maxy y, max b.maxz z⟩

/-- `BBox3::include_bbox2`. -/
def include_bbox2 (b : BBox3) (other : BBox2) (z : ℚ) : BBox3 :=
  if other.is_empty then b
  else (b.include_point other.minx other.miny z).include_point other.maxx other.maxy z

end BBox3

/-- Error type modelling `crate::Error`; one constructor per error site the
claims exercise, mirroring `Error::InvalidParameter(..)` /
`Error::OperationFailed(..)` with the format string abstracted away. -/
inductive Err where
  | tooFewVertices            -- "Polyline with less than 3 points makes no sense"
  | emptyStack                -- "No valid slices detected (empty)"
  | nonPositiveUnits          -- "Units must be positive"
  | missingSlice              -- OperationFailed "SliceStack missing ..."
  | missingParameter          -- "Missing parameter after $$..."
  | invalidParameter          -- "Invalid parameter for $$..."
  | multipleLabels            -- "Multiple labels not supported"
  | binaryNotSupported        -- "Binary CLI Files are not yet supported"
  | zNotMonotonic             -- "Z position in current layer is smaller than in previous"
  | contourAtZ0               -- "There should not be contours at z position 0"
deriving DecidableEq, Repr

/-- `PolyContour` from `src/slice.rs`: vertex list, winding, bounding box. -/
structure PolyContour where
  vertices : List Vec2
  winding : Winding
  bbox : BBox2
deriving DecidableEq, Repr

namespace PolyContour

/-- `PolyContour::new`: errors on fewer than 3 vertices; computes the bounding
box; stores the caller-declared winding unless it is `Unknown`, in which case
the winding detected from the vertices is stored. -/
def new (vertices : List Vec2) (winding : Winding) : Except Err PolyContour :=
  if vertices.length < 3 then
    .error Err.tooFewVertices
  else
    let bbox := vertices.foldl BBox2.include_point BBox2.empty
    let resolved := if winding = Winding.Unknown then detect_winding vertices else winding
    .ok ⟨vertices, resolved, bbox⟩

def count (c : PolyContour) : ℕ := c.vertices.length

end PolyContour

/-- `PolySlice`: contours in insertion order, z position, aggregate bbox. -/
structure PolySlice where
  contours : List PolyContour
  z_pos : ℚ
  bbox : BBox2
deriving DecidableEq, Repr

namespace PolySlice

def new (z : ℚ) : PolySlice := ⟨[], z, BBox2.empty⟩

def add_contour (s : PolySlice) (c : PolyContour) : PolySlice :=
  ⟨s.contours ++ [c], s.z_pos, s.bbox.include_bbox c.bbox⟩

def is_empty (s : PolySlice) : Bool := s.contours.isEmpty

def contour_count (s : PolySlice) : ℕ := s.contours.length

end PolySlice

/-- `PolySliceStack`. -/
structure PolySliceStack where
  slices : List PolySlice
  bbox : BBox3
deriving DecidableEq, Repr

namespace PolySliceStack

def new : PolySliceStack := ⟨[], BBox3.empty⟩

/-- `PolySliceStack::add_slices`. -/
def add_slices (st : PolySliceStack) (ss : List PolySlice) : PolySliceStack :=
  ss.foldl (fun acc s => ⟨acc.slices ++ [s], acc.bbox.include_bbox2 s.bbox s.z_pos⟩) st

def from_slices (ss : List PolySlice) : PolySliceStack := new.add_slices ss

def count (st : PolySliceStack) : ℕ := st.slices.length

end PolySliceStack

/-- Sum over consecutive (non-wrapping) pairs. -/
def pairSum : List Vec2 → ℚ
  | [] => 0
  | [_] => 0
  | a :: b :: rest => shoelaceTerm a b + pairSum (b :: rest)

/-- The wrap-around term of the cyclic shoelace sum, written with
`getLast?`/`head?` so it needs no non-emptiness proof. -/
def wrapTerm (l : List Vec2) : ℚ :=
  match l.getLast?, l.head? with
  | some p, some q => shoelaceTerm p q
  | _, _ => 0

/-- Swapping of Clockwise and CounterClockwise (Unknown is fixed). -/
def windingReversed : Winding → Winding
  | Winding.Clockwise => Winding.CounterClockwise
  | Winding.CounterClockwise => Winding.Clockwise
  | Winding.Unknown => Winding.Unknown

/-! ## Text-level helpers of the CLI reader/writer (`src/cli.rs`)

Lines are `List Char`.  `str::parse::<f32>` is modelled by a decimal/
scientific parser over exact rationals (the special float spellings
`inf`/`NaN` and overflow-to-infinity are outside the model); `{:.5}` / 
`{:08.5}` formatting is modelled with exact decimal rounding. -/

/-- Strip a `//` comment: everything from the first `//` on is dropped
(`line.find("//")` + truncate). -/
def stripComment : List Char → List Char
  | [] => []
  | c :: cs => if c = '/' ∧ cs.head? = some '/' then [] else c :: stripComment cs

def trimChars (l : List Char) : List Char :=
  ((l.dropWhile Char.isWhitespace).reverse.dropWhile Char.isWhitespace).reverse

/-- Comment-strip then trim: the per-line preprocessing of the reader. -/
def cleanLine (l : List Char) : List Char := trimChars (stripComment l)

/-- `line.find(pat)` followed by taking the remainder after the first
occurrence; `none` when `pat` does not occur. -/
def findAfter (pat : List Char) : List Char → Option (List Char)
  | [] => if pat = [] then some [] else none
  | c :: cs =>
      if pat.isPrefixOf (c :: cs) then some ((c :: cs).drop pat.length)
      else findAfter pat cs

/-- `extract_parameter` from `src/cli.rs`: requires a leading `/` or `,`,
takes characters up to the next `$`, `/` or `,`, trims the token, and leaves
the rest (separator included) for the next call. -/
def extract_parameter (l : List Char) : Option (List Char × List Char) :=
  match l with
  | [] => none
  | c :: cs =>
      if c = '/' ∨ c = ',' then
        let stop := fun ch => ch = '$' ∨ ch = '/' ∨ ch = ','
        some (trimChars (cs.takeWhile fun ch => ¬stop ch), cs.dropWhile fun ch => ¬stop ch)
      else none

/-- `shorten` from `src/cli.rs`. -/
def shorten (l : List Char) (maxChars : ℕ) : List Char :=
  if l.length ≤ maxChars then l else l.take maxChars

def digitVal (c : Char) : ℕ :=
  if c = '0' then 0 else if c = '1' then 1 else if c = '2' then 2 else if c = '3' then 3
  else if c = '4' then 4 else if c = '5' then 5 else if c = '6' then 6 else if c = '7' then 7
  else if c = '8' then 8 else 9

def ofDigitsChars (l : List Char) : ℕ := l.foldl (fun a c => a * 10 + digitVal c) 0

/-- Models `str::parse::<u32>` (optional `+` sign, decimal digits); the
32-bit overflow bound is not modelled. -/
def parseNatChars (l : List Char) : Option ℕ :=
  let l' := match l with
    | '+' :: t => t
    | _ => l
  if l' ≠ [] ∧ l'.all Char.isDigit then some (ofDigitsChars l') else none

/-- Split a char list at the first char satisfying `p`; the matching char is
dropped. -/
def breakAt (p : Char → Bool) : List Char → List Char × Option (List Char)
  | [] => ([], none)
  | c :: t =>
      if p c then ([], some t)
      else
        let r := breakAt p t
        (c :: r.1, r.2)

/-- Models `str::parse::<f32>` on the grammar
`[+-] digits [. digits] [eE [+-] digits]` with exact rational semantics. -/
def parseFloatChars (l : List Char) : Option ℚ :=
  let sl : ℚ × List Char :=
    match l with
    | '-' :: t => (-1, t)
    | '+' :: t => (1, t)
    | _ => (1, l)
  let me := breakAt (fun c => c = 'e' ∨ c = 'E') sl.2
  let ifp := breakAt (fun c => c = '.') me.1
  let fpart := ifp.2.getD []
  if ¬ ifp.1.all Char.isDigit then none
  else if ¬ fpart.all Char.isDigit then none
  else if ifp.1 = [] ∧ fpart = [] then none
  else
    let base : ℚ := (ofDigitsChars (ifp.1 ++ fpart) : ℚ) / (10 : ℚ) ^ fpart.length
    match me.2 with
    | none => some (sl.1 * base)
    | some ex =>
        let se : ℤ × List Char :=
          match ex with
          | '-' :: t => (-1, t)
          | '+' :: t => (1, t)
          | _ => (1, ex)
        if se.2 ≠ [] ∧ se.2.all Char.isDigit then
          some (sl.1 * base * (10 : ℚ) ^ (se.1 * (ofDigitsChars se.2 : ℤ)))
        else none

/-- Decimal digit characters of `n` (most significant first); `0` prints as
`"0"`. -/
def natToChars (n : ℕ) : List Char :=
  if n = 0 then ['0']
  else ((Nat.digits 10 n).map fun d => Char.ofNat (48 + d)).reverse

def padZerosTo (w : ℕ) (l : List Char) : List Char :=
  List.replicate (w - l.length) '0' ++ l

/-- The value actually written by `{:.5}` formatting: the input rounded to
five decimal places (ties rounded toward the sign-magnitude round; Rust uses
round-half-to-even, which differs only on exact half-ties and never by more
than half an ulp, see `roundedVal5_close`). -/
def roundedVal5 (q : ℚ) : ℚ :=
  if q < 0 then -((round (-q * 100000) : ℤ) : ℚ) / 100000
  else ((round (q * 100000) : ℤ) : ℚ) / 100000

/-- `format!("{:.5}", q)`: sign, integer part, `.`, five fraction digits. -/
def fmtFixed5 (q : ℚ) : List Char :=
  if q < 0 then
    let n := (round (-q * 100000)).toNat
    '-' :: (natToChars (n / 100000) ++ '.' :: padZerosTo 5 (natToChars (n % 100000)))
  else
    let n := (round (q * 100000)).toNat
    natToChars (n / 100000) ++ '.' :: padZerosTo 5 (natToChars (n % 100000))

/-- `format!("{:08.5}", q)`: as `{:.5}` but left-padded with zeros (after the
sign) to a minimum width of 8. -/
def fmtFixed5Pad8 (q : ℚ) : List Char :=
  if q < 0 then
    match fmtFixed5 q with
    | '-' :: rest => '-' :: padZerosTo 7 rest
    | s => s
  else padZerosTo 8 (fmtFixed5 q)

/-- `format!("{:05}", n)`. -/
def padNat5 (n : ℕ) : List Char := padZerosTo 5 (natToChars n)

/-! ## CLI reader (`CliIo::slices_from_cli_file`) -/

/-- `CliFormat` from `src/cli.rs`. -/
inductive CliFormat where
  | UseEmptyFirstLayer
  | FirstLayerWithContent
deriving DecidableEq, Repr

/-- The kind of a warning appended to the reader's warnings report; each
constructor mirrors one `format!` site and carries the data interpolated into
the Rust warning text (besides the line number, held by `Warning.line`). -/
inductive WarningKind where
  | degenerateVertexCount (count : ℕ)
  | degenerateArea (declared : Winding)
  | windingMismatch (declared actual : Winding)
  | invalidVertices
  | unsupportedCommand (cmd : List Char)
deriving DecidableEq, Repr

/-- One warning line of the report; `line` is the 1-based source line number
(`line_no + 1` in the Rust code). -/
structure Warning where
  line : ℕ
  kind : WarningKind
deriving DecidableEq, Repr

/-- `CliResult` from `src/cli.rs`. -/
structure CliResult where
  slices : PolySliceStack
  bbox_file : BBox3
  is_binary : Bool
  units_header : ℚ
  align_32bit : Bool
  version : ℕ
  header_date : List Char
  layer_count : ℕ
  warnings : List Warning
deriving DecidableEq, Repr

/-- The local parse state of `slices_from_cli_file`; `done` models the
`break` on `$$GEOMETRYEND`, and the `f32::MIN` sentinel of `prev_z` is
modelled as `none`. -/
structure RState where
  header_started : Bool := false
  header_ended : Bool := false
  geometry_started : Bool := false
  done : Bool := false
  label_id : Option ℕ := none
  current_slice : Option PolySlice := none
  slices : List PolySlice := []
  prev_z : Option ℚ := none
  bbox_file : BBox3 := BBox3.empty
  is_binary : Bool := false
  units_header : ℚ := 0
  align_32bit : Bool := false
  header_date : List Char := []
  layer_count : ℕ := 0
  warnings : List Warning := []
deriving DecidableEq, Repr

/-- One `extract_parameter` + float parse, the `read_param` closure used by
`$$DIMENSION` and shared by the other numeric fields. -/
def readQ (data : List Char) : Except Err (ℚ × List Char) :=
  match extract_parameter data with
  | none => .error Err.missingParameter
  | some (p, rest) =>
      match parseFloatChars p with
      | none => .error Err.invalidParameter
      | some v => .ok (v, rest)

/-- One `extract_parameter` + `u32` parse. -/
def readN (data : List Char) : Except Err (ℕ × List Char) :=
  match extract_parameter data with
  | none => .error Err.missingParameter
  | some (p, rest) =>
      match parseNatChars p with
      | none => .error Err.invalidParameter
      | some v => .ok (v, rest)

/-- The vertex-reading loop of the `$$POLYLINE` handler: reads `count`
`(x, y)` pairs, each coordinate scaled by the units factor; a missing field
or an unparsable float is a (fatal) error. -/
def readVertices (u : ℚ) : ℕ → List Char → Except Err (List Vec2)
  | 0, _ => .ok []
  | n + 1, data =>
      match readQ data with
      | .error e => .error e
      | .ok (x, d1) =>
          match readQ d1 with
          | .error e => .error e
          | .ok (y, d2) =>
              match readVertices u n d2 with
              | .error e => .error e
              | .ok vs => .ok (⟨x * u, y * u⟩ :: vs)

/-- Header-section line handling (between `$$HEADERSTART` and
`$$HEADEREND`), mirroring the `if header_started && !header_ended` block. -/
def processHeaderLine (s : RState) (line : List Char) : Except Err RState :=
  if ("$$HEADEREND".data).isPrefixOf line then .ok {s with header_ended := true}
  else if ("$$BINARY".data).isPrefixOf line then .ok {s with is_binary := true}
  else if ("$$ASCII".data).isPrefixOf line then .ok {s with is_binary := false}
  else if ("$$ALIGN".data).isPrefixOf line then .ok {s with align_32bit := true}
  else if ("$$UNITS".data).isPrefixOf line then
    match extract_parameter (line.drop 7) with
    | none => .error Err.missingParameter
    | some (p, _) =>
        match parseFloatChars p with
        | none => .error Err.invalidParameter
        | some u =>
            if u ≤ 0 then .error Err.invalidParameter
            else .ok {s with units_header := u}
  else if ("$$VERSION".data).isPrefixOf line then .ok s
  else if ("$$LABEL".data).isPrefixOf line then
    match readN (line.drop 7) with
    | .error e => .error e
    | .ok (id, rest) =>
        if s.label_id.isSome then .error Err.multipleLabels
        else
          match extract_parameter rest with
          | none => .error Err.missingParameter
          | some _ => .ok {s with label_id := some id}
  else if ("$$DATE".data).isPrefixOf line then
    match extract_parameter (line.drop 6) with
    | none => .error Err.missingParameter
    | some (p, _) => .ok {s with header_date := trimChars p}
  else if ("$$DIMENSION".data).isPrefixOf line then
    match readQ (line.drop 11) with
    | .error e => .error e
    | .ok (x1, d1) =>
    match readQ d1 with
    | .error e => .error e
    | .ok (y1, d2) =>
    match readQ d2 with
    | .error e => .error e
    | .ok (z1, d3) =>
    match readQ d3 with
    | .error e => .error e
    | .ok (x2, d4) =>
    match readQ d4 with
    | .error e => .error e
    | .ok (y2, d5) =>
    match readQ d5 with
    | .error e => .error e
    | .ok (z2, _) => .ok {s with bbox_file := ⟨x1, y1, z1, x2, y2, z2⟩}
  else if ("$$LAYERS".data).isPrefixOf line then
    match readN (line.drop 8) with
    | .error e => .error e
    | .ok (n, _) => .ok {s with layer_count := n}
  else .ok s

/-- The `$$POLYLINE` handler; `data` is the line with the `$$POLYLINE`
prefix stripped. -/
def processPolyline (s : RState) (lineNo : ℕ) (data : List Char) : Except Err RState :=
  match s.current_slice with
  | none => .error Err.contourAtZ0
  | some slice =>
      match readN data with
      | .error e => .error e
      | .ok (id, d1) =>
          let lbl := s.label_id.getD id
          if lbl ≠ id then .error Err.multipleLabels
          else
            let s := {s with label_id := some lbl}
            match readN d1 with
            | .error e => .error e
            | .ok (wv, d2) =>
                match (if wv = 0 then some Winding.Clockwise
                       else if wv = 1 then some Winding.CounterClockwise
                       else if wv = 2 then some Winding.Unknown
                       else none) with
                | none => .error Err.invalidParameter
                | some winding =>
                    match readN d2 with
                    | .error e => .error e
                    | .ok (cnt, d3) =>
                        match readVertices s.units_header cnt d3 with
                        | .error e => .error e
                        | .ok vertices =>
                            if vertices.length < 3 then
                              .ok {s with
                                warnings := s.warnings
                                  ++ [⟨lineNo + 1, WarningKind.degenerateVertexCount vertices.length⟩],
                                current_slice := some slice}
                            else
                              match PolyContour.new vertices winding with
                              | .ok c =>
                                  if c.winding = Winding.Unknown then
                                    .ok {s with
                                      warnings := s.warnings
                                        ++ [⟨lineNo + 1, WarningKind.degenerateArea winding⟩],
                                      current_slice := some slice}
                                  else if c.winding ≠ winding then
                                    .ok {s with
                                      warnings := s.warnings
                                        ++ [⟨lineNo + 1, WarningKind.windingMismatch winding c.winding⟩],
                                      current_slice := some (slice.add_contour c)}
                                  else
                                    .ok {s with current_slice := some (slice.add_contour c)}
                              | .error _ =>
                                  .ok {s with
                                    warnings := s.warnings
                                      ++ [⟨lineNo + 1, WarningKind.invalidVertices⟩],
                                    current_slice := some slice}

/-- Geometry-section line handling (`$$GEOMETRYEND` / `$$LAYER` /
`$$POLYLINE` / unknown commands). -/
def processGeometryLine (s : RState) (lineNo : ℕ) (line : List Char) : Except Err RState :=
  if ("$$GEOMETRYEND".data).isPrefixOf line then .ok {s with done := true}
  else if ("$$LAYER".data).isPrefixOf line then
    match readQ (line.drop 7) with
    | .error e => .error e
    | .ok (z0, _) =>
        let z := z0 * s.units_header
        let go : RState → Except Err RState := fun s =>
          let s := {s with prev_z := some z}
          if z > 0 then
            let s :=
              match s.current_slice with
              | some sl => {s with slices := s.slices ++ [sl]}
              | none => s
            .ok {s with current_slice := some (PolySlice.new z)}
          else .ok s
        match s.prev_z with
        | some pz => if z < pz then .error Err.zNotMonotonic else go s
        | none => go s
  else if ("$$POLYLINE".data).isPrefixOf line then
    processPolyline s lineNo (line.drop 10)
  else if ("$$".data).isPrefixOf line then
    .ok {s with warnings := s.warnings ++ [⟨lineNo + 1, WarningKind.unsupportedCommand (shorten line 20)⟩]}
  else .ok s

/-- Post-header processing: the binary hard error, then `$$GEOMETRYSTART`
detection (with fall-through on trailing content), then the geometry
section. -/
def processPostHeader (s : RState) (lineNo : ℕ) (line : List Char) : Except Err RState :=
  if s.is_binary then .error Err.binaryNotSupported
  else if ¬s.geometry_started then
    match findAfter ("$$GEOMETRYSTART".data) line with
    | none => .ok s
    | some rem =>
        let s := {s with geometry_started := true}
        if trimChars rem = [] then .ok s
        else processGeometryLine s lineNo line
  else processGeometryLine s lineNo line

/-- Whole-line processing of the reader's main loop: comment strip, trim,
skip empty, `$$HEADERSTART` detection (with fall-through), then header /
post-header sections.  `s.done` models the `break` after `$$GEOMETRYEND`. -/
def processLine (s : RState) (lineNo : ℕ) (raw : List Char) : Except Err RState :=
  if s.done then .ok s
  else
    let line := cleanLine raw
    if line = [] then .ok s
    else if ¬s.header_started then
      match findAfter ("$$HEADERSTART".data) line with
      | none => .ok s
      | some rem =>
          let s := {s with header_started := true}
          if trimChars rem = [] then .ok s
          else if ¬s.header_ended then processHeaderLine s line
          else processPostHeader s lineNo line
    else if ¬s.header_ended then processHeaderLine s line
    else processPostHeader s lineNo line

/-- Folds `processLine` over the enumerated lines. -/
def runLines (s : RState) (lineNo : ℕ) : List (List Char) → Except Err RState
  | [] => .ok s
  | l :: rest =>
      match processLine s lineNo l with
      | .error e => .error e
      | .ok s' => runLines s' (lineNo + 1) rest

/-- End of parse: push the still-open slice, build the stack, assemble the
`CliResult`. -/
def finishState (s : RState) : CliResult :=
  let slices :=
    match s.current_slice with
    | some sl => s.slices ++ [sl]
    | none => s.slices
  { slices := PolySliceStack.from_slices slices
    bbox_file := s.bbox_file
    is_binary := s.is_binary
    units_header := s.units_header
    align_32bit := s.align_32bit
    version := 0
    header_date := s.header_date
    layer_count := s.layer_count
    warnings := s.warnings }

/-- `CliIo::slices_from_cli_file`, over the file's lines. -/
def slices_from_cli_lines (lines : List (List Char)) : Except Err CliResult :=
  (runLines {} 0 lines).map finishState

/-- Convenience wrapper taking the lines as string literals. -/
def slices_from_cli_file (lines : List String) : Except Err CliResult :=
  slices_from_cli_lines (lines.map String.data)

/-! ## CLI writer (`CliIo::write_slices_to_cli_file`) -/

/-- Winding code written into `$$POLYLINE` records: 0 = Clockwise,
1 = CounterClockwise, 2 = Unknown. -/
def windingCode : Winding → ℕ
  | Winding.Clockwise => 0
  | Winding.CounterClockwise => 1
  | Winding.Unknown => 2

/-- The three-pass contour emission order of the writer: for `pass` in
`0..3`, emit the contours whose winding matches the pass (pass 0:
CounterClockwise, pass 1: Clockwise, pass 2: Unknown), preserving insertion
order within a pass. -/
def passEmit (cs : List PolyContour) : List PolyContour :=
  (List.range 3).flatMap fun pass =>
    cs.filter fun c =>
      if pass = 0 then c.winding = Winding.CounterClockwise
      else if pass = 1 then c.winding = Winding.Clockwise
      else c.winding = Winding.Unknown

/-- One `$$POLYLINE` record: label 1, winding code, vertex count, then the
coordinates divided by `units`, comma separated (built with a trailing comma
that is popped). -/
def polylineLine (units : ℚ) (c : PolyContour) : List Char :=
  ("$$POLYLINE/1,".data ++ natToChars (windingCode c.winding) ++ [',']
    ++ natToChars c.count ++ [',']
    ++ (c.vertices.flatMap fun v =>
          fmtFixed5 (v.x / units) ++ [','] ++ fmtFixed5 (v.y / units) ++ [','])).dropLast

/-- The lines emitted for one slice: its `$$LAYER` record followed by its
contours in three-pass order. -/
def sliceLines (units : ℚ) (sl : PolySlice) : List (List Char) :=
  ("$$LAYER/".data ++ fmtFixed5 (sl.z_pos / units))
    :: (passEmit sl.contours).map (polylineLine units)

/-- `CliIo::write_slices_to_cli_file`, producing the file's lines. -/
def write_slices_to_cli_lines (slices : PolySliceStack) (format : CliFormat)
    (date : Option (List Char)) (units_mm : Option ℚ) :
    Except Err (List (List Char)) :=
  if slices.count < 1 ∨ slices.bbox.is_empty then .error Err.emptyStack
  else
    let units := units_mm.getD 1
    if units ≤ 0 then .error Err.nonPositiveUnits
    else
      let date := date.getD ("1970-01-01".data)
      match slices.slices.getLast? with
      | none => .error Err.missingSlice
      | some lastSlice =>
          let layerCount :=
            slices.count + (if format = CliFormat.UseEmptyFirstLayer then 1 else 0)
          let header : List (List Char) :=
            [ "$$HEADERSTART".data,
              "$$ASCII".data,
              "$$UNITS/".data ++ fmtFixed5Pad8 units,
              "$$VERSION/200".data,
              "$$LABEL/1,default".data,
              "$$DATE/".data ++ date,
              "$$DIMENSION/".data
                ++ fmtFixed5Pad8 slices.bbox.minx ++ [',']
                ++ fmtFixed5Pad8 slices.bbox.miny ++ [',']
                ++ fmtFixed5Pad8 0 ++ [',']
                ++ fmtFixed5Pad8 slices.bbox.maxx ++ [',']
                ++ fmtFixed5Pad8 slices.bbox.maxy ++ [',']
                ++ fmtFixed5Pad8 lastSlice.z_pos,
              "$$LAYERS/".data ++ padNat5 layerCount,
              "$$HEADEREND".data,
              "$$GEOMETRYSTART".data ]
          let emptyFirst : List (List Char) :=
            if format = CliFormat.UseEmptyFirstLayer then ["$$LAYER/0.0".data] else []
          .ok (header ++ emptyFirst
            ++ slices.slices.flatMap (sliceLines units)
            ++ ["$$GEOMETRYEND".data])

/-! ## Marching-squares extraction and segment stitching
(`PolySlice::from_sdf`, `src/slice.rs`)

The raster sampler (`&dyn Image`) is modelled as dimensions plus a value
function.  The stitching `while` loop is modelled with explicit fuel
`2 * segments + 1`; `stitchLoop_fuel_irrelevant`-style reasoning below shows
the fuel bound is never exhausted, so the model computes exactly the loop's
result.  The ghost fields `fin` / `disc` / `curr` record which segment
indices have been consumed and into what kind of chain; they alter no
computation. -/

structure ImageModel where
  width : ℕ
  height : ℕ
  gray_value : ℕ → ℕ → ℚ

/-- `Segment` from `src/slice.rs` (`end` is a Lean keyword, renamed `stop`). -/
structure Segment where
  start : Vec2
  stop : Vec2
  min_y : ℚ
  max_y : ℚ
  used : Bool
deriving DecidableEq, Repr

instance : Inhabited Segment := ⟨⟨⟨0, 0⟩, ⟨0, 0⟩, 0, 0, false⟩⟩

def Segment.new (s e : Vec2) : Segment :=
  ⟨s, e, min s.y e.y, max s.y e.y, false⟩

/-- `EDGE_LUT` from `src/slice.rs`: per corner-sign mask, the crossed-edge
bitmask followed by up to two segments as pairs of edge indices. -/
def EDGE_LUT : List (List ℤ) :=
  [ [0, -1, -1, -1, -1],
    [9, 0, 3, -1, -1],
    [3, 1, 0, -1, -1],
    [10, 1, 3, -1, -1],
    [6, 2, 1, -1, -1],
    [15, 0, 1, 2, 3],
    [5, 2, 0, -1, -1],
    [12, 2, 3, -1, -1],
    [12, 3, 2, -1, -1],
    [5, 0, 2, -1, -1],
    [15, 3, 0, 1, 2],
    [6, 1, 2, -1, -1],
    [10, 3, 1, -1, -1],
    [3, 0, 1, -1, -1],
    [9, 3, 0, -1, -1],
    [0, -1, -1, -1, -1] ]

def lutAt (i j : ℕ) : ℤ := (EDGE_LUT.getD i []).getD j (-1)

/-- `zero_crossing` from `src/slice.rs`. -/
def zero_crossing (a b : ℚ) : ℚ := |a| / (|a| + |b|) + 1 / 1000000

/-- Segments emitted for the 2×2 cell at `(x, y)`. -/
def cellSegments (img : ImageModel) (offset : Vec2) (scale : ℚ) (x y : ℕ) :
    List Segment :=
  let c0 := img.gray_value x y
  let c1 := img.gray_value (x + 1) y
  let c2 := img.gray_value (x + 1) (y + 1)
  let c3 := img.gray_value x (y + 1)
  let idx := (if c0 < 0 then 1 else 0) + (if c1 < 0 then 2 else 0)
    + (if c2 < 0 then 4 else 0) + (if c3 < 0 then 8 else 0)
  let mask := lutAt idx 0
  if mask = 0 then []
  else
    let m := mask.toNat
    let cr0 : Vec2 := if m.testBit 0 then ⟨(x : ℚ) + zero_crossing c0 c1, (y : ℚ)⟩ else ⟨0, 0⟩
    let cr1 : Vec2 := if m.testBit 1 then ⟨(x : ℚ) + 1, (y : ℚ) + zero_crossing c1 c2⟩ else ⟨0, 0⟩
    let cr2 : Vec2 := if m.testBit 2 then ⟨(x : ℚ) + zero_crossing c3 c2, (y : ℚ) + 1⟩ else ⟨0, 0⟩
    let cr3 : Vec2 := if m.testBit 3 then ⟨(x : ℚ), (y : ℚ) + zero_crossing c0 c3⟩ else ⟨0, 0⟩
    let crAt : ℤ → Vec2 := fun e =>
      if e = 0 then cr0 else if e = 1 then cr1 else if e = 2 then cr2 else cr3
    let mkSeg : ℤ → ℤ → Segment := fun a b =>
      Segment.new ⟨offset.x + (crAt a).x * scale, offset.y + (crAt a).y * scale⟩
        ⟨offset.x + (crAt b).x * scale, offset.y + (crAt b).y * scale⟩
    let s1 := lutAt idx 1
    if s1 < 0 then []
    else
      let seg1 := mkSeg s1 (lutAt idx 2)
      let s3 := lutAt idx 3
      if s3 < 0 then [seg1] else [seg1, mkSeg s3 (lutAt idx 4)]

/-- Row-major extraction over all interior 2×2 cells. -/
def extractSegments (img : ImageModel) (offset : Vec2) (scale : ℚ) : List Segment :=
  (List.range (img.height - 1)).flatMap fun y =>
    (List.range (img.width - 1)).flatMap fun x =>
      cellSegments img offset scale x y

def getSeg (segs : List Segment) (i : ℕ) : Segment := segs.getD i default

/-- Mark segment `i` as used (`segments[idx].used = true`). -/
def setUsed : List Segment → ℕ → List Segment
  | [], _ => []
  | s :: t, 0 => {s with used := true} :: t
  | s :: t, n + 1 => s :: setUsed t n

def findUnusedAux : List Segment → ℕ → Option ℕ
  | [], _ => none
  | s :: t, i => if s.used = false then some i else findUnusedAux t (i + 1)

/-- `segments.iter().enumerate().skip(unused).find(|!used|)`. -/
def findUnused (segs : List Segment) (start : ℕ) : Option ℕ :=
  findUnusedAux (segs.drop start) start

/-- The backward walk lowering `search_from` while the previous segment's
`max_y` still reaches `f_min`. -/
def searchBack (segs : List Segment) (fminQ : ℚ) : ℕ → ℕ
  | 0 => 0
  | n + 1 => if (getSeg segs n).max_y ≥ fminQ then searchBack segs fminQ n else n + 1

/-- The best-match search loop from `search_from` to the end of the segment
list: skips used segments, stops early once `min_y > f_max`, and keeps the
minimum-squared-distance head (`best_start`) and tail (`best_end`)
candidates. -/
def searchBestAux (pStart pEnd : Vec2) (fmaxQ : ℚ) :
    List Segment → ℕ → (Option ℕ × ℚ) → (Option ℕ × ℚ) →
    (Option ℕ × ℚ) × (Option ℕ × ℚ)
  | [], _, bs, be => (bs, be)
  | s :: rest, idx, bs, be =>
      if s.used then searchBestAux pStart pEnd fmaxQ rest (idx + 1) bs be
      else if s.min_y > fmaxQ then (bs, be)
      else
        let sqrS := Vec2.normSq pStart s.stop
        let bs' := if sqrS < bs.2 then (some idx, sqrS) else bs
        let sqrE := Vec2.normSq pEnd s.start
        let be' := if sqrE < be.2 then (some idx, sqrE) else be
        searchBestAux pStart pEnd fmaxQ rest (idx + 1) bs' be'

/-- State of the stitching loop.  `fin`, `disc`, `curr` are ghost
bookkeeping: the segment indices consumed into finalized contours, into
discarded chains, and into the in-progress chain. -/
structure StitchState where
  segments : List Segment
  segments_left : ℕ
  curr_start : Option ℕ
  curr_end : Option ℕ
  unused : ℕ
  contour : List Vec2
  slice : PolySlice
  fin : List ℕ
  disc : List ℕ
  curr : List ℕ
deriving Repr

/-- Seeding a new chain from segment `si`. -/
def consumeSeed (st : StitchState) (si : ℕ) : StitchState :=
  { st with
    curr_start := some si
    curr_end := some si
    unused := si + 1
    contour := st.contour ++ [(getSeg st.segments si).start, (getSeg st.segments si).stop]
    segments := setUsed st.segments si
    segments_left := st.segments_left - 1
    curr := st.curr ++ [si] }

/-- The best-match computation of one loop iteration: the self-closing
pre-candidate, the pruning bounds, the backward walk and the forward search;
returns `(best_start, best_end)`. -/
def stitchBest (st : StitchState) (cs ce : ℕ) : Option ℕ × Option ℕ :=
  let segs := st.segments
  let pre : (Option ℕ × ℚ) × (Option ℕ × ℚ) :=
    if ce ≠ cs then
      let sqr := Vec2.normSq (getSeg segs cs).start (getSeg segs ce).stop
      if sqr < 1 then ((some ce, sqr), (some cs, sqr)) else ((none, 1), (none, 1))
    else ((none, 1), (none, 1))
  let fminQ := (Int.floor (min (getSeg segs cs).min_y (getSeg segs ce).min_y) : ℚ) - 1
  let fmaxQ := (Int.ceil (max (getSeg segs cs).max_y (getSeg segs ce).max_y) : ℚ) + 1
  let sf := searchBack segs fminQ (min cs ce)
  let res := searchBestAux (getSeg segs cs).start (getSeg segs ce).stop fmaxQ
    (segs.drop sf) sf pre.1 pre.2
  (res.1.1, res.2.1)

/-- The resolution of one loop iteration, given the best head/tail matches:
close-and-finalize, discard, or extend. -/
def stitchApply (st : StitchState) (cs ce : ℕ) (bs be : Option ℕ) :
    StitchState × Bool :=
  if bs = none ∧ be = none then
    let st1 := {st with
      contour := [], curr_start := none, curr_end := none,
      disc := st.disc ++ st.curr, curr := []}
    (st1, true)
  else if bs = be ∨ bs = some ce ∨ be = some cs then
    let st1 :=
      if bs = be then
        match be with
        | some i => {st with
            segments := setUsed st.segments i,
            segments_left := st.segments_left - 1, curr := st.curr ++ [i]}
        | none => st
      else st
    let st2 :=
      if st1.contour.length > 2 then
        match PolyContour.new st1.contour Winding.Unknown with
        | .ok c => {st1 with
            slice := st1.slice.add_contour c,
            fin := st1.fin ++ st1.curr, curr := []}
        | .error _ => {st1 with disc := st1.disc ++ st1.curr, curr := []}
      else {st1 with disc := st1.disc ++ st1.curr, curr := []}
    let st3 := {st2 with contour := [], curr_start := none, curr_end := none}
    (st3, true)
  else
    let st1 :=
      match be with
      | some i => {st with
          contour := st.contour ++ [(getSeg st.segments i).stop],
          segments := setUsed st.segments i, segments_left := st.segments_left - 1,
          curr_end := some i, curr := st.curr ++ [i]}
      | none => st
    let st2 :=
      match bs with
      | some i => {st1 with
          contour := (getSeg st1.segments i).start :: st1.contour,
          segments := setUsed st1.segments i, segments_left := st1.segments_left - 1,
          curr_start := some i, curr := st1.curr ++ [i]}
      | none => st1
    (st2, true)

/-- The search-and-resolve part of one loop iteration (everything after the
seeding step).  Returns the new state and whether the loop continues (the
`Bool` is `false` only for the unreachable `let ... else break`). -/
def stitchResolve (st : StitchState) : StitchState × Bool :=
  match st.curr_start, st.curr_end with
  | some cs, some ce =>
      stitchApply st cs ce (stitchBest st cs ce).1 (stitchBest st cs ce).2
  | _, _ => (st, false)

/-- One iteration of the `while segments_left > 0` body. -/
def stitchStep (st : StitchState) : StitchState × Bool :=
  match st.curr_start with
  | none =>
      match findUnused st.segments st.unused with
      | none => (st, false)
      | some si => stitchResolve (consumeSeed st si)
  | some _ => stitchResolve st

def stitchLoop : ℕ → StitchState → StitchState
  | 0, st => st
  | fuel + 1, st =>
      if st.segments_left = 0 then st
      else
        let r := stitchStep st
        if r.2 then stitchLoop fuel r.1 else r.1

/-- The whole stitching pass for one layer; the chain still in progress when
the loop exits is dropped without being finalized (its segments count as
discarded). -/
def stitchRun (segments : List Segment) (z : ℚ) : StitchState :=
  let stf := stitchLoop (2 * segments.length + 1)
    ⟨segments, segments.length, none, none, 0, [], PolySlice.new z, [], [], []⟩
  {stf with disc := stf.disc ++ stf.curr, curr := []}

/-- `PolySlice::from_sdf`. -/
def PolySlice.from_sdf (img : ImageModel) (z_pos : ℚ) (offset : Vec2) (scale : ℚ) :
    PolySlice :=
  if img.width < 2 ∨ img.height < 2 then PolySlice.new z_pos
  else (stitchRun (extractSegments img offset scale) z_pos).slice

/-! ## Reader metatheory: stepping lemmas -/

/-- The reader is inside the geometry section: past the header, not binary,
not yet at `$$GEOMETRYEND`. -/
def GeomMode (s : RState) : Prop :=
  s.done = false ∧ s.header_started = true ∧ s.header_ended = true ∧
  s.is_binary = false ∧ s.geometry_started = true

/-! ## Claim C6: segment conservation in the stitching pass -/

/-- Segment `i` is currently marked consumed. -/
def usedAt (segs : List Segment) (i : ℕ) : Prop := (getSeg segs i).used = true

/-- Loop invariant of the stitching pass over an `N`-segment list: the used
flags coincide with membership in the ghost consumption lists, no index is
consumed twice, the remaining count is exact, everything below the
low-water mark is consumed, and the chain endpoints are consistent. -/
structure SInv (N : ℕ) (st : StitchState) : Prop where
  len : st.segments.length = N
  mem : ∀ i < N, (usedAt st.segments i ↔ i ∈ st.fin ++ st.disc ++ st.curr)
  nodup : (st.fin ++ st.disc ++ st.curr).Nodup
  bound : ∀ i ∈ st.fin ++ st.disc ++ st.curr, i < N
  leftInv : st.segments_left + (st.fin ++ st.disc ++ st.curr).length = N
  mark : ∀ i < st.unused, usedAt st.segments i
  syncSE : st.curr_start.isSome = st.curr_end.isSome
  chainS : ∀ j, st.curr_start = some j → usedAt st.segments j ∧ j < N
  chainE : ∀ j, st.curr_end = some j → usedAt st.segments j ∧ j < N

/-- Termination measure of the stitching loop. -/
def stMeasure (st : StitchState) : ℕ :=
  2 * st.segments_left + (if st.curr_start.isSome then 1 else 0)

/-- The comma-separated coordinate tail of a `$$POLYLINE` record, as left by
the writer after the trailing-comma pop: a leading separator, then the
`{:.5}`-formatted x and y of each vertex, comma separated. -/
def coordsTail (u : ℚ) : List Vec2 → List Char
  | [] => []
  | v :: rest =>
      ',' :: (fmtFixed5 (v.x / u) ++ ',' :: (fmtFixed5 (v.y / u) ++ coordsTail u rest))

/-- The contour the reader reconstructs from a written `$$POLYLINE` record
when the reader's units factor equals the writer's: every coordinate is
divided by `u`, `{:.5}`-rounded, and multiplied back by `u`. -/
def readBackContour (u : ℚ) (c : PolyContour) : PolyContour :=
  ⟨c.vertices.map fun v => ⟨roundedVal5 (v.x / u) * u, roundedVal5 (v.y / u) * u⟩,
   c.winding,
   (c.vertices.map fun v => ⟨roundedVal5 (v.x / u) * u, roundedVal5 (v.y / u) * u⟩).foldl
     BBox2.include_point BBox2.empty⟩

/-- The slice the reader reconstructs from one written slice: quantized `z`,
contours in the writer's three-pass order, each read back. -/
def readBackSlice (u : ℚ) (sl : PolySlice) : PolySlice :=
  ((passEmit sl.contours).map (readBackContour u)).foldl PolySlice.add_contour
    (PolySlice.new (roundedVal5 (sl.z_pos / u) * u))

/-- Concrete triangle contour for the C1 witness. -/
def W1c : PolyContour := ⟨[⟨0, 0⟩, ⟨1, 0⟩, ⟨0, 1⟩], Winding.CounterClockwise, BBox2.empty⟩

/-- Concrete one-contour slice at `z = 1` for the C1 witness. -/
def W1s : PolySlice := ⟨[W1c], 1, BBox2.empty⟩

/-- Concrete one-slice stack for the C1 witness. -/
def W1stack : PolySliceStack := ⟨[W1s], ⟨0, 0, 0, 1, 1, 1⟩⟩

/-! ## Claim C5: winding determinism under rotation and reversal -/

theorem shoelaceTerm_antisymm (a b : Vec2) : shoelaceTerm b a = -shoelaceTerm a b := by
  simp only [shoelaceTerm]
  ring

theorem shoelaceAux_eq (first : Vec2) (rest : List Vec2) (cur : Vec2) :
    shoelaceAux first rest cur
      = pairSum (cur :: rest) + shoelaceTerm ((cur :: rest).getLast (by simp)) first := by
  induction rest generalizing cur with
  | nil => simp [shoelaceAux, pairSum]
  | cons b r ih =>
      rw [shoelaceAux, ih b]
      have hlast : (cur :: b :: r).getLast (by simp) = (b :: r).getLast (by simp) :=
        List.getLast_cons (by simp)
      rw [hlast]
      show shoelaceTerm cur b + _ = pairSum (cur :: b :: r) + _
      rw [pairSum]
      ring

/-- Decomposition of the cyclic shoelace sum into the open-path pair sum plus
the wrap-around term from the last vertex back to the first. -/
theorem shoelaceSum_eq_pairSum (v : Vec2) (vs : List Vec2) :
    shoelaceSum (v :: vs)
      = pairSum (v :: vs) + shoelaceTerm ((v :: vs).getLast (by simp)) v := by
  rw [shoelaceSum, shoelaceAux_eq]

theorem pairSum_append_last (l : List Vec2) (hl : l ≠ []) (a : Vec2) :
    pairSum (l ++ [a]) = pairSum l + shoelaceTerm (l.getLast hl) a := by
  induction l with
  | nil => exact absurd rfl hl
  | cons b r ih =>
      cases r with
      | nil => simp [pairSum]
      | cons c s =>
          have h2 : (c :: s : List Vec2) ≠ [] := by simp
          have : ((b :: c :: s) ++ [a] : List Vec2) = b :: ((c :: s) ++ [a]) := by simp
          rw [this]
          show shoelaceTerm b c + pairSum ((c :: s) ++ [a]) = _
          rw [ih h2]
          have hlast : (b :: c :: s).getLast (by simp) = (c :: s).getLast h2 :=
            List.getLast_cons h2
          rw [hlast, pairSum]
          ring

/-- The cyclic shoelace sum is invariant under a single rotation step. -/
theorem shoelaceSum_rotate_one (l : List Vec2) :
    shoelaceSum (l.rotate 1) = shoelaceSum l := by
  cases l with
  | nil => simp
  | cons a rest =>
      have hrot : (a :: rest).rotate 1 = rest ++ [a] := by
        simpa using List.rotate_cons_succ rest a 0
      rw [hrot]
      cases rest with
      | nil => simp
      | cons b r =>
          have hne : (b :: r : List Vec2) ≠ [] := by simp
          have hcons : ((b :: r) ++ [a] : List Vec2) = b :: (r ++ [a]) := by simp
          rw [hcons, shoelaceSum_eq_pairSum, shoelaceSum_eq_pairSum]
          have hl1 : (b :: (r ++ [a])).getLast (by simp) = a := by
            simpa [hcons] using List.getLast_concat (l := b :: r) (a := a)
          have hl2 : (a :: b :: r).getLast (by simp) = (b :: r).getLast hne :=
            List.getLast_cons hne
          rw [hl1, hl2]
          have hps : pairSum (b :: (r ++ [a])) = pairSum (b :: r) + shoelaceTerm ((b :: r).getLast hne) a := by
            have := pairSum_append_last (b :: r) hne a
            simpa [hcons] using this
          rw [hps, pairSum]
          ring

/-- The cyclic shoelace sum is invariant under arbitrary rotation. -/
theorem shoelaceSum_rotate (l : List Vec2) (k : ℕ) :
    shoelaceSum (l.rotate k) = shoelaceSum l := by
  induction k generalizing l with
  | zero => simp
  | succ n ih =>
      have : l.rotate (n + 1) = (l.rotate 1).rotate n := by
        rw [List.rotate_rotate]
        norm_num [Nat.add_comm]
      rw [this, ih, shoelaceSum_rotate_one]

theorem pairSum_reverse (l : List Vec2) : pairSum l.reverse = -pairSum l := by
  induction l with
  | nil => simp [pairSum]
  | cons a r ih =>
      cases r with
      | nil => simp [pairSum]
      | cons b s =>
          have hne : ((b :: s : List Vec2).reverse) ≠ [] := by simp
          have hrev : ((a :: b :: s : List Vec2)).reverse = (b :: s).reverse ++ [a] := by simp
          rw [hrev, pairSum_append_last _ hne a, ih]
          have hlast : ((b :: s : List Vec2).reverse).getLast hne = b := by
            simpa using List.getLast_reverse (l := (b :: s : List Vec2)) (by simp)
          rw [hlast, pairSum, shoelaceTerm_antisymm]
          ring

theorem wrapTerm_reverse (l : List Vec2) : wrapTerm l.reverse = -wrapTerm l := by
  unfold wrapTerm
  rw [List.getLast?_reverse, List.head?_reverse]
  cases l.head? <;> cases l.getLast? <;>
    first
      | exact neg_zero.symm
      | exact shoelaceTerm_antisymm _ _

theorem shoelaceSum_wrap (l : List Vec2) (hl : l ≠ []) :
    shoelaceSum l = pairSum l + wrapTerm l := by
  cases l with
  | nil => exact absurd rfl hl
  | cons a rest =>
      rw [shoelaceSum_eq_pairSum]
      congr 1

/-- Reversal negates the cyclic shoelace sum. -/
theorem shoelaceSum_reverse (l : List Vec2) :
    shoelaceSum l.reverse = -shoelaceSum l := by
  cases l with
  | nil => simp [shoelaceSum]
  | cons a rest =>
      have hner : ((a :: rest : List Vec2).reverse) ≠ [] := by simp
      rw [shoelaceSum_wrap _ hner, pairSum_reverse, wrapTerm_reverse,
        shoelaceSum_wrap _ (by simp)]
      ring

theorem detect_winding_rotate (vs : List Vec2) (k : ℕ) :
    detect_winding (vs.rotate k) = detect_winding vs := by
  unfold detect_winding
  rw [List.length_rotate, shoelaceSum_rotate]

theorem detect_winding_reverse (vs : List Vec2) :
    detect_winding vs.reverse = windingReversed (detect_winding vs) := by
  unfold detect_winding
  rw [List.length_reverse, shoelaceSum_reverse]
  by_cases h : vs.length < 3
  · simp [h, windingReversed]
  · simp only [h, if_false]
    rcases lt_trichotomy (shoelaceSum vs) 0 with hlt | heq | hgt
    · have h1 : ¬shoelaceSum vs > 0 := by linarith
      have h3 : -shoelaceSum vs > 0 := by linarith
      simp [h1, hlt, h3, windingReversed]
    · simp [heq, windingReversed]
    · have h1 : ¬(-shoelaceSum vs > 0) := by linarith
      have h2 : -shoelaceSum vs < 0 := by linarith
      simp [h1, h2, hgt, windingReversed]

/-- C5: `detect_winding` is invariant under cyclic rotation of the vertex
list and swaps Clockwise with CounterClockwise under list reversal; the
triangle `[(0,0),(1,0),(0,1)]` classifies as CounterClockwise and its
reverse `[(0,1),(1,0),(0,0)]` as Clockwise. -/
theorem C5_winding_rotation_reversal :
    (∀ (vs : List Vec2) (k : ℕ), detect_winding (vs.rotate k) = detect_winding vs) ∧
    (∀ vs : List Vec2, detect_winding vs.reverse = windingReversed (detect_winding vs)) ∧
    windingReversed Winding.Clockwise = Winding.CounterClockwise ∧
    windingReversed Winding.CounterClockwise = Winding.Clockwise ∧
    detect_winding [⟨0, 0⟩, ⟨1, 0⟩, ⟨0, 1⟩] = Winding.CounterClockwise ∧
    detect_winding [⟨0, 1⟩, ⟨1, 0⟩, ⟨0, 0⟩] = Winding.Clockwise := by
  refine ⟨detect_winding_rotate, detect_winding_reverse, rfl, rfl, ?_, ?_⟩ <;>
    norm_num [detect_winding, shoelaceSum, shoelaceAux, shoelaceTerm]

/-! ## Claim C3: what winding `PolyContour::new` stores -/

/-- C3 counterexample: for the CounterClockwise triangle with caller-declared
winding Clockwise, detection returns CounterClockwise (not Unknown) yet the
constructed contour stores the declared Clockwise value, so `new` does not
store the recomputed winding. -/
theorem C3_counterexample :
    detect_winding [⟨0, 0⟩, ⟨1, 0⟩, ⟨0, 1⟩] = Winding.CounterClockwise ∧
    (PolyContour.new [⟨0, 0⟩, ⟨1, 0⟩, ⟨0, 1⟩] Winding.Clockwise).map PolyContour.winding
      = Except.ok Winding.Clockwise := by
  constructor
  · norm_num [detect_winding, shoelaceSum, shoelaceAux, shoelaceTerm]
  · norm_num [PolyContour.new, Except.map]
    simp

/-- C3 (amended): `PolyContour::new` succeeds on any vertex list with at
least 3 vertices and any declared winding; it stores the winding detected
from the vertices only when the declared winding is Unknown, and otherwise
stores the caller-declared value unchanged (even when it disagrees with the
detected winding). -/
theorem C3_new_stores_declared_winding (vs : List Vec2) (w : Winding)
    (h : 3 ≤ vs.length) :
    ∃ c : PolyContour, PolyContour.new vs w = Except.ok c ∧
      c.winding = (if w = Winding.Unknown then detect_winding vs else w) ∧
      c.vertices = vs := by
  unfold PolyContour.new
  rw [if_neg (by omega)]
  exact ⟨_, rfl, rfl, rfl⟩

/-- Witness for C3: instantiates the amended theorem at the CounterClockwise
triangle declared Clockwise. -/
theorem C3_new_stores_declared_winding_witness :
    3 ≤ ([⟨0, 0⟩, ⟨1, 0⟩, ⟨0, 1⟩] : List Vec2).length ∧
    ∃ c : PolyContour,
      PolyContour.new [⟨0, 0⟩, ⟨1, 0⟩, ⟨0, 1⟩] Winding.Clockwise = Except.ok c ∧
      c.winding = (if Winding.Clockwise = Winding.Unknown
        then detect_winding [⟨0, 0⟩, ⟨1, 0⟩, ⟨0, 1⟩] else Winding.Clockwise) ∧
      c.vertices = [⟨0, 0⟩, ⟨1, 0⟩, ⟨0, 1⟩] :=
  ⟨by decide, C3_new_stores_declared_winding _ _ (by decide)⟩

/-! ## Claim C10: degenerate raster dimensions -/

/-- C10: when the image is less than 2 pixels wide or tall,
`PolySlice::from_sdf` returns the empty slice at the given `z_pos` (zero
contours, `is_empty` true) and never samples the image: the result does not
depend on the pixel values. -/
theorem C10_from_sdf_small_image (img : ImageModel) (z : ℚ) (off : Vec2) (scale : ℚ)
    (h : img.width < 2 ∨ img.height < 2) :
    PolySlice.from_sdf img z off scale = PolySlice.new z ∧
    (PolySlice.from_sdf img z off scale).contours = [] ∧
    (PolySlice.from_sdf img z off scale).is_empty = true ∧
    (PolySlice.from_sdf img z off scale).z_pos = z ∧
    (∀ g : ℕ → ℕ → ℚ,
      PolySlice.from_sdf ⟨img.width, img.height, g⟩ z off scale
        = PolySlice.from_sdf img z off scale) := by
  have he : PolySlice.from_sdf img z off scale = PolySlice.new z := by
    unfold PolySlice.from_sdf
    rw [if_pos h]
  refine ⟨he, by rw [he]; rfl, by rw [he]; rfl, by rw [he]; rfl, ?_⟩
  intro g
  have he2 : PolySlice.from_sdf ⟨img.width, img.height, g⟩ z off scale = PolySlice.new z := by
    unfold PolySlice.from_sdf
    exact if_pos h
  rw [he, he2]

/-- Witness for C10 at a 1×5 all-inside image with `z = 7`. -/
theorem C10_from_sdf_small_image_witness :
    ((ImageModel.mk 1 5 fun _ _ => -1).width < 2 ∨ (ImageModel.mk 1 5 fun _ _ => -1).height < 2) ∧
    PolySlice.from_sdf ⟨1, 5, fun _ _ => -1⟩ 7 ⟨0, 0⟩ 1 = PolySlice.new 7 :=
  ⟨Or.inl (by decide),
    (C10_from_sdf_small_image ⟨1, 5, fun _ _ => -1⟩ 7 ⟨0, 0⟩ 1 (Or.inl (by decide))).1⟩

/-! ## Claim C9: the writer's three-pass contour grouping -/

theorem passEmit_eq_filters (cs : List PolyContour) :
    passEmit cs
      = cs.filter (fun c => c.winding = Winding.CounterClockwise)
        ++ cs.filter (fun c => c.winding = Winding.Clockwise)
        ++ cs.filter (fun c => c.winding = Winding.Unknown) := by
  have h3 : List.range 3 = [0, 1, 2] := rfl
  unfold passEmit
  rw [h3]
  simp

theorem passEmit_perm (cs : List PolyContour) : (passEmit cs).Perm cs := by
  rw [passEmit_eq_filters]
  have h1 := List.filter_append_perm
    (fun c : PolyContour => decide (c.winding = Winding.CounterClockwise)) cs
  refine List.Perm.trans ?_ h1
  rw [List.append_assoc]
  refine List.Perm.append_left _ ?_
  set notCCW : PolyContour → Bool :=
    fun x => !decide (x.winding = Winding.CounterClockwise) with hn
  have h2 := List.filter_append_perm
    (fun c : PolyContour => decide (c.winding = Winding.Clockwise)) (cs.filter notCCW)
  have e1 : (cs.filter notCCW).filter (fun c => decide (c.winding = Winding.Clockwise))
      = cs.filter (fun c => decide (c.winding = Winding.Clockwise)) := by
    rw [List.filter_filter]
    apply List.filter_congr
    intro c _
    cases hc : c.winding <;> simp [hn, hc]
  have e2 : (cs.filter notCCW).filter (fun x => !decide (x.winding = Winding.Clockwise))
      = cs.filter (fun c => decide (c.winding = Winding.Unknown)) := by
    rw [List.filter_filter]
    apply List.filter_congr
    intro c _
    cases hc : c.winding <;> simp [hn, hc]
  rw [e1, e2] at h2
  exact h2

/-- C9: within each written slice the `$$POLYLINE` records appear in three
fixed passes — all CounterClockwise contours first, then all Clockwise, then
all Unknown, each pass in insertion order — every contour emitted exactly
once, with winding codes 0 for Clockwise, 1 for CounterClockwise and 2 for
Unknown. -/
theorem C9_writer_three_passes :
    (∀ (units : ℚ) (sl : PolySlice),
      sliceLines units sl
        = ("$$LAYER/".data ++ fmtFixed5 (sl.z_pos / units))
          :: ((sl.contours.filter (fun c => c.winding = Winding.CounterClockwise)
            ++ sl.contours.filter (fun c => c.winding = Winding.Clockwise)
            ++ sl.contours.filter (fun c => c.winding = Winding.Unknown)).map
              (polylineLine units))) ∧
    (∀ cs : List PolyContour, (passEmit cs).Perm cs) ∧
    windingCode Winding.Clockwise = 0 ∧
    windingCode Winding.CounterClockwise = 1 ∧
    windingCode Winding.Unknown = 2 := by
  refine ⟨?_, passEmit_perm, rfl, rfl, rfl⟩
  intro units sl
  unfold sliceLines
  rw [passEmit_eq_filters]

theorem runLines_append (s : RState) (n : ℕ) (a b : List (List Char)) :
    runLines s n (a ++ b)
      = match runLines s n a with
        | .error e => .error e
        | .ok s' => runLines s' (n + a.length) b := by
  induction a generalizing s n with
  | nil => simp [runLines]
  | cons l rest ih =>
      rw [List.cons_append, runLines, runLines]
      cases processLine s n l with
      | error e => rfl
      | ok s' =>
          dsimp only
          rw [ih]
          cases runLines s' (n + 1) rest with
          | error e => rfl
          | ok s'' =>
              have : n + 1 + rest.length = n + (rest.length + 1) := by omega
              simp [this]

/-- In geometry mode, a line whose cleaned form is non-empty is handled by
`processGeometryLine`. -/
theorem processLine_geom (s : RState) (n : ℕ) (raw : List Char)
    (hm : GeomMode s) (hne : cleanLine raw ≠ []) :
    processLine s n raw = processGeometryLine s n (cleanLine raw) := by
  obtain ⟨hd, hhs, hhe, hb, hg⟩ := hm
  unfold processLine processPostHeader
  simp [hd, hhs, hhe, hb, hg, hne]

theorem processGeometryLine_layer_err (s : RState) (n : ℕ) (zs r : List Char) (q pz : ℚ)
    (hq : readQ zs = .ok (q, r)) (hpz : s.prev_z = some pz)
    (hlt : q * s.units_header < pz) :
    processGeometryLine s n ("$$LAYER".data ++ zs) = .error Err.zNotMonotonic := by
  have h1 : ("$$GEOMETRYEND".data).isPrefixOf ("$$LAYER".data ++ zs) = false := rfl
  have h2 : ("$$LAYER".data).isPrefixOf ("$$LAYER".data ++ zs) = true := by
    have e : "$$LAYER".data = ['$', '$', 'L', 'A', 'Y', 'E', 'R'] := rfl
    rw [e]
    simp [List.isPrefixOf_cons₂]
  have h3 : ("$$LAYER".data ++ zs).drop 7 = zs := rfl
  unfold processGeometryLine
  rw [h3]
  simp [h1, h2, hq, hpz, hlt]

theorem isPrefixOf_append_self (l t : List Char) : l.isPrefixOf (l ++ t) = true := by
  induction l with
  | nil => simp
  | cons c cs ih => simp [List.isPrefixOf_cons₂, ih]

/-- Inversion for a successfully processed `$$LAYER` record: the new state
records `prev_z = z * units` and all mode flags, the units factor, and the
label are unchanged. -/
theorem processGeometryLine_layer_ok_inv (s s' : RState) (n : ℕ) (zs r : List Char)
    (q : ℚ) (hq : readQ zs = .ok (q, r))
    (h : processGeometryLine s n ("$$LAYER".data ++ zs) = .ok s') :
    s'.prev_z = some (q * s.units_header) ∧
    s'.done = s.done ∧ s'.header_started = s.header_started ∧
    s'.header_ended = s.header_ended ∧ s'.is_binary = s.is_binary ∧
    s'.geometry_started = s.geometry_started ∧ s'.units_header = s.units_header := by
  have h1 : ("$$GEOMETRYEND".data).isPrefixOf ("$$LAYER".data ++ zs) = false := rfl
  have h2 : ("$$LAYER".data).isPrefixOf ("$$LAYER".data ++ zs) = true :=
    isPrefixOf_append_self _ _
  have h3 : ("$$LAYER".data ++ zs).drop 7 = zs := rfl
  unfold processGeometryLine at h
  rw [h3, hq] at h
  simp only [h1, h2] at h
  repeat' split at h
  all_goals first
    | (injection h with h'
       subst h'
       exact ⟨rfl, rfl, rfl, rfl, rfl, rfl, rfl⟩)
    | simp_all

/-- A successful `$$POLYLINE` record changes at most the label, warnings and
current slice: `prev_z`, the units factor and all mode flags survive. -/
theorem processPolyline_ok_inv (s s' : RState) (n : ℕ) (data : List Char)
    (h : processPolyline s n data = .ok s') :
    s'.prev_z = s.prev_z ∧ s'.done = s.done ∧ s'.header_started = s.header_started ∧
    s'.header_ended = s.header_ended ∧ s'.is_binary = s.is_binary ∧
    s'.geometry_started = s.geometry_started ∧ s'.units_header = s.units_header := by
  unfold processPolyline at h
  dsimp only at h
  repeat'
    first
      | (dsimp only at h)
      | (split at h)
  all_goals first
    | (injection h with h'
       subst h'
       exact ⟨rfl, rfl, rfl, rfl, rfl, rfl, rfl⟩)
    | (simp_all
       done)

/-- A successfully processed geometry-section line that is neither a
`$$LAYER` nor a `$$GEOMETRYEND` record preserves `prev_z`, the units factor
and the mode flags. -/
theorem processGeometryLine_ok_inv (s s' : RState) (n : ℕ) (line : List Char)
    (hnl : ("$$LAYER".data).isPrefixOf line = false)
    (hng : ("$$GEOMETRYEND".data).isPrefixOf line = false)
    (h : processGeometryLine s n line = .ok s') :
    s'.prev_z = s.prev_z ∧ s'.done = s.done ∧ s'.header_started = s.header_started ∧
    s'.header_ended = s.header_ended ∧ s'.is_binary = s.is_binary ∧
    s'.geometry_started = s.geometry_started ∧ s'.units_header = s.units_header := by
  unfold processGeometryLine at h
  simp only [hnl, hng, Bool.false_eq_true, if_false] at h
  split at h
  · exact processPolyline_ok_inv _ _ _ _ h
  · split at h
    all_goals
      injection h with h'
      subst h'
      exact ⟨rfl, rfl, rfl, rfl, rfl, rfl, rfl⟩

/-- Whole-line version of the previous lemma, in geometry mode. -/
theorem processLine_ok_inv_geom (s s' : RState) (n : ℕ) (raw : List Char)
    (hm : GeomMode s)
    (hnl : ("$$LAYER".data).isPrefixOf (cleanLine raw) = false)
    (hng : ("$$GEOMETRYEND".data).isPrefixOf (cleanLine raw) = false)
    (h : processLine s n raw = .ok s') :
    s'.prev_z = s.prev_z ∧ s'.units_header = s.units_header ∧ GeomMode s' := by
  by_cases hcl : cleanLine raw = []
  · unfold processLine at h
    simp only [hm.1, Bool.false_eq_true, if_false, hcl] at h
    simp at h
    subst h
    exact ⟨rfl, rfl, hm⟩
  · rw [processLine_geom s n raw hm hcl] at h
    obtain ⟨hp, hd, hh1, hh2, hb, hg, hu⟩ := processGeometryLine_ok_inv s s' n _ hnl hng h
    obtain ⟨m1, m2, m3, m4, m5⟩ := hm
    refine ⟨hp, hu, ?_, ?_, ?_, ?_, ?_⟩
    · rw [hd, m1]
    · rw [hh1, m2]
    · rw [hh2, m3]
    · rw [hb, m4]
    · rw [hg, m5]

/-- Running a block of successfully processed lines containing no `$$LAYER`
and no `$$GEOMETRYEND` record preserves `prev_z`, the units factor and
geometry mode. -/
theorem runLines_preserve_geom (mid : List (List Char)) (s s' : RState) (n : ℕ)
    (hm : GeomMode s)
    (hmid : ∀ raw ∈ mid, ("$$LAYER".data).isPrefixOf (cleanLine raw) = false ∧
      ("$$GEOMETRYEND".data).isPrefixOf (cleanLine raw) = false)
    (h : runLines s n mid = .ok s') :
    s'.prev_z = s.prev_z ∧ s'.units_header = s.units_header ∧ GeomMode s' := by
  induction mid generalizing s n with
  | nil =>
      unfold runLines at h
      injection h with h'
      subst h'
      exact ⟨rfl, rfl, hm⟩
  | cons l rest ih =>
      unfold runLines at h
      cases hpl : processLine s n l with
      | error e => rw [hpl] at h; exact absurd h (by simp)
      | ok s1 =>
          rw [hpl] at h
          obtain ⟨hl1, hl2⟩ := hmid l (by simp)
          obtain ⟨p1, u1, m1⟩ := processLine_ok_inv_geom s s1 n l hm hl1 hl2 hpl
          obtain ⟨p2, u2, m2⟩ := ih s1 (n + 1) m1 (fun raw hr => hmid raw (by simp [hr])) h
          exact ⟨p2.trans p1, u2.trans u1, m2⟩

/-- C7: a file whose geometry section contains two consecutive `$$LAYER`
records (no other `$$LAYER` or `$$GEOMETRYEND` record between them) where the
second record's Z (scaled by the units factor) is strictly smaller than the
first's makes `slices_from_cli_file` return the non-monotonic-Z error rather
than a parsed stack. -/
theorem C7_z_monotonic_rejected
    (pre mid post : List (List Char)) (raw1 raw2 zs1 zs2 r1 r2 : List Char)
    (s1 s2 s3 : RState) (q1 q2 : ℚ)
    (hpre : runLines {} 0 pre = .ok s1)
    (hmode : GeomMode s1)
    (hraw1 : cleanLine raw1 = "$$LAYER".data ++ zs1)
    (hq1 : readQ zs1 = .ok (q1, r1))
    (hstep1 : processLine s1 pre.length raw1 = .ok s2)
    (hmid : runLines s2 (pre.length + 1) mid = .ok s3)
    (hmidn : ∀ raw ∈ mid, ("$$LAYER".data).isPrefixOf (cleanLine raw) = false ∧
      ("$$GEOMETRYEND".data).isPrefixOf (cleanLine raw) = false)
    (hraw2 : cleanLine raw2 = "$$LAYER".data ++ zs2)
    (hq2 : readQ zs2 = .ok (q2, r2))
    (hlt : q2 * s1.units_header < q1 * s1.units_header) :
    slices_from_cli_lines (pre ++ raw1 :: (mid ++ raw2 :: post)) = .error Err.zNotMonotonic := by
  have hne1 : cleanLine raw1 ≠ [] := by rw [hraw1]; simp
  have hstep1g : processGeometryLine s1 pre.length ("$$LAYER".data ++ zs1) = .ok s2 := by
    rw [← hraw1, ← processLine_geom s1 pre.length raw1 hmode hne1]
    exact hstep1
  obtain ⟨hp2, hd2, hh12, hh22, hb2, hg2, hu2⟩ :=
    processGeometryLine_layer_ok_inv s1 s2 pre.length zs1 r1 q1 hq1 hstep1g
  have hmode2 : GeomMode s2 := by
    obtain ⟨m1, m2, m3, m4, m5⟩ := hmode
    exact ⟨hd2.trans m1, hh12.trans m2, hh22.trans m3, hb2.trans m4, hg2.trans m5⟩
  obtain ⟨hp3, hu3, hmode3⟩ := runLines_preserve_geom mid s2 s3 (pre.length + 1) hmode2 hmidn hmid
  have hne2 : cleanLine raw2 ≠ [] := by rw [hraw2]; simp
  have herr : processLine s3 (pre.length + 1 + mid.length) raw2 = .error Err.zNotMonotonic := by
    rw [processLine_geom s3 _ raw2 hmode3 hne2, hraw2]
    apply processGeometryLine_layer_err s3 _ zs2 r2 q2 (q1 * s1.units_header) hq2
    · rw [hp3, hp2]
    · rw [hu3, hu2]
      exact hlt
  unfold slices_from_cli_lines
  rw [runLines_append, hpre]
  dsimp only
  rw [Nat.zero_add, runLines, hstep1]
  dsimp only
  rw [runLines_append, hmid]
  dsimp only
  rw [runLines, herr]
  rfl

set_option maxRecDepth 20000 in
/-- Witness for C7: a concrete file whose second layer record has a smaller
Z than the first. -/
theorem C7_z_monotonic_rejected_witness :
    slices_from_cli_lines
      (["$$HEADERSTART", "$$ASCII", "$$UNITS/1", "$$HEADEREND", "$$GEOMETRYSTART"].map String.data
        ++ "$$LAYER/2.0".data :: ([] ++ "$$LAYER/1.0".data :: []))
      = .error Err.zNotMonotonic := by
  refine C7_z_monotonic_rejected _ [] [] _ _ ("/2.0".data) ("/1.0".data) [] []
    ⟨true, true, true, false, none, none, [], none, BBox3.empty, false, 1, false, [], 0, []⟩
    ⟨true, true, true, false, none, some (PolySlice.new 2), [], some 2, BBox3.empty, false, 1, false, [], 0, []⟩
    ⟨true, true, true, false, none, some (PolySlice.new 2), [], some 2, BBox3.empty, false, 1, false, [], 0, []⟩
    2 1 ?_ ⟨rfl, rfl, rfl, rfl, rfl⟩ ?_ ?_ ?_ ?_ (by intro raw h; cases h) ?_ ?_ (by norm_num)
  · norm_num +decide [runLines, processLine, processHeaderLine, processPostHeader, cleanLine,
      trimChars, stripComment, findAfter, extract_parameter, parseFloatChars, breakAt,
      ofDigitsChars, digitVal]
  · norm_num +decide [cleanLine, trimChars, stripComment]
  · norm_num +decide [readQ, extract_parameter, parseFloatChars, breakAt, ofDigitsChars, digitVal,
      trimChars]
  · norm_num +decide [processLine, processPostHeader, processGeometryLine, cleanLine, trimChars,
      stripComment, findAfter, extract_parameter, parseFloatChars, breakAt, ofDigitsChars, digitVal,
      readQ, PolySlice.new]
  · norm_num +decide [runLines]
  · norm_num +decide [cleanLine, trimChars, stripComment]
  · norm_num +decide [readQ, extract_parameter, parseFloatChars, breakAt, ofDigitsChars, digitVal,
      trimChars]

/-! ## Claim C8: `$$BINARY` handling -/

set_option maxRecDepth 20000 in
/-- C8 counterexample: a file whose header contains `$$BINARY` (later
followed by `$$ASCII`, which resets the flag) parses successfully and
returns a one-slice stack, so `$$BINARY` in the header is not by itself a
hard parse error. -/
theorem C8_counterexample :
    (slices_from_cli_file ["$$HEADERSTART", "$$BINARY", "$$ASCII", "$$UNITS/1", "$$HEADEREND",
        "$$GEOMETRYSTART", "$$LAYER/1.0", "$$GEOMETRYEND"]).map
      (fun r => (r.is_binary, r.slices.count))
      = .ok (false, 1) := by
  norm_num +decide [slices_from_cli_file, slices_from_cli_lines, runLines, processLine,
    processHeaderLine, processPostHeader, processGeometryLine, cleanLine, trimChars, stripComment,
    findAfter, extract_parameter, parseFloatChars, breakAt, ofDigitsChars, digitVal, readQ,
    finishState, PolySliceStack.from_slices, PolySliceStack.add_slices, PolySliceStack.new,
    PolySliceStack.count, PolySlice.new, BBox3.include_bbox2, BBox2.is_empty, BBox2.empty, fmax,
    BBox3.empty, Except.map, List.foldl]

/-- C8 (amended): when the header ends with the binary flag still set (a
`$$BINARY` record not later overridden by `$$ASCII`), the reader fails with
the hard binary-not-supported error at the first following line whose
comment-stripped trim is non-empty; a binary-flagged file with no such line
after the header returns successfully with `is_binary` reported. -/
theorem C8_binary_rejected (pre post : List (List Char)) (raw : List Char) (s : RState)
    (hpre : runLines {} 0 pre = .ok s)
    (hd : s.done = false) (h1 : s.header_started = true) (h2 : s.header_ended = true)
    (hb : s.is_binary = true)
    (hne : cleanLine raw ≠ []) :
    slices_from_cli_lines (pre ++ raw :: post) = .error Err.binaryNotSupported := by
  have hstep : processLine s pre.length raw = .error Err.binaryNotSupported := by
    unfold processLine processPostHeader
    simp [hd, h1, h2, hb, hne]
  unfold slices_from_cli_lines
  rw [runLines_append, hpre]
  dsimp only
  rw [Nat.zero_add, runLines, hstep]
  rfl

set_option maxRecDepth 20000 in
/-- Witness for C8 (amended): a binary-flagged header followed by a
geometry-start line. -/
theorem C8_binary_rejected_witness :
    slices_from_cli_lines
      (["$$HEADERSTART", "$$BINARY", "$$HEADEREND"].map String.data
        ++ "$$GEOMETRYSTART".data :: [])
      = .error Err.binaryNotSupported := by
  refine C8_binary_rejected _ [] _
    ⟨true, true, false, false, none, none, [], none, BBox3.empty, true, 0, false, [], 0, []⟩
    ?_ rfl rfl rfl rfl (by norm_num +decide [cleanLine, trimChars, stripComment])
  norm_num +decide [runLines, processLine, processHeaderLine, cleanLine, trimChars, stripComment,
    findAfter]

/-! ## Claim C2: unparsable vertex coordinate in a `$$POLYLINE` record -/

theorem processGeometryLine_polyline (s : RState) (n : ℕ) (data : List Char) :
    processGeometryLine s n ("$$POLYLINE".data ++ data) = processPolyline s n data := by
  have h1 : ("$$GEOMETRYEND".data).isPrefixOf ("$$POLYLINE".data ++ data) = false := rfl
  have h2 : ("$$LAYER".data).isPrefixOf ("$$POLYLINE".data ++ data) = false := rfl
  have h3 : ("$$POLYLINE".data).isPrefixOf ("$$POLYLINE".data ++ data) = true :=
    isPrefixOf_append_self _ _
  have h4 : ("$$POLYLINE".data ++ data).drop 10 = data := rfl
  unfold processGeometryLine
  simp only [h1, h2, h3, h4, Bool.false_eq_true, if_false, if_true]

set_option maxRecDepth 40000 in
/-- C2 counterexample: a file whose `$$POLYLINE` record carries the
unparsable x-coordinate `abc` makes the whole parse fail with a hard error
instead of skipping the record with a warning. -/
theorem C2_counterexample :
    slices_from_cli_file ["$$HEADERSTART", "$$ASCII", "$$UNITS/1", "$$HEADEREND",
      "$$GEOMETRYSTART", "$$LAYER/1.0", "$$POLYLINE/1,1,3,abc,0.0,1.0,0.0,0.0,1.0",
      "$$GEOMETRYEND"]
      = .error Err.invalidParameter := by
  norm_num +decide [slices_from_cli_file, slices_from_cli_lines, runLines, processLine,
    processHeaderLine, processPostHeader, processGeometryLine, processPolyline, cleanLine,
    trimChars, stripComment, findAfter, extract_parameter, parseFloatChars, parseNatChars, breakAt,
    ofDigitsChars, digitVal, readQ, readN, readVertices, PolySlice.new, Except.map]

/-- C2 (amended): an unparsable numeric vertex coordinate inside an
otherwise well-formed `$$POLYLINE` record is fatal: `slices_from_cli_file`
propagates the error from the vertex-reading loop instead of warning and
skipping (the recoverable-warning path covers only records with fewer than 3
vertices, degenerate windings and unknown `$$`-commands). -/
theorem C2_bad_vertex_fatal
    (pre post : List (List Char)) (raw data d1 d2 d3 : List Char)
    (s : RState) (sl : PolySlice) (idv wv cnt : ℕ) (e : Err)
    (hpre : runLines {} 0 pre = .ok s)
    (hmode : GeomMode s)
    (hraw : cleanLine raw = "$$POLYLINE".data ++ data)
    (hsl : s.current_slice = some sl)
    (hid : readN data = .ok (idv, d1))
    (hlbl : s.label_id.getD idv = idv)
    (hwv : readN d1 = .ok (wv, d2))
    (hwv3 : wv < 3)
    (hcnt : readN d2 = .ok (cnt, d3))
    (hvert : readVertices s.units_header cnt d3 = .error e) :
    slices_from_cli_lines (pre ++ raw :: post) = .error e := by
  have hne : cleanLine raw ≠ [] := by rw [hraw]; simp
  have hpoly : processPolyline s pre.length data = .error e := by
    unfold processPolyline
    rw [hsl, hid]
    dsimp only
    rw [hlbl]
    simp only [ne_eq, not_true_eq_false, if_false]
    rw [hwv]
    dsimp only
    interval_cases wv <;> simp [hcnt, hvert]
  have hstep : processLine s pre.length raw = .error e := by
    rw [processLine_geom s pre.length raw hmode hne, hraw,
      processGeometryLine_polyline, hpoly]
  unfold slices_from_cli_lines
  rw [runLines_append, hpre]
  dsimp only
  rw [Nat.zero_add, runLines, hstep]
  rfl

set_option maxRecDepth 40000 in
/-- Witness for C2 (amended), instantiated at the `abc` coordinate file. -/
theorem C2_bad_vertex_fatal_witness :
    slices_from_cli_lines
      (["$$HEADERSTART", "$$ASCII", "$$UNITS/1", "$$HEADEREND", "$$GEOMETRYSTART",
        "$$LAYER/1.0"].map String.data
        ++ "$$POLYLINE/1,1,3,abc,0.0,1.0,0.0,0.0,1.0".data :: [])
      = .error Err.invalidParameter := by
  refine C2_bad_vertex_fatal _ [] _ ("/1,1,3,abc,0.0,1.0,0.0,0.0,1.0".data)
    (",1,3,abc,0.0,1.0,0.0,0.0,1.0".data) (",3,abc,0.0,1.0,0.0,0.0,1.0".data)
    (",abc,0.0,1.0,0.0,0.0,1.0".data)
    ⟨true, true, true, false, none, some (PolySlice.new 1), [], some 1, BBox3.empty, false, 1,
      false, [], 0, []⟩
    (PolySlice.new 1) 1 1 3 Err.invalidParameter
    ?_ ⟨rfl, rfl, rfl, rfl, rfl⟩ ?_ rfl ?_ (by decide) ?_ (by decide) ?_ ?_
  · norm_num +decide [runLines, processLine, processHeaderLine, processPostHeader,
      processGeometryLine, cleanLine, trimChars, stripComment, findAfter, extract_parameter,
      parseFloatChars, breakAt, ofDigitsChars, digitVal, readQ, PolySlice.new]
  · norm_num +decide [cleanLine, trimChars, stripComment]
  · norm_num +decide [readN, extract_parameter, parseNatChars, ofDigitsChars, digitVal, trimChars]
  · norm_num +decide [readN, extract_parameter, parseNatChars, ofDigitsChars, digitVal, trimChars]
  · norm_num +decide [readN, extract_parameter, parseNatChars, ofDigitsChars, digitVal, trimChars]
  · norm_num +decide [readVertices, readQ, extract_parameter, parseFloatChars, breakAt,
      ofDigitsChars, digitVal, trimChars]

/-! ## Claim C4: degenerate (Unknown-winding) polyline records -/

set_option maxRecDepth 40000 in
/-- C4 counterexample: a well-formed `$$POLYLINE` record with 3 collinear
vertices declared with winding code 2 is *discarded* (the slice ends up with
zero contours); a warning is appended, but the contour is not kept. -/
theorem C4_counterexample :
    (slices_from_cli_file ["$$HEADERSTART", "$$ASCII", "$$UNITS/1", "$$HEADEREND",
      "$$GEOMETRYSTART", "$$LAYER/1.0", "$$POLYLINE/1,2,3,0.0,0.0,1.0,1.0,2.0,2.0",
      "$$GEOMETRYEND"]).map
      (fun r => (r.slices.slices.map fun sl => sl.contours.length, r.warnings.map Warning.line))
      = .ok ([0], [7]) := by
  norm_num +decide [slices_from_cli_file, slices_from_cli_lines, runLines, processLine,
    processHeaderLine, processPostHeader, processGeometryLine, processPolyline, cleanLine,
    trimChars, stripComment, findAfter, extract_parameter, parseFloatChars, parseNatChars, breakAt,
    ofDigitsChars, digitVal, readQ, readN, readVertices, PolySlice.new, PolyContour.new,
    detect_winding, shoelaceSum, shoelaceAux, shoelaceTerm, Except.map, finishState,
    PolySliceStack.from_slices, PolySliceStack.add_slices, PolySliceStack.new, List.foldl,
    BBox3.include_bbox2, BBox2.is_empty, BBox2.empty, fmax, BBox3.empty]

/-- C4 (amended): a well-formed `$$POLYLINE` record with at least 3 vertices
whose declared winding code is 2 (Unknown) and whose detected winding is also
Unknown is *discarded*: the current slice is left unchanged and a warning
carrying the 1-based line number is appended (when a CW/CCW code is declared
the contour is instead kept with the declared winding, without any
recomputation guard). -/
theorem C4_degenerate_unknown_discarded
    (s : RState) (n : ℕ) (raw data d1 d2 d3 : List Char) (sl : PolySlice)
    (idv cnt : ℕ) (vs : List Vec2)
    (hmode : GeomMode s)
    (hraw : cleanLine raw = "$$POLYLINE".data ++ data)
    (hsl : s.current_slice = some sl)
    (hid : readN data = .ok (idv, d1))
    (hlbl : s.label_id.getD idv = idv)
    (hwv : readN d1 = .ok (2, d2))
    (hcnt : readN d2 = .ok (cnt, d3))
    (hvert : readVertices s.units_header cnt d3 = .ok vs)
    (hlen : 3 ≤ vs.length)
    (hdet : detect_winding vs = Winding.Unknown) :
    processLine s n raw
      = .ok {s with
          label_id := some idv, current_slice := some sl,
          warnings := s.warnings ++ [⟨n + 1, WarningKind.degenerateArea Winding.Unknown⟩]} := by
  have hne : cleanLine raw ≠ [] := by rw [hraw]; simp
  rw [processLine_geom s n raw hmode hne, hraw, processGeometryLine_polyline]
  unfold processPolyline
  rw [hsl, hid]
  dsimp only
  rw [hlbl]
  simp only [ne_eq, not_true_eq_false, if_false]
  rw [hwv]
  dsimp only
  norm_num
  rw [hcnt]
  dsimp only
  rw [hvert]
  dsimp only
  rw [if_neg (by omega)]
  unfold PolyContour.new
  rw [if_neg (by omega)]
  dsimp only
  rw [if_pos rfl, hdet]
  rw [if_pos rfl]

set_option maxRecDepth 40000 in
/-- Witness for C4 (amended): collinear triangle declared with winding code
2, processed from the post-`$$LAYER` state. -/
theorem C4_degenerate_unknown_discarded_witness :
    processLine
      ⟨true, true, true, false, none, some (PolySlice.new 1), [], some 1, BBox3.empty, false, 1,
        false, [], 0, []⟩
      6 ("$$POLYLINE/1,2,3,0.0,0.0,1.0,1.0,2.0,2.0".data)
      = .ok ⟨true, true, true, false, some 1, some (PolySlice.new 1), [], some 1, BBox3.empty,
          false, 1, false, [], 0,
          [⟨7, WarningKind.degenerateArea Winding.Unknown⟩]⟩ := by
  refine C4_degenerate_unknown_discarded _ 6 _ ("/1,2,3,0.0,0.0,1.0,1.0,2.0,2.0".data)
    (",2,3,0.0,0.0,1.0,1.0,2.0,2.0".data) (",3,0.0,0.0,1.0,1.0,2.0,2.0".data)
    (",0.0,0.0,1.0,1.0,2.0,2.0".data) (PolySlice.new 1) 1 3 [⟨0, 0⟩, ⟨1, 1⟩, ⟨2, 2⟩]
    ⟨rfl, rfl, rfl, rfl, rfl⟩ ?_ rfl ?_ (by decide) ?_ ?_ ?_ (by decide) ?_
  · norm_num +decide [cleanLine, trimChars, stripComment]
  · norm_num +decide [readN, extract_parameter, parseNatChars, ofDigitsChars, digitVal, trimChars]
  · norm_num +decide [readN, extract_parameter, parseNatChars, ofDigitsChars, digitVal, trimChars]
  · norm_num +decide [readN, extract_parameter, parseNatChars, ofDigitsChars, digitVal, trimChars]
  · norm_num +decide [readVertices, readQ, extract_parameter, parseFloatChars, breakAt,
      ofDigitsChars, digitVal, trimChars]
  · norm_num [detect_winding, shoelaceSum, shoelaceAux, shoelaceTerm]

theorem setUsed_length (l : List Segment) (i : ℕ) : (setUsed l i).length = l.length := by
  induction l generalizing i with
  | nil => rfl
  | cons s t ih =>
      cases i with
      | zero => rfl
      | succ n => simp [setUsed, ih]

theorem getSeg_setUsed_self (l : List Segment) (i : ℕ) (h : i < l.length) :
    getSeg (setUsed l i) i = {getSeg l i with used := true} := by
  induction l generalizing i with
  | nil => simp at h
  | cons s t ih =>
      cases i with
      | zero => simp [setUsed, getSeg]
      | succ n =>
          simp only [setUsed, getSeg, List.getD_cons_succ]
          exact ih n (by simpa using h)

theorem getSeg_setUsed_other (l : List Segment) (i j : ℕ) (h : j ≠ i) :
    getSeg (setUsed l i) j = getSeg l j := by
  induction l generalizing i j with
  | nil => cases i <;> rfl
  | cons s t ih =>
      cases i with
      | zero =>
          cases j with
          | zero => exact absurd rfl h
          | succ m => simp [setUsed, getSeg]
      | succ n =>
          cases j with
          | zero => simp [setUsed, getSeg]
          | succ m =>
              simp only [setUsed, getSeg, List.getD_cons_succ]
              exact ih n m (by omega)

theorem usedAt_setUsed_self (l : List Segment) (i : ℕ) (h : i < l.length) :
    usedAt (setUsed l i) i := by
  unfold usedAt
  rw [getSeg_setUsed_self l i h]

theorem usedAt_setUsed_iff (l : List Segment) (i j : ℕ) (hi : i < l.length) :
    usedAt (setUsed l i) j ↔ (usedAt l j ∨ j = i) := by
  by_cases hji : j = i
  · subst hji
    simp [usedAt_setUsed_self l j hi]
  · unfold usedAt
    rw [getSeg_setUsed_other l i j hji]
    simp [hji]

theorem getD_drop (l : List Segment) (m k : ℕ) :
    (l.drop m).getD k default = l.getD (m + k) default := by
  induction m generalizing l with
  | zero => simp
  | succ n ih =>
      cases l with
      | nil => simp
      | cons s t =>
          simp only [List.drop_succ_cons, List.getD_cons_succ]
          rw [ih t]
          have e : n + 1 + k = (n + k) + 1 := by omega
          rw [e, List.getD_cons_succ]

theorem findUnusedAux_spec (l : List Segment) (i j : ℕ)
    (h : findUnusedAux l i = some j) :
    i ≤ j ∧ j - i < l.length ∧ (l.getD (j - i) default).used = false := by
  induction l generalizing i with
  | nil => simp [findUnusedAux] at h
  | cons s t ih =>
      unfold findUnusedAux at h
      split at h
      · injection h with h'
        subst h'
        simp_all
      · obtain ⟨h1, h2, h3⟩ := ih (i + 1) h
        refine ⟨by omega, by simp; omega, ?_⟩
        have : j - i = (j - (i + 1)) + 1 := by omega
        rw [this]
        simpa using h3

theorem findUnusedAux_none (l : List Segment) (i : ℕ)
    (h : findUnusedAux l i = none) :
    ∀ k < l.length, (l.getD k default).used = true := by
  induction l generalizing i with
  | nil => simp
  | cons s t ih =>
      unfold findUnusedAux at h
      split at h
      · simp at h
      · intro k hk
        cases k with
        | zero => simpa using (by simp_all : ¬s.used = false)
        | succ m =>
            simpa using ih (i + 1) h m (by simpa using hk)

/-- A successful seed search yields an index at or past the low-water mark,
in bounds, pointing at an unconsumed segment. -/
theorem findUnused_spec (segs : List Segment) (mark j : ℕ)
    (h : findUnused segs mark = some j) :
    mark ≤ j ∧ j < segs.length ∧ ¬usedAt segs j := by
  obtain ⟨h1, h2, h3⟩ := findUnusedAux_spec (segs.drop mark) mark j h
  rw [getD_drop] at h3
  have hj : mark + (j - mark) = j := by omega
  rw [hj] at h3
  have hlen : j < segs.length := by
    by_cases hm : mark ≤ segs.length
    · have := List.length_drop mark segs
      omega
    · simp [List.drop_eq_nil_of_le (le_of_not_le hm)] at h2
  refine ⟨h1, hlen, ?_⟩
  simp only [usedAt, getSeg] at h3 ⊢
  simp_all

theorem findUnused_none (segs : List Segment) (mark : ℕ)
    (h : findUnused segs mark = none)
    (hmark : ∀ i < mark, usedAt segs i) :
    ∀ i < segs.length, usedAt segs i := by
  intro i hi
  by_cases him : i < mark
  · exact hmark i him
  · have := findUnusedAux_none (segs.drop mark) mark h (i - mark)
      (by have := List.length_drop mark segs; omega)
    rw [getD_drop] at this
    have hj : mark + (i - mark) = i := by omega
    rw [hj] at this
    exact this

/-- Each best-match candidate returned by the search loop is either the
accumulator passed in, or an in-range unconsumed segment index at or past
the scan start. -/
theorem searchBestAux_spec (p q : Vec2) (f : ℚ) (l : List Segment) (idx : ℕ)
    (bs be : Option ℕ × ℚ) :
    ((searchBestAux p q f l idx bs be).1.1 = bs.1 ∨
      ∃ i, (searchBestAux p q f l idx bs be).1.1 = some i ∧ idx ≤ i ∧
        i - idx < l.length ∧ (l.getD (i - idx) default).used = false) ∧
    ((searchBestAux p q f l idx bs be).2.1 = be.1 ∨
      ∃ i, (searchBestAux p q f l idx bs be).2.1 = some i ∧ idx ≤ i ∧
        i - idx < l.length ∧ (l.getD (i - idx) default).used = false) := by
  induction l generalizing idx bs be with
  | nil => simp [searchBestAux]
  | cons s t ih =>
      unfold searchBestAux
      split
      · -- used: skip
        obtain ⟨ih1, ih2⟩ := ih (idx + 1) bs be
        constructor
        · rcases ih1 with h | ⟨i, h1, h2, h3, h4⟩
          · exact Or.inl h
          · refine Or.inr ⟨i, h1, by omega, by simp; omega, ?_⟩
            have e : i - idx = (i - (idx + 1)) + 1 := by omega
            rw [e, List.getD_cons_succ]
            exact h4
        · rcases ih2 with h | ⟨i, h1, h2, h3, h4⟩
          · exact Or.inl h
          · refine Or.inr ⟨i, h1, by omega, by simp; omega, ?_⟩
            have e : i - idx = (i - (idx + 1)) + 1 := by omega
            rw [e, List.getD_cons_succ]
            exact h4
      · split
        · -- early break: accumulators returned
          simp
        · -- candidate considered
          rename_i hused hbound
          have hsu : s.used = false := by simpa using hused
          obtain ⟨ih1, ih2⟩ := ih (idx + 1)
            (if Vec2.normSq p s.stop < bs.2 then (some idx, Vec2.normSq p s.stop) else bs)
            (if Vec2.normSq q s.start < be.2 then (some idx, Vec2.normSq q s.start) else be)
          constructor
          · rcases ih1 with h | ⟨i, h1, h2, h3, h4⟩
            · rw [h]
              split
              · exact Or.inr ⟨idx, rfl, le_refl idx, by simp, by simpa using hsu⟩
              · exact Or.inl rfl
            · refine Or.inr ⟨i, h1, by omega, by simp; omega, ?_⟩
              have e : i - idx = (i - (idx + 1)) + 1 := by omega
              rw [e, List.getD_cons_succ]
              exact h4
          · rcases ih2 with h | ⟨i, h1, h2, h3, h4⟩
            · rw [h]
              split
              · exact Or.inr ⟨idx, rfl, le_refl idx, by simp, by simpa using hsu⟩
              · exact Or.inl rfl
            · refine Or.inr ⟨i, h1, by omega, by simp; omega, ?_⟩
              have e : i - idx = (i - (idx + 1)) + 1 := by omega
              rw [e, List.getD_cons_succ]
              exact h4

theorem findUnusedAux_first (l : List Segment) (i j : ℕ)
    (h : findUnusedAux l i = some j) :
    ∀ k, i ≤ k → k < j → (l.getD (k - i) default).used = true := by
  induction l generalizing i with
  | nil => simp [findUnusedAux] at h
  | cons s t ih =>
      unfold findUnusedAux at h
      split at h
      · injection h with h'
        subst h'
        intro k h1 h2
        omega
      · intro k h1 h2
        rcases Nat.eq_or_lt_of_le h1 with rfl | hlt
        · simpa using (by simp_all : ¬s.used = false)
        · have := ih (i + 1) h k hlt h2
          have e : k - i = (k - (i + 1)) + 1 := by omega
          rw [e, List.getD_cons_succ]
          exact this

theorem findUnused_first (segs : List Segment) (mark j : ℕ)
    (h : findUnused segs mark = some j) :
    ∀ k, mark ≤ k → k < j → usedAt segs k := by
  intro k h1 h2
  have := findUnusedAux_first (segs.drop mark) mark j h k h1 h2
  rw [getD_drop] at this
  have e : mark + (k - mark) = k := by omega
  rw [e] at this
  simpa [usedAt, getSeg] using this

/-- Best-match search over `segs.drop sf`: each candidate is the accumulator
or a fresh in-bounds index. -/
theorem searchBest_spec (p q : Vec2) (f : ℚ) (segs : List Segment) (sf : ℕ)
    (bs be : Option ℕ × ℚ) :
    ((searchBestAux p q f (segs.drop sf) sf bs be).1.1 = bs.1 ∨
      ∃ i, (searchBestAux p q f (segs.drop sf) sf bs be).1.1 = some i ∧
        i < segs.length ∧ ¬usedAt segs i) ∧
    ((searchBestAux p q f (segs.drop sf) sf bs be).2.1 = be.1 ∨
      ∃ i, (searchBestAux p q f (segs.drop sf) sf bs be).2.1 = some i ∧
        i < segs.length ∧ ¬usedAt segs i) := by
  obtain ⟨h1, h2⟩ := searchBestAux_spec p q f (segs.drop sf) sf bs be
  have tr : ∀ i, sf ≤ i → i - sf < (segs.drop sf).length →
      ((segs.drop sf).getD (i - sf) default).used = false →
      i < segs.length ∧ ¬usedAt segs i := by
    intro i hle hlt hu
    rw [getD_drop] at hu
    have e : sf + (i - sf) = i := by omega
    rw [e] at hu
    have : i < segs.length := by
      have := List.length_drop sf segs
      omega
    refine ⟨this, ?_⟩
    simp only [usedAt, getSeg]
    simp_all
  constructor
  · rcases h1 with h | ⟨i, ha, hb, hc, hd⟩
    · exact Or.inl h
    · exact Or.inr ⟨i, ha, (tr i hb hc hd).1, (tr i hb hc hd).2⟩
  · rcases h2 with h | ⟨i, ha, hb, hc, hd⟩
    · exact Or.inl h
    · exact Or.inr ⟨i, ha, (tr i hb hc hd).1, (tr i hb hc hd).2⟩

theorem SInv_left_pos (N : ℕ) (st : StitchState) (hinv : SInv N st) (i : ℕ)
    (hi : i < N) (hfresh : ¬usedAt st.segments i) : 0 < st.segments_left := by
  by_contra h
  have hz : st.segments_left = 0 := by omega
  have hnm : i ∉ st.fin ++ st.disc ++ st.curr := fun hmem =>
    hfresh ((hinv.mem i hi).mpr hmem)
  have hnd : (i :: (st.fin ++ st.disc ++ st.curr)).Nodup := by
    rw [List.nodup_cons]
    exact ⟨hnm, hinv.nodup⟩
  have hsub : (i :: (st.fin ++ st.disc ++ st.curr)) ⊆ List.range N := by
    intro a ha
    rcases List.mem_cons.mp ha with rfl | ha'
    · exact List.mem_range.mpr hi
    · exact List.mem_range.mpr (hinv.bound a ha')
  have := (List.subperm_of_subset hnd hsub).length_le
  simp only [List.length_cons, List.length_range] at this
  have := hinv.leftInv
  omega

/-- Consuming one fresh segment index preserves the stitching invariant,
given the chain-endpoint obligations for the new state. -/
theorem SInv_consume (N i : ℕ) (st st' : StitchState) (hinv : SInv N st)
    (hi : i < N) (hfresh : ¬usedAt st.segments i)
    (hseg : st'.segments = setUsed st.segments i)
    (hleft : st'.segments_left = st.segments_left - 1)
    (hfin : st'.fin = st.fin) (hdisc : st'.disc = st.disc)
    (hcurr : st'.curr = st.curr ++ [i])
    (hm : ∀ j < st'.unused, usedAt st'.segments j)
    (hsync : st'.curr_start.isSome = st'.curr_end.isSome)
    (hcs : ∀ j, st'.curr_start = some j → usedAt st'.segments j ∧ j < N)
    (hce : ∀ j, st'.curr_end = some j → usedAt st'.segments j ∧ j < N) :
    SInv N st' := by
  have hiN : i < st.segments.length := by rw [hinv.len]; exact hi
  have hpos := SInv_left_pos N st hinv i hi hfresh
  have hninl : i ∉ st.fin ++ st.disc ++ st.curr := fun hmem =>
    hfresh ((hinv.mem i hi).mpr hmem)
  refine ⟨?_, ?_, ?_, ?_, ?_, hm, hsync, hcs, hce⟩
  · rw [hseg, setUsed_length, hinv.len]
  · intro j hj
    rw [hseg, hfin, hdisc, hcurr]
    rw [show usedAt (setUsed st.segments i) j ↔ (usedAt st.segments j ∨ j = i) from
      usedAt_setUsed_iff st.segments i j hiN]
    rw [hinv.mem j hj]
    simp only [List.mem_append, List.mem_singleton]
    tauto
  · rw [hfin, hdisc, hcurr, show st.fin ++ st.disc ++ (st.curr ++ [i])
      = (st.fin ++ st.disc ++ st.curr) ++ [i] by simp]
    simp only [List.nodup_append, List.nodup_cons, List.nodup_nil]
    simp only [List.nodup_append] at *
    have := hinv.nodup
    simp only [List.nodup_append] at this
    refine ⟨?_, by simp, ?_⟩
    · tauto
    · intro a ha
      simp only [List.mem_singleton]
      intro hb
      exact hninl (hb ▸ ha)
  · intro j hj
    rw [hfin, hdisc, hcurr] at hj
    simp only [List.mem_append, List.mem_singleton] at hj
    rcases hj with ((h | h) | (h | h))
    · exact hinv.bound j (by simp [h])
    · exact hinv.bound j (by simp [h])
    · exact hinv.bound j (by simp [h])
    · exact h ▸ hi
  · have hl := hinv.leftInv
    rw [hleft, hfin, hdisc, hcurr]
    simp only [List.length_append, List.length_singleton] at hl ⊢
    omega

/-- Reshuffling the ghost lists (a permutation) with everything else fixed
preserves the invariant. -/
theorem SInv_shuffle (N : ℕ) (st st' : StitchState) (hinv : SInv N st)
    (hseg : st'.segments = st.segments)
    (hleft : st'.segments_left = st.segments_left)
    (hmk : st'.unused = st.unused)
    (hperm : (st'.fin ++ st'.disc ++ st'.curr).Perm (st.fin ++ st.disc ++ st.curr))
    (hsync : st'.curr_start.isSome = st'.curr_end.isSome)
    (hcs : ∀ j, st'.curr_start = some j → usedAt st'.segments j ∧ j < N)
    (hce : ∀ j, st'.curr_end = some j → usedAt st'.segments j ∧ j < N) :
    SInv N st' := by
  refine ⟨?_, ?_, ?_, ?_, ?_, ?_, hsync, hcs, hce⟩
  · rw [hseg, hinv.len]
  · intro j hj
    rw [hseg, hperm.mem_iff]
    exact hinv.mem j hj
  · exact hperm.symm.nodup hinv.nodup
  · intro j hj
    exact hinv.bound j (hperm.mem_iff.mp hj)
  · rw [hleft, hperm.length_eq]
    exact hinv.leftInv
  · rw [hseg, hmk]
    exact hinv.mark

/-- Each best-match candidate is nothing, the self-closing pre-candidate
(only when the chain has distinct end segments), or a fresh in-bounds
segment index. -/
theorem stitchBest_spec (N : ℕ) (st : StitchState) (cs ce : ℕ) (hlen : st.segments.length = N) :
    ((stitchBest st cs ce).1 = none ∨ ((stitchBest st cs ce).1 = some ce ∧ ce ≠ cs) ∨
      ∃ i, (stitchBest st cs ce).1 = some i ∧ i < N ∧ ¬usedAt st.segments i) ∧
    ((stitchBest st cs ce).2 = none ∨ ((stitchBest st cs ce).2 = some cs ∧ ce ≠ cs) ∨
      ∃ i, (stitchBest st cs ce).2 = some i ∧ i < N ∧ ¬usedAt st.segments i) := by
  unfold stitchBest
  dsimp only
  generalize hsf : searchBack st.segments _ (min cs ce) = sf
  by_cases hne : ce ≠ cs
  · by_cases hsq : Vec2.normSq (getSeg st.segments cs).start (getSeg st.segments ce).stop < 1
    · rw [if_pos hne, if_pos hsq]
      obtain ⟨h1, h2⟩ := searchBest_spec (getSeg st.segments cs).start
        (getSeg st.segments ce).stop _ st.segments sf
        (some ce, Vec2.normSq (getSeg st.segments cs).start (getSeg st.segments ce).stop)
        (some cs, Vec2.normSq (getSeg st.segments cs).start (getSeg st.segments ce).stop)
      constructor
      · rcases h1 with h | ⟨i, ha, hb, hc⟩
        · exact Or.inr (Or.inl ⟨h, hne⟩)
        · exact Or.inr (Or.inr ⟨i, ha, hlen ▸ hb, hc⟩)
      · rcases h2 with h | ⟨i, ha, hb, hc⟩
        · exact Or.inr (Or.inl ⟨h, hne⟩)
        · exact Or.inr (Or.inr ⟨i, ha, hlen ▸ hb, hc⟩)
    · rw [if_pos hne, if_neg hsq]
      obtain ⟨h1, h2⟩ := searchBest_spec (getSeg st.segments cs).start
        (getSeg st.segments ce).stop _ st.segments sf (none, 1) (none, 1)
      constructor
      · rcases h1 with h | ⟨i, ha, hb, hc⟩
        · exact Or.inl h
        · exact Or.inr (Or.inr ⟨i, ha, hlen ▸ hb, hc⟩)
      · rcases h2 with h | ⟨i, ha, hb, hc⟩
        · exact Or.inl h
        · exact Or.inr (Or.inr ⟨i, ha, hlen ▸ hb, hc⟩)
  · rw [if_neg hne]
    obtain ⟨h1, h2⟩ := searchBest_spec (getSeg st.segments cs).start
      (getSeg st.segments ce).stop _ st.segments sf (none, 1) (none, 1)
    constructor
    · rcases h1 with h | ⟨i, ha, hb, hc⟩
      · exact Or.inl h
      · exact Or.inr (Or.inr ⟨i, ha, hlen ▸ hb, hc⟩)
    · rcases h2 with h | ⟨i, ha, hb, hc⟩
      · exact Or.inl h
      · exact Or.inr (Or.inr ⟨i, ha, hlen ▸ hb, hc⟩)

theorem usedAt_setUsed_mono (l : List Segment) (i j : ℕ) (hi : i < l.length)
    (h : usedAt l j) : usedAt (setUsed l i) j :=
  (usedAt_setUsed_iff l i j hi).mpr (Or.inl h)

/-- Closing out the in-progress chain (finalize into `fin` or discard into
`disc`, then clear the chain) preserves the invariant. -/
theorem SInv_close_chain (N : ℕ) (st1 st3 : StitchState) (hinv : SInv N st1)
    (hseg : st3.segments = st1.segments)
    (hleft : st3.segments_left = st1.segments_left)
    (hmk : st3.unused = st1.unused)
    (hun : st3.curr_start = none) (hen : st3.curr_end = none)
    (hfd : st3.fin = st1.fin ++ st1.curr ∧ st3.disc = st1.disc ∨
      st3.fin = st1.fin ∧ st3.disc = st1.disc ++ st1.curr)
    (hc : st3.curr = []) :
    SInv N st3 := by
  refine SInv_shuffle N st1 st3 hinv hseg hleft hmk ?_ ?_ ?_ ?_
  · rcases hfd with ⟨hf, hd⟩ | ⟨hf, hd⟩
    · rw [hf, hd, hc]
      show ((st1.fin ++ st1.curr) ++ st1.disc ++ []).Perm _
      refine List.Perm.trans ?_ (List.Perm.refl _)
      have : ((st1.fin ++ st1.curr) ++ st1.disc ++ []) = st1.fin ++ (st1.curr ++ st1.disc) := by
        simp
      rw [this]
      refine List.Perm.trans (List.Perm.append_left st1.fin (List.perm_append_comm)) ?_
      simp [List.append_assoc]
    · rw [hf, hd, hc]
      show (st1.fin ++ (st1.disc ++ st1.curr) ++ []).Perm _
      simp
  · rw [hun, hen]
  · intro j hj
    rw [hun] at hj
    cases hj
  · intro j hj
    rw [hen] at hj
    cases hj

theorem stitchApply_spec (N : ℕ) (st : StitchState) (cs ce : ℕ) (bs be : Option ℕ)
    (hinv : SInv N st)
    (hcs : st.curr_start = some cs) (hce : st.curr_end = some ce)
    (hbs : bs = none ∨ (bs = some ce ∧ ce ≠ cs) ∨
      ∃ i, bs = some i ∧ i < N ∧ ¬usedAt st.segments i)
    (hbe : be = none ∨ (be = some cs ∧ ce ≠ cs) ∨
      ∃ i, be = some i ∧ i < N ∧ ¬usedAt st.segments i) :
    (stitchApply st cs ce bs be).2 = true ∧ SInv N (stitchApply st cs ce bs be).1 ∧
    stMeasure (stitchApply st cs ce bs be).1 < stMeasure st := by
  have hmeas : stMeasure st = 2 * st.segments_left + 1 := by
    unfold stMeasure
    rw [hcs]
    rfl
  have hceU := hinv.chainE ce hce
  unfold stitchApply
  split
  · -- no match at either end: chain discarded
    refine ⟨rfl, ?_, ?_⟩
    · refine SInv_shuffle N st _ hinv rfl rfl rfl ?_ rfl ?_ ?_
      · show (st.fin ++ (st.disc ++ st.curr) ++ []).Perm (st.fin ++ st.disc ++ st.curr)
        simp
      · intro j hj
        simp at hj
      · intro j hj
        simp at hj
    · show stMeasure _ < stMeasure st
      rw [hmeas]
      unfold stMeasure
      simp
  · split
    · -- chain closes
      rename_i hnotnone hclose
      by_cases hbe2 : bs = be
      · rw [if_pos hbe2]
        cases be with
        | none => exact absurd ⟨hbe2, rfl⟩ hnotnone
        | some i =>
            have hbsi : bs = some i := hbe2
            have hfresh : i < N ∧ ¬usedAt st.segments i := by
              rcases hbs with h | ⟨h, hne⟩ | ⟨j, hj, hjN, hjf⟩
              · rw [h] at hbsi
                cases hbsi
              · have hcei : ce = i := by
                  rw [h] at hbsi
                  injection hbsi
                rcases hbe with h2 | ⟨h2, _⟩ | ⟨k, hk, hkN, hkf⟩
                · cases h2
                · have : i = cs := by injection h2
                  exact absurd (hcei.trans this) hne
                · have hik : i = k := by injection hk
                  subst hik
                  exact ⟨hkN, hkf⟩
              · have : j = i := by rw [hj] at hbsi; injection hbsi
                subst this
                exact ⟨hjN, hjf⟩
            have hiL : i < st.segments.length := by rw [hinv.len]; exact hfresh.1
            have hpos := SInv_left_pos N st hinv i hfresh.1 hfresh.2
            have hinv1 : SInv N {st with
                segments := setUsed st.segments i,
                segments_left := st.segments_left - 1, curr := st.curr ++ [i]} := by
              refine SInv_consume N i st _ hinv hfresh.1 hfresh.2 rfl rfl rfl rfl rfl ?_ ?_ ?_ ?_
              · intro j hj
                exact usedAt_setUsed_mono _ _ _ hiL (hinv.mark j hj)
              · exact hinv.syncSE
              · intro j hj
                exact ⟨usedAt_setUsed_mono _ _ _ hiL (hinv.chainS j hj).1, (hinv.chainS j hj).2⟩
              · intro j hj
                exact ⟨usedAt_setUsed_mono _ _ _ hiL (hinv.chainE j hj).1, (hinv.chainE j hj).2⟩
            dsimp only
            refine ⟨rfl, ?_, ?_⟩
            · split
              · split
                · exact SInv_close_chain N _ _ hinv1 rfl rfl rfl rfl rfl
                    (Or.inl ⟨rfl, rfl⟩) rfl
                · exact SInv_close_chain N _ _ hinv1 rfl rfl rfl rfl rfl
                    (Or.inr ⟨rfl, rfl⟩) rfl
              · exact SInv_close_chain N _ _ hinv1 rfl rfl rfl rfl rfl
                  (Or.inr ⟨rfl, rfl⟩) rfl
            · rw [hmeas]
              split
              · split
                all_goals
                  unfold stMeasure
                  simp
                  omega
              · unfold stMeasure
                simp
                omega
      · rw [if_neg hbe2]
        dsimp only
        refine ⟨rfl, ?_, ?_⟩
        · split
          · split
            · exact SInv_close_chain N _ _ hinv rfl rfl rfl rfl rfl (Or.inl ⟨rfl, rfl⟩) rfl
            · exact SInv_close_chain N _ _ hinv rfl rfl rfl rfl rfl (Or.inr ⟨rfl, rfl⟩) rfl
          · exact SInv_close_chain N _ _ hinv rfl rfl rfl rfl rfl (Or.inr ⟨rfl, rfl⟩) rfl
        · rw [hmeas]
          split
          · split
            all_goals
              unfold stMeasure
              simp
          · unfold stMeasure
            simp
    · -- chain extends
      rename_i hnotnone hnc
      push_neg at hnc
      obtain ⟨hne1, hne2, hne3⟩ := hnc
      have hbe' : be = none ∨ ∃ i, be = some i ∧ i < N ∧ ¬usedAt st.segments i := by
        rcases hbe with h | ⟨h, _⟩ | h
        · exact Or.inl h
        · exact absurd h hne3
        · exact Or.inr h
      have hbs' : bs = none ∨ ∃ j, bs = some j ∧ j < N ∧ ¬usedAt st.segments j := by
        rcases hbs with h | ⟨h, _⟩ | h
        · exact Or.inl h
        · exact absurd h hne2
        · exact Or.inr h
      rcases hbe' with hbeN | ⟨i, hbei, hiN, hif⟩
      · subst hbeN
        rcases hbs' with hbsN | ⟨j, hbsj, hjN, hjf⟩
        · exact absurd ⟨hbsN, rfl⟩ hnotnone
        · subst hbsj
          have hjL : j < st.segments.length := by rw [hinv.len]; exact hjN
          have hpos := SInv_left_pos N st hinv j hjN hjf
          dsimp only
          refine ⟨rfl, ?_, ?_⟩
          · refine SInv_consume N j st _ hinv hjN hjf rfl rfl rfl rfl rfl ?_ ?_ ?_ ?_
            · intro k hk
              exact usedAt_setUsed_mono _ _ _ hjL (hinv.mark k hk)
            · show (some j).isSome = st.curr_end.isSome
              rw [hce]
              rfl
            · intro k hk
              have : j = k := by injection hk
              subst this
              exact ⟨usedAt_setUsed_self st.segments j hjL, hjN⟩
            · intro k hk
              exact ⟨usedAt_setUsed_mono _ _ _ hjL (hinv.chainE k hk).1, (hinv.chainE k hk).2⟩
          · rw [hmeas]
            unfold stMeasure
            simp
            omega
      · subst hbei
        have hiL : i < st.segments.length := by rw [hinv.len]; exact hiN
        have hpos := SInv_left_pos N st hinv i hiN hif
        have hinv1 : SInv N {st with
            contour := st.contour ++ [(getSeg st.segments i).stop],
            segments := setUsed st.segments i, segments_left := st.segments_left - 1,
            curr_end := some i, curr := st.curr ++ [i]} := by
          refine SInv_consume N i st _ hinv hiN hif rfl rfl rfl rfl rfl ?_ ?_ ?_ ?_
          · intro k hk
            exact usedAt_setUsed_mono _ _ _ hiL (hinv.mark k hk)
          · show st.curr_start.isSome = (some i).isSome
            rw [hcs]
            rfl
          · intro k hk
            exact ⟨usedAt_setUsed_mono _ _ _ hiL (hinv.chainS k hk).1, (hinv.chainS k hk).2⟩
          · intro k hk
            have : i = k := by injection hk
            subst this
            exact ⟨usedAt_setUsed_self st.segments i hiL, hiN⟩
        rcases hbs' with hbsN | ⟨j, hbsj, hjN, hjf⟩
        · subst hbsN
          dsimp only
          refine ⟨rfl, ?_, ?_⟩
          · exact hinv1
          · rw [hmeas]
            unfold stMeasure
            rw [hcs]
            simp
            omega
        · subst hbsj
          have hji : j ≠ i := fun h => hne1 (by rw [h])
          have hjf1 : ¬usedAt (setUsed st.segments i) j := by
            rw [usedAt_setUsed_iff st.segments i j hiL]
            push_neg
            exact ⟨hjf, hji⟩
          have hjL1 : j < (setUsed st.segments i).length := by
            rw [setUsed_length, hinv.len]
            exact hjN
          dsimp only
          refine ⟨rfl, ?_, ?_⟩
          · refine SInv_consume N j _ _ hinv1 hjN hjf1 rfl rfl rfl rfl rfl ?_ ?_ ?_ ?_
            · intro k hk
              exact usedAt_setUsed_mono _ _ _ hjL1 (hinv1.mark k hk)
            · rfl
            · intro k hk
              have : j = k := by injection hk
              subst this
              exact ⟨usedAt_setUsed_self _ j hjL1, hjN⟩
            · intro k hk
              have : i = k := by injection hk
              subst this
              exact ⟨usedAt_setUsed_mono _ _ _ hjL1 (usedAt_setUsed_self st.segments i hiL), hiN⟩
          · rw [hmeas]
            unfold stMeasure
            simp
            omega

theorem stitchResolve_spec (N : ℕ) (st : StitchState) (hinv : SInv N st)
    (h : st.curr_start.isSome = true) :
    (stitchResolve st).2 = true ∧ SInv N (stitchResolve st).1 ∧
    stMeasure (stitchResolve st).1 < stMeasure st := by
  cases hcs : st.curr_start with
  | none => rw [hcs] at h; cases h
  | some cs =>
      have hceS : st.curr_end.isSome = true := by rw [← hinv.syncSE, hcs]; rfl
      cases hce : st.curr_end with
      | none => rw [hce] at hceS; cases hceS
      | some ce =>
          unfold stitchResolve
          rw [hcs, hce]
          obtain ⟨h1, h2⟩ := stitchBest_spec N st cs ce hinv.len
          exact stitchApply_spec N st cs ce _ _ hinv hcs hce h1 h2

theorem stitchStep_spec (N : ℕ) (st : StitchState) (hinv : SInv N st)
    (hleft : 0 < st.segments_left) :
    (stitchStep st).2 = true ∧ SInv N (stitchStep st).1 ∧
    stMeasure (stitchStep st).1 < stMeasure st := by
  unfold stitchStep
  cases hcs : st.curr_start with
  | some cs =>
      have := stitchResolve_spec N st hinv (by rw [hcs]; rfl)
      exact this
  | none =>
      cases hfu : findUnused st.segments st.unused with
      | none =>
          exfalso
          have hall : ∀ i < st.segments.length, usedAt st.segments i :=
            findUnused_none st.segments st.unused hfu hinv.mark
          have hsub : List.range N ⊆ st.fin ++ st.disc ++ st.curr := by
            intro a ha
            rw [List.mem_range] at ha
            exact (hinv.mem a ha).mp (hall a (by rw [hinv.len]; exact ha))
          have hlen := (List.subperm_of_subset (List.nodup_range N) hsub).length_le
          rw [List.length_range] at hlen
          have := hinv.leftInv
          omega
      | some si =>
          obtain ⟨hmk, hsiL, hsif⟩ := findUnused_spec st.segments st.unused si hfu
          have hsiN : si < N := by rw [← hinv.len]; exact hsiL
          have hfirst := findUnused_first st.segments st.unused si hfu
          have hinv1 : SInv N (consumeSeed st si) := by
            refine SInv_consume N si st _ hinv hsiN hsif rfl rfl rfl rfl rfl ?_ ?_ ?_ ?_
            · intro j hj
              show usedAt (setUsed st.segments si) j
              rcases Nat.lt_or_ge j st.unused with hj2 | hj2
              · exact usedAt_setUsed_mono _ _ _ hsiL (hinv.mark j hj2)
              · have hj3 : j < si + 1 := hj
                rcases Nat.lt_or_ge j si with hj4 | hj4
                · exact usedAt_setUsed_mono _ _ _ hsiL (hfirst j hj2 hj4)
                · have : j = si := by omega
                  subst this
                  exact usedAt_setUsed_self st.segments j hsiL
            · rfl
            · intro k hk
              have : si = k := by injection hk
              subst this
              exact ⟨usedAt_setUsed_self st.segments si hsiL, hsiN⟩
            · intro k hk
              have : si = k := by injection hk
              subst this
              exact ⟨usedAt_setUsed_self st.segments si hsiL, hsiN⟩
          have hm1 : stMeasure (consumeSeed st si) < stMeasure st := by
            unfold stMeasure consumeSeed
            rw [hcs]
            simp
            omega
          obtain ⟨ha, hb, hm2⟩ := stitchResolve_spec N (consumeSeed st si) hinv1 (by rfl)
          exact ⟨ha, hb, lt_trans hm2 hm1⟩

theorem stitchLoop_spec (fuel : ℕ) (N : ℕ) (st : StitchState) (hinv : SInv N st)
    (hfuel : stMeasure st < fuel) :
    SInv N (stitchLoop fuel st) ∧ (stitchLoop fuel st).segments_left = 0 := by
  induction fuel generalizing st with
  | zero => omega
  | succ n ih =>
      unfold stitchLoop
      by_cases hz : st.segments_left = 0
      · rw [if_pos hz]
        exact ⟨hinv, hz⟩
      · rw [if_neg hz]
        obtain ⟨hc, hi2, hm2⟩ := stitchStep_spec N st hinv (by omega)
        dsimp only
        rw [hc]
        simp only [if_true]
        refine ih (stitchStep st).1 hi2 ?_
        have hb : stMeasure st ≤ n := by
          unfold stMeasure at hfuel ⊢
          omega
        omega

theorem segUsed_if (c : Prop) [Decidable c] (l1 l2 : List Segment)
    (h1 : ∀ s ∈ l1, s.used = false) (h2 : ∀ s ∈ l2, s.used = false) :
    ∀ s ∈ (if c then l1 else l2), s.used = false := by
  split
  · exact h1
  · exact h2

theorem segUsed_nil : ∀ s ∈ ([] : List Segment), s.used = false := by
  intro s hs
  cases hs

theorem segUsed_new (a b : Vec2) : ∀ s ∈ [Segment.new a b], s.used = false := by
  intro s hs
  rw [List.mem_singleton] at hs
  subst hs
  rfl

theorem segUsed_new2 (a b c d : Vec2) :
    ∀ s ∈ [Segment.new a b, Segment.new c d], s.used = false := by
  intro s hs
  rw [List.mem_cons, List.mem_singleton] at hs
  rcases hs with hs | hs
  · subst hs
    rfl
  · subst hs
    rfl

theorem cellSegments_used (img : ImageModel) (off : Vec2) (scale : ℚ) (x y : ℕ) :
    ∀ s ∈ cellSegments img off scale x y, s.used = false := by
  unfold cellSegments
  dsimp only
  exact segUsed_if _ _ _ segUsed_nil
    (segUsed_if _ _ _ segUsed_nil
      (segUsed_if _ _ _ (segUsed_new _ _) (segUsed_new2 _ _ _ _)))

theorem extractSegments_unused (img : ImageModel) (off : Vec2) (scale : ℚ) :
    ∀ s ∈ extractSegments img off scale, s.used = false := by
  intro s hs
  unfold extractSegments at hs
  rw [List.mem_flatMap] at hs
  obtain ⟨y, _, hs⟩ := hs
  rw [List.mem_flatMap] at hs
  obtain ⟨x, _, hs⟩ := hs
  exact cellSegments_used img off scale x y s hs

theorem stitchRun_conservation (segs : List Segment) (z : ℚ)
    (h : ∀ s ∈ segs, s.used = false) :
    ((stitchRun segs z).fin ++ (stitchRun segs z).disc).Nodup ∧
    (stitchRun segs z).fin.length + (stitchRun segs z).disc.length = segs.length ∧
    (stitchRun segs z).curr = [] := by
  have hinv0 : SInv segs.length
      ⟨segs, segs.length, none, none, 0, [], PolySlice.new z, [], [], []⟩ := by
    refine ⟨rfl, ?_, ?_, ?_, ?_, ?_, rfl, ?_, ?_⟩
    · intro i hi
      constructor
      · intro hu
        exfalso
        unfold usedAt getSeg at hu
        rw [List.getD_eq_getElem segs default hi] at hu
        rw [h _ (List.getElem_mem hi)] at hu
        cases hu
      · intro hmem
        simp at hmem
    · simp
    · intro i hi
      simp at hi
    · simp
    · intro i hi
      dsimp only at hi
      omega
    · intro j hj
      cases hj
    · intro j hj
      cases hj
  obtain ⟨hinvF, hleftF⟩ := stitchLoop_spec (2 * segs.length + 1) segs.length _ hinv0
    (by simp [stMeasure])
  have hnd := hinvF.nodup
  have hli := hinvF.leftInv
  rw [hleftF] at hli
  unfold stitchRun
  dsimp only
  refine ⟨?_, ?_, rfl⟩
  · rw [← List.append_assoc]
    exact hnd
  · simp only [List.length_append] at hli ⊢
    omega

/-- C6: for every raster input to `PolySlice.from_sdf`, each extracted segment
is consumed at most once during the stitching pass (the instrumented index
lists of segments finalized into contours and of segments discarded in
unterminated or too-short chains are jointly duplicate-free), and the number
of segments consumed into finalized contours plus the number of discarded
segments equals the total number of segments produced by edge extraction;
moreover `from_sdf` is exactly the slice of this instrumented run whenever
the raster is at least 2×2. -/
theorem C6_segment_conservation (img : ImageModel) (z : ℚ) (off : Vec2) (scale : ℚ) :
    ((stitchRun (extractSegments img off scale) z).fin
      ++ (stitchRun (extractSegments img off scale) z).disc).Nodup ∧
    (stitchRun (extractSegments img off scale) z).fin.length
      + (stitchRun (extractSegments img off scale) z).disc.length
      = (extractSegments img off scale).length ∧
    PolySlice.from_sdf img z off scale =
      (if img.width < 2 ∨ img.height < 2 then PolySlice.new z
        else (stitchRun (extractSegments img off scale) z).slice) := by
  obtain ⟨h1, h2, _⟩ := stitchRun_conservation (extractSegments img off scale) z
    (extractSegments_unused img off scale)
  exact ⟨h1, h2, rfl⟩

/-! ## Claim C1: round-trip infrastructure — decimal formatting and parsing -/

theorem ofDigitsChars_shift (l : List Char) (a : ℕ) :
    l.foldl (fun a c => a * 10 + digitVal c) a
      = a * 10 ^ l.length + l.foldl (fun a c => a * 10 + digitVal c) 0 := by
  induction l generalizing a with
  | nil => simp
  | cons c t ih =>
      simp only [List.foldl_cons, List.length_cons]
      rw [ih (a * 10 + digitVal c), ih (0 * 10 + digitVal c)]
      ring

theorem ofDigitsChars_append (l1 l2 : List Char) :
    ofDigitsChars (l1 ++ l2) = ofDigitsChars l1 * 10 ^ l2.length + ofDigitsChars l2 := by
  unfold ofDigitsChars
  rw [List.foldl_append, ofDigitsChars_shift]

theorem digitVal_ofNat (d : ℕ) (h : d < 10) : digitVal (Char.ofNat (48 + d)) = d := by
  interval_cases d <;> rfl

theorem isDigit_ofNat (d : ℕ) (h : d < 10) : (Char.ofNat (48 + d)).isDigit = true := by
  interval_cases d <;> rfl

theorem ofDigitsChars_rev_map (l : List ℕ) (h : ∀ d ∈ l, d < 10) :
    ofDigitsChars ((l.map fun d => Char.ofNat (48 + d)).reverse) = Nat.ofDigits 10 l := by
  induction l with
  | nil => rfl
  | cons d t ih =>
      simp only [List.map_cons, List.reverse_cons]
      rw [ofDigitsChars_append, ih fun x hx => h x (List.mem_cons_of_mem d hx)]
      have hd : ofDigitsChars [Char.ofNat (48 + d)] = d := by
        show 0 * 10 + digitVal (Char.ofNat (48 + d)) = d
        rw [digitVal_ofNat d (h d (List.mem_cons_self d t))]
        omega
      rw [hd, Nat.ofDigits_cons]
      simp
      ring

theorem ofDigitsChars_natToChars (n : ℕ) : ofDigitsChars (natToChars n) = n := by
  unfold natToChars
  split
  · subst n
    rfl
  · rw [ofDigitsChars_rev_map _ fun d hd => Nat.digits_lt_base (by norm_num) hd]
    exact Nat.ofDigits_digits 10 n

theorem natToChars_all_digit (n : ℕ) : ∀ c ∈ natToChars n, c.isDigit = true := by
  unfold natToChars
  split
  · intro c hc
    rw [List.mem_singleton] at hc
    subst hc
    rfl
  · intro c hc
    rw [List.mem_reverse, List.mem_map] at hc
    obtain ⟨d, hd, rfl⟩ := hc
    exact isDigit_ofNat d (Nat.digits_lt_base (by norm_num) hd)

theorem natToChars_ne_nil (n : ℕ) : natToChars n ≠ [] := by
  unfold natToChars
  split
  · simp
  · intro h
    rw [List.reverse_eq_nil_iff, List.map_eq_nil] at h
    exact (by assumption : ¬n = 0) (Nat.digits_eq_nil_iff_eq_zero.mp h)

theorem natToChars_length_le (n k : ℕ) (hk : 1 ≤ k) (h : n < 10 ^ k) :
    (natToChars n).length ≤ k := by
  unfold natToChars
  split
  · simpa using hk
  · simp only [List.length_reverse, List.length_map]
    by_contra hlen
    have h1 : k + 1 ≤ (Nat.digits 10 n).length := by omega
    have h2 : (10 : ℕ) ^ (k + 1) ≤ 10 ^ (Nat.digits 10 n).length :=
      Nat.pow_le_pow_right (by norm_num) h1
    have h3 := Nat.base_pow_length_digits_le 10 n (by norm_num) (by assumption)
    have h4 : (10 : ℕ) ^ (k + 1) = 10 * 10 ^ k := by ring
    omega

theorem ofDigitsChars_replicate_zero (k : ℕ) :
    ofDigitsChars (List.replicate k '0') = 0 := by
  induction k with
  | zero => rfl
  | succ m ih =>
      rw [List.replicate_succ]
      show (List.replicate m '0').foldl (fun a c => a * 10 + digitVal c) (0 * 10 + digitVal '0') = 0
      have : 0 * 10 + digitVal '0' = 0 := rfl
      rw [this]
      exact ih

theorem ofDigitsChars_padZerosTo (w : ℕ) (l : List Char) :
    ofDigitsChars (padZerosTo w l) = ofDigitsChars l := by
  unfold padZerosTo
  rw [ofDigitsChars_append, ofDigitsChars_replicate_zero]
  omega

theorem padZerosTo_length (w : ℕ) (l : List Char) (h : l.length ≤ w) :
    (padZerosTo w l).length = w := by
  unfold padZerosTo
  simp
  omega

theorem padZerosTo_all_digit (w : ℕ) (l : List Char) (h : ∀ c ∈ l, c.isDigit = true) :
    ∀ c ∈ padZerosTo w l, c.isDigit = true := by
  intro c hc
  unfold padZerosTo at hc
  rw [List.mem_append] at hc
  rcases hc with hc | hc
  · rw [List.eq_of_mem_replicate hc]
    rfl
  · exact h c hc

theorem breakAt_not (p : Char → Bool) (l : List Char) (h : ∀ c ∈ l, p c = false) :
    breakAt p l = (l, none) := by
  induction l with
  | nil => rfl
  | cons c t ih =>
      unfold breakAt
      rw [h c (List.mem_cons_self c t)]
      simp only [Bool.false_eq_true, if_false]
      rw [ih fun x hx => h x (List.mem_cons_of_mem c hx)]

theorem breakAt_split (p : Char → Bool) (l1 : List Char) (c : Char) (l2 : List Char)
    (h1 : ∀ x ∈ l1, p x = false) (hc : p c = true) :
    breakAt p (l1 ++ c :: l2) = (l1, some l2) := by
  induction l1 with
  | nil =>
      simp only [List.nil_append]
      unfold breakAt
      rw [hc]
      simp
  | cons a t ih =>
      show breakAt p (a :: (t ++ c :: l2)) = _
      unfold breakAt
      rw [h1 a (List.mem_cons_self a t)]
      simp only [Bool.false_eq_true, if_false]
      rw [ih fun x hx => h1 x (List.mem_cons_of_mem a hx)]

theorem digit_ne (c : Char) (h : c.isDigit = true) (d : Char) (hd : d.isDigit = false) :
    c ≠ d := by
  intro he
  subst he
  rw [h] at hd
  cases hd

theorem parseFloat_digits_dot (c : Char) (I' F : List Char)
    (hdI : ∀ x ∈ c :: I', x.isDigit = true) (hdF : ∀ x ∈ F, x.isDigit = true) :
    parseFloatChars (c :: I' ++ '.' :: F)
      = some ((ofDigitsChars (c :: I' ++ F) : ℚ) / (10 : ℚ) ^ F.length) := by
  have hc := hdI c (List.mem_cons_self c I')
  have hnotE : ∀ x ∈ c :: (I' ++ '.' :: F),
      (fun ch => decide (ch = 'e' ∨ ch = 'E')) x = false := by
    intro x hx
    simp only [List.mem_cons, List.mem_append] at hx
    have hxne : x ≠ 'e' ∧ x ≠ 'E' := by
      rcases hx with rfl | hx | rfl | hx
      · exact ⟨digit_ne x hc 'e' rfl, digit_ne x hc 'E' rfl⟩
      · have := hdI x (List.mem_cons_of_mem c hx)
        exact ⟨digit_ne x this 'e' rfl, digit_ne x this 'E' rfl⟩
      · exact ⟨by decide, by decide⟩
      · have := hdF x hx
        exact ⟨digit_ne x this 'e' rfl, digit_ne x this 'E' rfl⟩
    simp [hxne.1, hxne.2]
  have hnotDot : ∀ x ∈ c :: I', (fun ch => decide (ch = '.')) x = false := by
    intro x hx
    have := hdI x hx
    simp [digit_ne x this '.' rfl]
  have hall : (c :: I').all Char.isDigit = true := by
    rw [List.all_eq_true]
    exact hdI
  have hallF : F.all Char.isDigit = true := by
    rw [List.all_eq_true]
    exact hdF
  unfold parseFloatChars
  rw [List.cons_append]
  split
  · rename_i t heq
    injection heq with h1 _
    exact absurd h1 (digit_ne c hc '-' rfl)
  · rename_i t heq
    injection heq with h1 _
    exact absurd h1 (digit_ne c hc '+' rfl)
  · dsimp only
    rw [breakAt_not _ _ hnotE]
    dsimp only
    rw [show (c :: (I' ++ '.' :: F) : List Char) = (c :: I') ++ '.' :: F from rfl]
    rw [breakAt_split _ _ _ _ hnotDot (by decide)]
    dsimp only [Option.getD]
    rw [if_neg (not_not_intro hall), if_neg (not_not_intro hallF),
      if_neg (fun h => List.cons_ne_nil c I' h.1)]
    rw [one_mul]

theorem parseFloat_neg_digits_dot (c : Char) (I' F : List Char)
    (hdI : ∀ x ∈ c :: I', x.isDigit = true) (hdF : ∀ x ∈ F, x.isDigit = true) :
    parseFloatChars ('-' :: (c :: I' ++ '.' :: F))
      = some (-((ofDigitsChars (c :: I' ++ F) : ℚ) / (10 : ℚ) ^ F.length)) := by
  have hc := hdI c (List.mem_cons_self c I')
  have hnotE : ∀ x ∈ c :: (I' ++ '.' :: F),
      (fun ch => decide (ch = 'e' ∨ ch = 'E')) x = false := by
    intro x hx
    simp only [List.mem_cons, List.mem_append] at hx
    have hxne : x ≠ 'e' ∧ x ≠ 'E' := by
      rcases hx with rfl | hx | rfl | hx
      · exact ⟨digit_ne x hc 'e' rfl, digit_ne x hc 'E' rfl⟩
      · have := hdI x (List.mem_cons_of_mem c hx)
        exact ⟨digit_ne x this 'e' rfl, digit_ne x this 'E' rfl⟩
      · exact ⟨by decide, by decide⟩
      · have := hdF x hx
        exact ⟨digit_ne x this 'e' rfl, digit_ne x this 'E' rfl⟩
    simp [hxne.1, hxne.2]
  have hnotDot : ∀ x ∈ c :: I', (fun ch => decide (ch = '.')) x = false := by
    intro x hx
    have := hdI x hx
    simp [digit_ne x this '.' rfl]
  have hall : (c :: I').all Char.isDigit = true := by
    rw [List.all_eq_true]
    exact hdI
  have hallF : F.all Char.isDigit = true := by
    rw [List.all_eq_true]
    exact hdF
  unfold parseFloatChars
  rw [List.cons_append]
  split
  · rename_i t heq
    injection heq with _ h2
    subst h2
    dsimp only
    rw [breakAt_not _ _ hnotE]
    dsimp only
    rw [show (c :: (I' ++ '.' :: F) : List Char) = (c :: I') ++ '.' :: F from rfl]
    rw [breakAt_split _ _ _ _ hnotDot (by decide)]
    dsimp only [Option.getD]
    rw [if_neg (not_not_intro hall), if_neg (not_not_intro hallF),
      if_neg (fun h => List.cons_ne_nil c I' h.1)]
    rw [neg_one_mul]
  · rename_i t heq
    injection heq with h1 _
    exact absurd h1 (by decide)
  · rename_i h1 h2
    exact absurd rfl (h1 _)

theorem natToChars_mod5_length (m : ℕ) : (natToChars (m % 100000)).length ≤ 5 := by
  refine natToChars_length_le _ 5 (by norm_num) ?_
  have := Nat.mod_lt m (show 0 < 100000 by norm_num)
  norm_num
  omega

theorem parseFloatChars_fmtFixed5 (q : ℚ) :
    parseFloatChars (fmtFixed5 q) = some (roundedVal5 q) := by
  by_cases h : q < 0
  · simp only [fmtFixed5, roundedVal5, if_pos h]
    obtain ⟨c, I', hI⟩ :=
      List.exists_cons_of_ne_nil (natToChars_ne_nil ((round (-q * 100000)).toNat / 100000))
    rw [hI]
    rw [parseFloat_neg_digits_dot c I' _
      (by rw [← hI]; exact natToChars_all_digit _)
      (padZerosTo_all_digit _ _ (natToChars_all_digit _))]
    have hr : (0:ℤ) ≤ round (-q * 100000) := by
      rw [round_eq]
      refine Int.floor_nonneg.mpr ?_
      nlinarith
    have hlen : (padZerosTo 5 (natToChars ((round (-q * 100000)).toNat % 100000))).length = 5 :=
      padZerosTo_length _ _ (natToChars_mod5_length _)
    have hval : ofDigitsChars
        (c :: I' ++ padZerosTo 5 (natToChars ((round (-q * 100000)).toNat % 100000)))
        = (round (-q * 100000)).toNat := by
      rw [show (c :: I' ++ padZerosTo 5 (natToChars ((round (-q * 100000)).toNat % 100000))
            : List Char)
          = (c :: I') ++ padZerosTo 5 (natToChars ((round (-q * 100000)).toNat % 100000))
          from rfl]
      rw [ofDigitsChars_append, ← hI, ofDigitsChars_natToChars, ofDigitsChars_padZerosTo,
        ofDigitsChars_natToChars, hlen]
      omega
    rw [hval, hlen]
    congr 1
    rw [show (((round (-q * 100000)).toNat : ℕ) : ℚ) = ((round (-q * 100000) : ℤ) : ℚ) from by
      exact_mod_cast Int.toNat_of_nonneg hr]
    push_cast
    ring
  · simp only [fmtFixed5, roundedVal5, if_neg h]
    obtain ⟨c, I', hI⟩ :=
      List.exists_cons_of_ne_nil (natToChars_ne_nil ((round (q * 100000)).toNat / 100000))
    rw [hI]
    rw [parseFloat_digits_dot c I' _
      (by rw [← hI]; exact natToChars_all_digit _)
      (padZerosTo_all_digit _ _ (natToChars_all_digit _))]
    have hr : (0:ℤ) ≤ round (q * 100000) := by
      rw [round_eq]
      refine Int.floor_nonneg.mpr ?_
      have : (0:ℚ) ≤ q := le_of_not_lt h
      nlinarith
    have hlen : (padZerosTo 5 (natToChars ((round (q * 100000)).toNat % 100000))).length = 5 :=
      padZerosTo_length _ _ (natToChars_mod5_length _)
    have hval : ofDigitsChars
        (c :: I' ++ padZerosTo 5 (natToChars ((round (q * 100000)).toNat % 100000)))
        = (round (q * 100000)).toNat := by
      rw [show (c :: I' ++ padZerosTo 5 (natToChars ((round (q * 100000)).toNat % 100000))
            : List Char)
          = (c :: I') ++ padZerosTo 5 (natToChars ((round (q * 100000)).toNat % 100000))
          from rfl]
      rw [ofDigitsChars_append, ← hI, ofDigitsChars_natToChars, ofDigitsChars_padZerosTo,
        ofDigitsChars_natToChars, hlen]
      omega
    rw [hval, hlen]
    congr 1
    rw [show (((round (q * 100000)).toNat : ℕ) : ℚ) = ((round (q * 100000) : ℤ) : ℚ) from by
      exact_mod_cast Int.toNat_of_nonneg hr]
    push_cast
    ring

theorem ofDigitsChars_replicate_prepend (k : ℕ) (l : List Char) :
    ofDigitsChars (List.replicate k '0' ++ l) = ofDigitsChars l := by
  rw [ofDigitsChars_append, ofDigitsChars_replicate_zero]
  omega

theorem parseFloat_intpart (L1 F : List Char) (h1 : L1 ≠ [])
    (hdI : ∀ x ∈ L1, x.isDigit = true) (hdF : ∀ x ∈ F, x.isDigit = true) :
    parseFloatChars (L1 ++ '.' :: F)
      = some ((ofDigitsChars (L1 ++ F) : ℚ) / (10 : ℚ) ^ F.length) := by
  obtain ⟨c, I', rfl⟩ := List.exists_cons_of_ne_nil h1
  exact parseFloat_digits_dot c I' F hdI hdF

theorem parseFloat_neg_intpart (L1 F : List Char) (h1 : L1 ≠ [])
    (hdI : ∀ x ∈ L1, x.isDigit = true) (hdF : ∀ x ∈ F, x.isDigit = true) :
    parseFloatChars ('-' :: (L1 ++ '.' :: F))
      = some (-((ofDigitsChars (L1 ++ F) : ℚ) / (10 : ℚ) ^ F.length)) := by
  obtain ⟨c, I', rfl⟩ := List.exists_cons_of_ne_nil h1
  exact parseFloat_neg_digits_dot c I' F hdI hdF

theorem fmtFixed5_shape_pos (q : ℚ) (h : ¬q < 0) :
    fmtFixed5 q = natToChars ((round (q * 100000)).toNat / 100000)
      ++ '.' :: padZerosTo 5 (natToChars ((round (q * 100000)).toNat % 100000)) := by
  simp only [fmtFixed5, if_neg h]

theorem fmtFixed5_shape_neg (q : ℚ) (h : q < 0) :
    fmtFixed5 q = '-' :: (natToChars ((round (-q * 100000)).toNat / 100000)
      ++ '.' :: padZerosTo 5 (natToChars ((round (-q * 100000)).toNat % 100000))) := by
  simp only [fmtFixed5, if_pos h]

theorem rep_natToChars_ne_nil (k n : ℕ) : List.replicate k '0' ++ natToChars n ≠ [] := by
  intro he
  exact natToChars_ne_nil n (List.append_eq_nil.mp he).2

theorem rep_natToChars_all_digit (k n : ℕ) :
    ∀ x ∈ List.replicate k '0' ++ natToChars n, x.isDigit = true := by
  intro x hx
  rcases List.mem_append.mp hx with hx | hx
  · rw [List.eq_of_mem_replicate hx]
    rfl
  · exact natToChars_all_digit n x hx

theorem parseFloatChars_fmtFixed5Pad8 (q : ℚ) :
    parseFloatChars (fmtFixed5Pad8 q) = some (roundedVal5 q) := by
  rw [← parseFloatChars_fmtFixed5 q]
  by_cases h : q < 0
  · simp only [fmtFixed5Pad8, if_pos h]
    rw [fmtFixed5_shape_neg q h]
    split
    · rename_i rest heq
      injection heq with _ h2
      subst h2
      rw [show padZerosTo 7 (natToChars ((round (-q * 100000)).toNat / 100000)
            ++ '.' :: padZerosTo 5 (natToChars ((round (-q * 100000)).toNat % 100000)))
          = (List.replicate (7 - (natToChars ((round (-q * 100000)).toNat / 100000)
                ++ '.' :: padZerosTo 5 (natToChars ((round (-q * 100000)).toNat % 100000))).length)
              '0' ++ natToChars ((round (-q * 100000)).toNat / 100000))
            ++ '.' :: padZerosTo 5 (natToChars ((round (-q * 100000)).toNat % 100000)) from by
        unfold padZerosTo
        rw [List.append_assoc]]
      rw [parseFloat_neg_intpart _ _ (rep_natToChars_ne_nil _ _) (rep_natToChars_all_digit _ _)
        (padZerosTo_all_digit _ _ (natToChars_all_digit _))]
      rw [parseFloat_neg_intpart _ _ (natToChars_ne_nil _) (natToChars_all_digit _)
        (padZerosTo_all_digit _ _ (natToChars_all_digit _))]
      rw [List.append_assoc, ofDigitsChars_replicate_prepend]
    · rename_i hno
      exact absurd rfl (hno _)
  · simp only [fmtFixed5Pad8, if_neg h]
    rw [fmtFixed5_shape_pos q h]
    rw [show padZerosTo 8 (natToChars ((round (q * 100000)).toNat / 100000)
          ++ '.' :: padZerosTo 5 (natToChars ((round (q * 100000)).toNat % 100000)))
        = (List.replicate (8 - (natToChars ((round (q * 100000)).toNat / 100000)
              ++ '.' :: padZerosTo 5 (natToChars ((round (q * 100000)).toNat % 100000))).length)
            '0' ++ natToChars ((round (q * 100000)).toNat / 100000))
          ++ '.' :: padZerosTo 5 (natToChars ((round (q * 100000)).toNat % 100000)) from by
      unfold padZerosTo
      rw [List.append_assoc]]
    rw [parseFloat_intpart _ _ (rep_natToChars_ne_nil _ _) (rep_natToChars_all_digit _ _)
      (padZerosTo_all_digit _ _ (natToChars_all_digit _))]
    rw [parseFloat_intpart _ _ (natToChars_ne_nil _) (natToChars_all_digit _)
      (padZerosTo_all_digit _ _ (natToChars_all_digit _))]
    rw [List.append_assoc, ofDigitsChars_replicate_prepend]

theorem round_mono_q (x y : ℚ) (h : x ≤ y) : round x ≤ round y := by
  rw [round_eq, round_eq]
  exact Int.floor_mono (by linarith)

theorem roundedVal5_close (q : ℚ) : |roundedVal5 q - q| ≤ 1 / 200000 := by
  by_cases h : q < 0
  · have h1 := abs_sub_round (-q * 100000)
    rw [abs_le] at h1 ⊢
    rw [roundedVal5, if_pos h]
    constructor <;> · push_cast at h1 ⊢; linarith
  · have h1 := abs_sub_round (q * 100000)
    rw [abs_le] at h1 ⊢
    rw [roundedVal5, if_neg h]
    constructor <;> · push_cast at h1 ⊢; linarith

theorem roundedVal5_mono (q r : ℚ) (h : q ≤ r) : roundedVal5 q ≤ roundedVal5 r := by
  by_cases hq : q < 0 <;> by_cases hr : r < 0
  · rw [roundedVal5, if_pos hq, roundedVal5, if_pos hr]
    have := round_mono_q (-r * 100000) (-q * 100000) (by linarith)
    have hc : ((round (-r * 100000) : ℤ) : ℚ) ≤ ((round (-q * 100000) : ℤ) : ℚ) :=
      Int.cast_le.mpr this
    linarith
  · rw [roundedVal5, if_pos hq, roundedVal5, if_neg hr]
    have c1 : (0:ℤ) ≤ round (-q * 100000) := by
      rw [round_eq]
      refine Int.floor_nonneg.mpr ?_
      nlinarith
    have c2 : (0:ℤ) ≤ round (r * 100000) := by
      rw [round_eq]
      refine Int.floor_nonneg.mpr ?_
      have : (0:ℚ) ≤ r := le_of_not_lt hr
      nlinarith
    have d1 : (0:ℚ) ≤ ((round (-q * 100000) : ℤ) : ℚ) := by exact_mod_cast c1
    have d2 : (0:ℚ) ≤ ((round (r * 100000) : ℤ) : ℚ) := by exact_mod_cast c2
    linarith
  · exact absurd (lt_of_le_of_lt h hr) hq
  · rw [roundedVal5, if_neg hq, roundedVal5, if_neg hr]
    have := round_mono_q (q * 100000) (r * 100000) (by linarith)
    have hc : ((round (q * 100000) : ℤ) : ℚ) ≤ ((round (r * 100000) : ℤ) : ℚ) :=
      Int.cast_le.mpr this
    linarith

theorem roundedVal5_ge (q : ℚ) (h : 1 / 100000 ≤ q) : 1 / 100000 ≤ roundedVal5 q := by
  have hq : ¬q < 0 := by linarith
  rw [roundedVal5, if_neg hq]
  have h1 : (1 : ℚ) ≤ q * 100000 := by linarith
  have h2 : (1 : ℤ) ≤ round (q * 100000) := by
    have := round_mono_q 1 (q * 100000) h1
    rw [round_one] at this
    exact this
  have h3 : (1 : ℚ) ≤ ((round (q * 100000) : ℤ) : ℚ) := by exact_mod_cast h2
  linarith

theorem digit_class (c : Char) (h : c.isDigit = true) :
    c ≠ '$' ∧ c ≠ '/' ∧ c ≠ ',' ∧ c.isWhitespace = false := by
  refine ⟨digit_ne c h '$' rfl, digit_ne c h '/' rfl, digit_ne c h ',' rfl, ?_⟩
  have h1 := digit_ne c h ' ' rfl
  have h2 := digit_ne c h '\t' rfl
  have h3 := digit_ne c h '\r' rfl
  have h4 := digit_ne c h '\n' rfl
  simp [Char.isWhitespace, h1, h2, h3, h4]

theorem numClass_token (c : Char) (h : c.isDigit = true ∨ c = '.' ∨ c = '-') :
    (c ≠ '$' ∧ c ≠ '/' ∧ c ≠ ',') ∧ c.isWhitespace = false := by
  rcases h with h | rfl | rfl
  · obtain ⟨a, b, d, e⟩ := digit_class c h
    exact ⟨⟨a, b, d⟩, e⟩
  · exact ⟨⟨by decide, by decide, by decide⟩, by decide⟩
  · exact ⟨⟨by decide, by decide, by decide⟩, by decide⟩

theorem fmtFixed5_class (q : ℚ) :
    ∀ c ∈ fmtFixed5 q, c.isDigit = true ∨ c = '.' ∨ c = '-' := by
  intro c hc
  by_cases h : q < 0
  · rw [fmtFixed5_shape_neg q h] at hc
    rcases List.mem_cons.mp hc with rfl | hc
    · right; right; rfl
    · rcases List.mem_append.mp hc with hc | hc
      · left; exact natToChars_all_digit _ c hc
      · rcases List.mem_cons.mp hc with rfl | hc
        · right; left; rfl
        · left; exact padZerosTo_all_digit _ _ (natToChars_all_digit _) c hc
  · rw [fmtFixed5_shape_pos q h] at hc
    rcases List.mem_append.mp hc with hc | hc
    · left; exact natToChars_all_digit _ c hc
    · rcases List.mem_cons.mp hc with rfl | hc
      · right; left; rfl
      · left; exact padZerosTo_all_digit _ _ (natToChars_all_digit _) c hc

theorem fmtFixed5Pad8_class (q : ℚ) :
    ∀ c ∈ fmtFixed5Pad8 q, c.isDigit = true ∨ c = '.' ∨ c = '-' := by
  intro c hc
  by_cases h : q < 0
  · have hm : fmtFixed5Pad8 q = '-' :: padZerosTo 7
        (natToChars ((round (-q * 100000)).toNat / 100000)
          ++ '.' :: padZerosTo 5 (natToChars ((round (-q * 100000)).toNat % 100000))) := by
      rw [fmtFixed5Pad8, if_pos h, fmtFixed5_shape_neg q h]
      split
      · rename_i rest heq
        injection heq with _ h2
        subst h2
        rfl
      · rename_i hno
        exact absurd rfl (hno _)
    rw [hm] at hc
    rcases List.mem_cons.mp hc with rfl | hc
    · right; right; rfl
    · unfold padZerosTo at hc
      rcases List.mem_append.mp hc with hc | hc
      · left
        rw [List.eq_of_mem_replicate hc]
        rfl
      · have : c ∈ fmtFixed5 q := by
          rw [fmtFixed5_shape_neg q h]
          exact List.mem_cons_of_mem _ hc
        exact fmtFixed5_class q c this
  · rw [fmtFixed5Pad8, if_neg h] at hc
    unfold padZerosTo at hc
    rcases List.mem_append.mp hc with hc | hc
    · left
      rw [List.eq_of_mem_replicate hc]
      rfl
    · exact fmtFixed5_class q c hc

theorem stripComment_cons (c : Char) (cs : List Char) :
    stripComment (c :: cs)
      = if c = '/' ∧ cs.head? = some '/' then [] else c :: stripComment cs := rfl

theorem stripComment_no_slash (t : List Char) (ht : ∀ c ∈ t, c ≠ '/') :
    stripComment t = t := by
  induction t with
  | nil => rfl
  | cons c cs ih =>
      rw [stripComment_cons, if_neg, ih fun x hx => ht x (List.mem_cons_of_mem c hx)]
      intro hcc
      exact ht c (List.mem_cons_self c cs) hcc.1

theorem stripComment_append (x t : List Char) (hx : stripComment x = x)
    (ht : ∀ c ∈ t, c ≠ '/') : stripComment (x ++ t) = x ++ t := by
  induction x with
  | nil => exact stripComment_no_slash t ht
  | cons a x' ih =>
      rw [stripComment_cons] at hx
      split at hx
      · exact absurd hx (by simp)
      · rename_i hcond
        injection hx with _ hx'
        rw [List.cons_append, stripComment_cons, if_neg, ih hx']
        intro hcc
        rcases hcc with ⟨rfl, hh⟩
        cases x' with
        | cons b x'' => exact hcond ⟨rfl, by simpa using hh⟩
        | nil =>
            simp only [List.nil_append] at hh
            cases t with
            | nil => simp at hh
            | cons d t' =>
                simp only [List.head?_cons, Option.some_inj] at hh
                exact ht d (List.mem_cons_self d t') hh

theorem dropWhile_no_ws (m : List Char) (hm : ∀ c ∈ m, c.isWhitespace = false) :
    m.dropWhile Char.isWhitespace = m := by
  cases m with
  | nil => rfl
  | cons c t =>
      rw [List.dropWhile_cons, hm c (List.mem_cons_self c t)]
      simp

theorem trimChars_eq_self (l : List Char) (h : ∀ c ∈ l, c.isWhitespace = false) :
    trimChars l = l := by
  unfold trimChars
  rw [dropWhile_no_ws l h, dropWhile_no_ws l.reverse fun c hc => h c (List.mem_reverse.mp hc),
    List.reverse_reverse]

theorem cleanLine_eq_self (l : List Char) (h1 : stripComment l = l)
    (h2 : ∀ c ∈ l, c.isWhitespace = false) : cleanLine l = l := by
  unfold cleanLine
  rw [h1, trimChars_eq_self l h2]

theorem takeWhile_append_stop (p : Char → Bool) (t r : List Char)
    (h1 : ∀ c ∈ t, p c = true)
    (h2 : r = [] ∨ ∃ c r', r = c :: r' ∧ p c = false) :
    (t ++ r).takeWhile p = t ∧ (t ++ r).dropWhile p = r := by
  induction t with
  | nil =>
      rcases h2 with rfl | ⟨c, r', rfl, hc⟩
      · simp
      · simp [List.takeWhile_cons, List.dropWhile_cons, hc]
  | cons a t' ih =>
      obtain ⟨ih1, ih2⟩ := ih fun c hc => h1 c (List.mem_cons_of_mem a hc)
      rw [List.cons_append, List.takeWhile_cons, List.dropWhile_cons,
        h1 a (List.mem_cons_self a t')]
      simp only [if_true]
      exact ⟨by rw [ih1], by rw [ih2]⟩

theorem extract_parameter_token (sep : Char) (t r : List Char)
    (hsep : sep = '/' ∨ sep = ',')
    (ht : ∀ c ∈ t, c ≠ '$' ∧ c ≠ '/' ∧ c ≠ ',')
    (hr : r = [] ∨ ∃ c r', r = c :: r' ∧ (c = '$' ∨ c = '/' ∨ c = ','))
    (htrim : trimChars t = t) :
    extract_parameter (sep :: (t ++ r)) = some (t, r) := by
  have hcons : extract_parameter (sep :: (t ++ r))
      = if sep = '/' ∨ sep = ',' then
          some (trimChars ((t ++ r).takeWhile fun ch => ¬(ch = '$' ∨ ch = '/' ∨ ch = ',')),
            (t ++ r).dropWhile fun ch => ¬(ch = '$' ∨ ch = '/' ∨ ch = ',')) else none := rfl
  rw [hcons, if_pos hsep]
  have h1 : ∀ c ∈ t, (fun ch => decide ¬(ch = '$' ∨ ch = '/' ∨ ch = ',')) c = true := by
    intro c hc
    obtain ⟨a, b, d⟩ := ht c hc
    simp [a, b, d]
  have h2 : r = [] ∨ ∃ c r', r = c :: r'
      ∧ (fun ch => decide ¬(ch = '$' ∨ ch = '/' ∨ ch = ',')) c = false := by
    rcases hr with rfl | ⟨c, r', rfl, hc⟩
    · left; rfl
    · right
      exact ⟨c, r', rfl, by simp [hc]⟩
  obtain ⟨e1, e2⟩ := takeWhile_append_stop _ t r h1 h2
  rw [e1, e2, htrim]

theorem fmtFixed5_token_class (q : ℚ) :
    ∀ c ∈ fmtFixed5 q, c ≠ '$' ∧ c ≠ '/' ∧ c ≠ ',' :=
  fun c hc => (numClass_token c (fmtFixed5_class q c hc)).1

theorem fmtFixed5_trim (q : ℚ) : trimChars (fmtFixed5 q) = fmtFixed5 q :=
  trimChars_eq_self _ fun c hc => (numClass_token c (fmtFixed5_class q c hc)).2

theorem fmtFixed5Pad8_token_class (q : ℚ) :
    ∀ c ∈ fmtFixed5Pad8 q, c ≠ '$' ∧ c ≠ '/' ∧ c ≠ ',' :=
  fun c hc => (numClass_token c (fmtFixed5Pad8_class q c hc)).1

theorem fmtFixed5Pad8_trim (q : ℚ) : trimChars (fmtFixed5Pad8 q) = fmtFixed5Pad8 q :=
  trimChars_eq_self _ fun c hc => (numClass_token c (fmtFixed5Pad8_class q c hc)).2

theorem readQ_fmt5 (sep : Char) (q : ℚ) (r : List Char)
    (hsep : sep = '/' ∨ sep = ',')
    (hr : r = [] ∨ ∃ c r', r = c :: r' ∧ (c = '$' ∨ c = '/' ∨ c = ',')) :
    readQ (sep :: (fmtFixed5 q ++ r)) = .ok (roundedVal5 q, r) := by
  unfold readQ
  rw [extract_parameter_token sep (fmtFixed5 q) r hsep (fmtFixed5_token_class q) hr
    (fmtFixed5_trim q)]
  dsimp only
  rw [parseFloatChars_fmtFixed5]

theorem readQ_fmt5Pad8 (sep : Char) (q : ℚ) (r : List Char)
    (hsep : sep = '/' ∨ sep = ',')
    (hr : r = [] ∨ ∃ c r', r = c :: r' ∧ (c = '$' ∨ c = '/' ∨ c = ',')) :
    readQ (sep :: (fmtFixed5Pad8 q ++ r)) = .ok (roundedVal5 q, r) := by
  unfold readQ
  rw [extract_parameter_token sep (fmtFixed5Pad8 q) r hsep (fmtFixed5Pad8_token_class q) hr
    (fmtFixed5Pad8_trim q)]
  dsimp only
  rw [parseFloatChars_fmtFixed5Pad8]

theorem parseNatChars_digits (t : List Char) (htn : t ≠ [])
    (ht : ∀ c ∈ t, c.isDigit = true) :
    parseNatChars t = some (ofDigitsChars t) := by
  obtain ⟨c, t', rfl⟩ := List.exists_cons_of_ne_nil htn
  unfold parseNatChars
  split
  · rename_i t2 heq
    injection heq with h1 _
    exact absurd h1 (digit_ne c (ht c (List.mem_cons_self c t')) '+' rfl)
  · rw [if_pos ⟨List.cons_ne_nil c t', by rw [List.all_eq_true]; exact ht⟩]

theorem digits_token_class (t : List Char) (ht : ∀ c ∈ t, c.isDigit = true) :
    ∀ c ∈ t, c ≠ '$' ∧ c ≠ '/' ∧ c ≠ ',' := by
  intro c hc
  obtain ⟨a, b, d, _⟩ := digit_class c (ht c hc)
  exact ⟨a, b, d⟩

theorem digits_trim (t : List Char) (ht : ∀ c ∈ t, c.isDigit = true) :
    trimChars t = t :=
  trimChars_eq_self t fun c hc => (digit_class c (ht c hc)).2.2.2

theorem readN_digits (sep : Char) (t r : List Char)
    (hsep : sep = '/' ∨ sep = ',') (htn : t ≠ [])
    (ht : ∀ c ∈ t, c.isDigit = true)
    (hr : r = [] ∨ ∃ c r', r = c :: r' ∧ (c = '$' ∨ c = '/' ∨ c = ',')) :
    readN (sep :: (t ++ r)) = .ok (ofDigitsChars t, r) := by
  unfold readN
  rw [extract_parameter_token sep t r hsep (digits_token_class t ht) hr (digits_trim t ht)]
  dsimp only
  rw [parseNatChars_digits t htn ht]

theorem readN_nat (sep : Char) (n : ℕ) (r : List Char)
    (hsep : sep = '/' ∨ sep = ',')
    (hr : r = [] ∨ ∃ c r', r = c :: r' ∧ (c = '$' ∨ c = '/' ∨ c = ',')) :
    readN (sep :: (natToChars n ++ r)) = .ok (n, r) := by
  rw [readN_digits sep (natToChars n) r hsep (natToChars_ne_nil n) (natToChars_all_digit n) hr,
    ofDigitsChars_natToChars]

theorem readN_padNat5 (sep : Char) (n : ℕ) (r : List Char)
    (hsep : sep = '/' ∨ sep = ',')
    (hr : r = [] ∨ ∃ c r', r = c :: r' ∧ (c = '$' ∨ c = '/' ∨ c = ',')) :
    readN (sep :: (padNat5 n ++ r)) = .ok (n, r) := by
  have hne : padNat5 n ≠ [] := by
    unfold padNat5 padZerosTo
    intro he
    exact natToChars_ne_nil n (List.append_eq_nil.mp he).2
  rw [readN_digits sep (padNat5 n) r hsep hne
    (padZerosTo_all_digit 5 _ (natToChars_all_digit n)) hr]
  unfold padNat5
  rw [ofDigitsChars_padZerosTo, ofDigitsChars_natToChars]

theorem fmtFixed5_ne_nil (q : ℚ) : fmtFixed5 q ≠ [] := by
  by_cases h : q < 0
  · rw [fmtFixed5_shape_neg q h]
    simp
  · rw [fmtFixed5_shape_pos q h]
    intro he
    exact natToChars_ne_nil _ (List.append_eq_nil.mp he).1

theorem comma_blob_dropLast (u : ℚ) (vs : List Vec2) (h : vs ≠ []) :
    ',' :: (vs.flatMap fun v =>
      fmtFixed5 (v.x / u) ++ [','] ++ fmtFixed5 (v.y / u) ++ [',']).dropLast
      = coordsTail u vs := by
  induction vs with
  | nil => exact absurd rfl h
  | cons v rest ih =>
      cases rest with
      | nil =>
          show ',' :: ((fmtFixed5 (v.x / u) ++ [','] ++ fmtFixed5 (v.y / u) ++ [','])
            ++ []).dropLast = _
          rw [List.append_nil]
          rw [show (fmtFixed5 (v.x / u) ++ [','] ++ fmtFixed5 (v.y / u) ++ [','] : List Char)
            = (fmtFixed5 (v.x / u) ++ [','] ++ fmtFixed5 (v.y / u)) ++ [','] from by
              simp [List.append_assoc]]
          rw [List.dropLast_concat]
          show _ = ',' :: (fmtFixed5 (v.x / u) ++ ',' :: (fmtFixed5 (v.y / u) ++ []))
          simp
      | cons w ws =>
          have hne : ((w :: ws).flatMap fun x =>
              fmtFixed5 (x.x / u) ++ [','] ++ fmtFixed5 (x.y / u) ++ [',']) ≠ [] := by
            simp only [List.flatMap_cons]
            intro he
            have := List.append_eq_nil.mp he
            have h2 := List.append_eq_nil.mp this.1
            have h3 := List.append_eq_nil.mp h2.1
            simp at h3
          show ',' :: ((fmtFixed5 (v.x / u) ++ [','] ++ fmtFixed5 (v.y / u) ++ [','])
            ++ ((w :: ws).flatMap fun x =>
              fmtFixed5 (x.x / u) ++ [','] ++ fmtFixed5 (x.y / u) ++ [','])).dropLast = _
          rw [List.dropLast_append_of_ne_nil _ hne]
          have ihh := ih (by simp)
          show _ = ',' :: (fmtFixed5 (v.x / u) ++ ',' :: (fmtFixed5 (v.y / u)
            ++ coordsTail u (w :: ws)))
          rw [← ihh]
          simp

theorem readVertices_coordsTail (u uh : ℚ) (vs : List Vec2) :
    readVertices uh vs.length (coordsTail u vs)
      = .ok (vs.map fun v => ⟨roundedVal5 (v.x / u) * uh, roundedVal5 (v.y / u) * uh⟩) := by
  induction vs with
  | nil => rfl
  | cons v rest ih =>
      have hshape : coordsTail u rest = []
          ∨ ∃ c r', coordsTail u rest = c :: r' ∧ (c = '$' ∨ c = '/' ∨ c = ',') := by
        cases rest with
        | nil => exact Or.inl rfl
        | cons w ws => exact Or.inr ⟨',', _, rfl, Or.inr (Or.inr rfl)⟩
      show readVertices uh (rest.length + 1)
        (',' :: (fmtFixed5 (v.x / u) ++ ',' :: (fmtFixed5 (v.y / u) ++ coordsTail u rest))) = _
      unfold readVertices
      rw [readQ_fmt5 ',' (v.x / u) _ (Or.inr rfl)
        (Or.inr ⟨',', _, rfl, Or.inr (Or.inr rfl)⟩)]
      dsimp only
      rw [readQ_fmt5 ',' (v.y / u) _ (Or.inr rfl) hshape]
      dsimp only
      rw [ih]
      rfl

theorem polylineLine_decomp (u : ℚ) (c : PolyContour) (h : c.vertices ≠ []) :
    polylineLine u c = "$$POLYLINE/1,".data
      ++ (natToChars (windingCode c.winding)
        ++ ',' :: (natToChars c.count ++ coordsTail u c.vertices)) := by
  obtain ⟨v, rest, hv⟩ := List.exists_cons_of_ne_nil h
  unfold polylineLine
  rw [hv]
  have hne : ((v :: rest).flatMap fun x =>
      fmtFixed5 (x.x / u) ++ [','] ++ fmtFixed5 (x.y / u) ++ [',']) ≠ [] := by
    simp only [List.flatMap_cons]
    intro he
    have := List.append_eq_nil.mp he
    have h2 := List.append_eq_nil.mp this.1
    have h3 := List.append_eq_nil.mp h2.1
    simp at h3
  rw [show ("$$POLYLINE/1,".data ++ natToChars (windingCode c.winding) ++ [',']
      ++ natToChars c.count ++ [',']
      ++ ((v :: rest).flatMap fun x =>
        fmtFixed5 (x.x / u) ++ [','] ++ fmtFixed5 (x.y / u) ++ [','] ) : List Char)
    = ("$$POLYLINE/1,".data ++ natToChars (windingCode c.winding) ++ [',']
      ++ natToChars c.count ++ [','])
      ++ ((v :: rest).flatMap fun x =>
        fmtFixed5 (x.x / u) ++ [','] ++ fmtFixed5 (x.y / u) ++ [',']) from by
    simp [List.append_assoc]]
  rw [List.dropLast_append_of_ne_nil _ hne]
  rw [← comma_blob_dropLast u (v :: rest) (by simp)]
  simp

theorem windingCode_decode (w : Winding) (h : w ≠ Winding.Unknown) :
    (if windingCode w = 0 then some Winding.Clockwise
      else if windingCode w = 1 then some Winding.CounterClockwise
      else if windingCode w = 2 then some Winding.Unknown
      else none) = some w := by
  cases w <;> rfl

theorem coordsTail_shape (u : ℚ) (vs : List Vec2) :
    coordsTail u vs = [] ∨ ∃ c r', coordsTail u vs = c :: r' ∧ (c = '$' ∨ c = '/' ∨ c = ',') := by
  cases vs with
  | nil => exact Or.inl rfl
  | cons v rest => exact Or.inr ⟨',', _, rfl, Or.inr (Or.inr rfl)⟩

theorem processPolyline_roundtrip (s : RState) (n : ℕ) (u : ℚ) (sl : PolySlice)
    (c : PolyContour)
    (hlabel : s.label_id = some 1)
    (hslice : s.current_slice = some sl)
    (hw : c.winding ≠ Winding.Unknown)
    (hv : 3 ≤ c.vertices.length) :
    processPolyline s n ((polylineLine u c).drop 10)
      = .ok {s with
          label_id := some 1
          current_slice := some (sl.add_contour
            ⟨c.vertices.map fun v =>
                ⟨roundedVal5 (v.x / u) * s.units_header,
                 roundedVal5 (v.y / u) * s.units_header⟩,
              c.winding,
              (c.vertices.map fun v =>
                ⟨roundedVal5 (v.x / u) * s.units_header,
                 roundedVal5 (v.y / u) * s.units_header⟩).foldl BBox2.include_point
                BBox2.empty⟩)} := by
  have hne : c.vertices ≠ [] := by
    intro he
    rw [he] at hv
    simp at hv
  rw [polylineLine_decomp u c hne]
  rw [show (("$$POLYLINE/1,".data
      ++ (natToChars (windingCode c.winding)
        ++ ',' :: (natToChars c.count ++ coordsTail u c.vertices))).drop 10 : List Char)
    = '/' :: (['1'] ++ (',' :: (natToChars (windingCode c.winding)
        ++ ',' :: (natToChars c.count ++ coordsTail u c.vertices)))) from rfl]
  unfold processPolyline
  rw [hslice]
  try dsimp only
  rw [readN_digits '/' ['1'] _ (Or.inl rfl) (by simp)
    (by intro x hx; rw [List.mem_singleton] at hx; subst hx; rfl)
    (Or.inr ⟨',', _, rfl, Or.inr (Or.inr rfl)⟩)]
  try dsimp only
  rw [show ofDigitsChars ['1'] = 1 from rfl, hlabel]
  dsimp only [Option.getD]
  rw [if_neg (fun h => h rfl)]
  rw [readN_nat ',' (windingCode c.winding) _ (Or.inr rfl)
    (Or.inr ⟨',', _, rfl, Or.inr (Or.inr rfl)⟩)]
  try dsimp only
  rw [windingCode_decode c.winding hw]
  try dsimp only
  rw [readN_nat ',' c.count _ (Or.inr rfl) (coordsTail_shape u c.vertices)]
  try dsimp only
  rw [show c.count = c.vertices.length from rfl]
  rw [readVertices_coordsTail u s.units_header c.vertices]
  try dsimp only
  rw [if_neg (by rw [List.length_map]; omega)]
  unfold PolyContour.new
  rw [if_neg (by rw [List.length_map]; omega)]
  try dsimp only
  rw [if_neg hw]
  try dsimp only
  rw [if_neg hw, if_neg (fun h => h rfl)]

theorem not_isPrefixOf_append (p x t : List Char)
    (h : (p.take x.length).isPrefixOf x = false) : p.isPrefixOf (x ++ t) = false := by
  induction x generalizing p with
  | nil =>
      simp [List.isPrefixOf] at h
  | cons a x' ih =>
      cases p with
      | nil => simp [List.isPrefixOf] at h
      | cons b p' =>
          rw [List.length_cons, List.take_succ_cons, List.isPrefixOf_cons₂] at h
          rw [List.cons_append, List.isPrefixOf_cons₂]
          cases hba : (b == a) with
          | false => simp [hba]
          | true =>
              rw [hba] at h
              simp only [Bool.true_and] at h ⊢
              exact ih p' h

theorem coordsTail_class (u : ℚ) (vs : List Vec2) :
    ∀ c ∈ coordsTail u vs, c.isDigit = true ∨ c = '.' ∨ c = '-' ∨ c = ',' := by
  induction vs with
  | nil => intro c hc; cases hc
  | cons v rest ih =>
      intro c hc
      unfold coordsTail at hc
      rcases List.mem_cons.mp hc with rfl | hc
      · right; right; right; rfl
      · rcases List.mem_append.mp hc with hc | hc
        · rcases fmtFixed5_class _ c hc with h | h | h
          · exact Or.inl h
          · exact Or.inr (Or.inl h)
          · exact Or.inr (Or.inr (Or.inl h))
        · rcases List.mem_cons.mp hc with rfl | hc
          · right; right; right; rfl
          · rcases List.mem_append.mp hc with hc | hc
            · rcases fmtFixed5_class _ c hc with h | h | h
              · exact Or.inl h
              · exact Or.inr (Or.inl h)
              · exact Or.inr (Or.inr (Or.inl h))
            · exact ih c hc

theorem numTail_no_slash (t : List Char)
    (ht : ∀ c ∈ t, c.isDigit = true ∨ c = '.' ∨ c = '-' ∨ c = ',') :
    ∀ c ∈ t, c ≠ '/' := by
  intro c hc
  rcases ht c hc with h | rfl | rfl | rfl
  · exact digit_ne c h '/' rfl
  · decide
  · decide
  · decide

theorem numTail_no_ws (t : List Char)
    (ht : ∀ c ∈ t, c.isDigit = true ∨ c = '.' ∨ c = '-' ∨ c = ',') :
    ∀ c ∈ t, c.isWhitespace = false := by
  intro c hc
  rcases ht c hc with h | rfl | rfl | rfl
  · exact (digit_class c h).2.2.2
  · decide
  · decide
  · decide

theorem cleanLine_concrete_numtail (x t : List Char)
    (hx1 : stripComment x = x) (hx2 : ∀ c ∈ x, c.isWhitespace = false)
    (ht : ∀ c ∈ t, c.isDigit = true ∨ c = '.' ∨ c = '-' ∨ c = ',') :
    cleanLine (x ++ t) = x ++ t := by
  refine cleanLine_eq_self _ (stripComment_append x t hx1 (numTail_no_slash t ht)) ?_
  intro c hc
  rcases List.mem_append.mp hc with hc | hc
  · exact hx2 c hc
  · exact numTail_no_ws t ht c hc

theorem fmtFixed5_class4 (q : ℚ) :
    ∀ c ∈ fmtFixed5 q, c.isDigit = true ∨ c = '.' ∨ c = '-' ∨ c = ',' := by
  intro c hc
  rcases fmtFixed5_class q c hc with h | h | h
  · exact Or.inl h
  · exact Or.inr (Or.inl h)
  · exact Or.inr (Or.inr (Or.inl h))

theorem fmtFixed5Pad8_class4 (q : ℚ) :
    ∀ c ∈ fmtFixed5Pad8 q, c.isDigit = true ∨ c = '.' ∨ c = '-' ∨ c = ',' := by
  intro c hc
  rcases fmtFixed5Pad8_class q c hc with h | h | h
  · exact Or.inl h
  · exact Or.inr (Or.inl h)
  · exact Or.inr (Or.inr (Or.inl h))

theorem processLine_headerstart (s : RState) (n : ℕ)
    (hd : s.done = false) (hhs : s.header_started = false) :
    processLine s n ("$$HEADERSTART".data) = .ok {s with header_started := true} := by
  have hcl : cleanLine ("$$HEADERSTART".data) = "$$HEADERSTART".data := by decide
  have hfa : findAfter ("$$HEADERSTART".data) ("$$HEADERSTART".data) = some [] := by decide
  unfold processLine
  rw [hcl]
  simp only [hd, hhs, Bool.false_eq_true, if_false, Bool.not_false, if_true, hfa]
  simp
  exact fun h => absurd rfl h

theorem processLine_header (s : RState) (n : ℕ) (raw : List Char)
    (hd : s.done = false) (hhs : s.header_started = true) (hhe : s.header_ended = false)
    (hne : cleanLine raw ≠ []) :
    processLine s n raw = processHeaderLine s (cleanLine raw) := by
  unfold processLine
  simp [hd, hhs, hhe, hne]

theorem processHeaderLine_ascii (s : RState) :
    processHeaderLine s ("$$ASCII".data) = .ok {s with is_binary := false} := rfl

theorem processHeaderLine_headerend (s : RState) :
    processHeaderLine s ("$$HEADEREND".data) = .ok {s with header_ended := true} := rfl

theorem processHeaderLine_version (s : RState) :
    processHeaderLine s ("$$VERSION/200".data) = .ok s := rfl

theorem processHeaderLine_date (s : RState) :
    processHeaderLine s ("$$DATE/1970-01-01".data)
      = .ok {s with header_date := "1970-01-01".data} := rfl

theorem processHeaderLine_label (s : RState) (hl : s.label_id = none) :
    processHeaderLine s ("$$LABEL/1,default".data) = .ok {s with label_id := some 1} := by
  unfold processHeaderLine
  rw [hl]
  rfl

theorem processHeaderLine_units (s : RState) (q : ℚ) (hq : ¬roundedVal5 q ≤ 0) :
    processHeaderLine s ("$$UNITS/".data ++ fmtFixed5Pad8 q)
      = .ok {s with units_header := roundedVal5 q} := by
  have h1 : ("$$HEADEREND".data).isPrefixOf ("$$UNITS/".data ++ fmtFixed5Pad8 q) = false :=
    not_isPrefixOf_append _ _ _ (by decide)
  have h2 : ("$$BINARY".data).isPrefixOf ("$$UNITS/".data ++ fmtFixed5Pad8 q) = false :=
    not_isPrefixOf_append _ _ _ (by decide)
  have h3 : ("$$ASCII".data).isPrefixOf ("$$UNITS/".data ++ fmtFixed5Pad8 q) = false :=
    not_isPrefixOf_append _ _ _ (by decide)
  have h4 : ("$$ALIGN".data).isPrefixOf ("$$UNITS/".data ++ fmtFixed5Pad8 q) = false :=
    not_isPrefixOf_append _ _ _ (by decide)
  have h5 : ("$$UNITS".data).isPrefixOf ("$$UNITS/".data ++ fmtFixed5Pad8 q) = true := by
    rw [show ("$$UNITS/".data ++ fmtFixed5Pad8 q : List Char)
      = "$$UNITS".data ++ ('/' :: fmtFixed5Pad8 q) from rfl]
    exact isPrefixOf_append_self _ _
  have hdrop : ("$$UNITS/".data ++ fmtFixed5Pad8 q).drop 7 = '/' :: fmtFixed5Pad8 q := rfl
  unfold processHeaderLine
  simp only [h1, h2, h3, h4, h5, Bool.false_eq_true, if_false, if_true, hdrop]
  rw [show ('/' :: fmtFixed5Pad8 q : List Char) = '/' :: (fmtFixed5Pad8 q ++ []) from by simp]
  rw [extract_parameter_token '/' (fmtFixed5Pad8 q) [] (Or.inl rfl)
    (fmtFixed5Pad8_token_class q) (Or.inl rfl) (fmtFixed5Pad8_trim q)]
  dsimp only
  rw [parseFloatChars_fmtFixed5Pad8]
  dsimp only
  rw [if_neg hq]

theorem processHeaderLine_layers (s : RState) (m : ℕ) :
    processHeaderLine s ("$$LAYERS/".data ++ padNat5 m) = .ok {s with layer_count := m} := by
  have h1 : ("$$HEADEREND".data).isPrefixOf ("$$LAYERS/".data ++ padNat5 m) = false :=
    not_isPrefixOf_append _ _ _ (by decide)
  have h2 : ("$$BINARY".data).isPrefixOf ("$$LAYERS/".data ++ padNat5 m) = false :=
    not_isPrefixOf_append _ _ _ (by decide)
  have h3 : ("$$ASCII".data).isPrefixOf ("$$LAYERS/".data ++ padNat5 m) = false :=
    not_isPrefixOf_append _ _ _ (by decide)
  have h4 : ("$$ALIGN".data).isPrefixOf ("$$LAYERS/".data ++ padNat5 m) = false :=
    not_isPrefixOf_append _ _ _ (by decide)
  have h5 : ("$$UNITS".data).isPrefixOf ("$$LAYERS/".data ++ padNat5 m) = false :=
    not_isPrefixOf_append _ _ _ (by decide)
  have h6 : ("$$VERSION".data).isPrefixOf ("$$LAYERS/".data ++ padNat5 m) = false :=
    not_isPrefixOf_append _ _ _ (by decide)
  have h7 : ("$$LABEL".data).isPrefixOf ("$$LAYERS/".data ++ padNat5 m) = false :=
    not_isPrefixOf_append _ _ _ (by decide)
  have h8 : ("$$DATE".data).isPrefixOf ("$$LAYERS/".data ++ padNat5 m) = false :=
    not_isPrefixOf_append _ _ _ (by decide)
  have h9 : ("$$DIMENSION".data).isPrefixOf ("$$LAYERS/".data ++ padNat5 m) = false :=
    not_isPrefixOf_append _ _ _ (by decide)
  have h10 : ("$$LAYERS".data).isPrefixOf ("$$LAYERS/".data ++ padNat5 m) = true := by
    rw [show ("$$LAYERS/".data ++ padNat5 m : List Char)
      = "$$LAYERS".data ++ ('/' :: padNat5 m) from rfl]
    exact isPrefixOf_append_self _ _
  have hdrop : ("$$LAYERS/".data ++ padNat5 m).drop 8 = '/' :: padNat5 m := rfl
  unfold processHeaderLine
  simp only [h1, h2, h3, h4, h5, h6, h7, h8, h9, h10, Bool.false_eq_true, if_false, if_true,
    hdrop]
  rw [show ('/' :: padNat5 m : List Char) = '/' :: (padNat5 m ++ []) from by simp]
  rw [readN_padNat5 '/' m [] (Or.inl rfl) (Or.inl rfl)]

theorem processHeaderLine_dimension (s : RState) (a b c d e f : ℚ) :
    processHeaderLine s ("$$DIMENSION/".data
        ++ (fmtFixed5Pad8 a ++ ',' :: (fmtFixed5Pad8 b ++ ',' :: (fmtFixed5Pad8 c
          ++ ',' :: (fmtFixed5Pad8 d ++ ',' :: (fmtFixed5Pad8 e ++ ',' :: fmtFixed5Pad8 f))))))
      = .ok {s with bbox_file := ⟨roundedVal5 a, roundedVal5 b, roundedVal5 c,
          roundedVal5 d, roundedVal5 e, roundedVal5 f⟩} := by
  set T := fmtFixed5Pad8 a ++ ',' :: (fmtFixed5Pad8 b ++ ',' :: (fmtFixed5Pad8 c
    ++ ',' :: (fmtFixed5Pad8 d ++ ',' :: (fmtFixed5Pad8 e ++ ',' :: fmtFixed5Pad8 f)))) with hT
  have h1 : ("$$HEADEREND".data).isPrefixOf ("$$DIMENSION/".data ++ T) = false :=
    not_isPrefixOf_append _ _ _ (by decide)
  have h2 : ("$$BINARY".data).isPrefixOf ("$$DIMENSION/".data ++ T) = false :=
    not_isPrefixOf_append _ _ _ (by decide)
  have h3 : ("$$ASCII".data).isPrefixOf ("$$DIMENSION/".data ++ T) = false :=
    not_isPrefixOf_append _ _ _ (by decide)
  have h4 : ("$$ALIGN".data).isPrefixOf ("$$DIMENSION/".data ++ T) = false :=
    not_isPrefixOf_append _ _ _ (by decide)
  have h5 : ("$$UNITS".data).isPrefixOf ("$$DIMENSION/".data ++ T) = false :=
    not_isPrefixOf_append _ _ _ (by decide)
  have h6 : ("$$VERSION".data).isPrefixOf ("$$DIMENSION/".data ++ T) = false :=
    not_isPrefixOf_append _ _ _ (by decide)
  have h7 : ("$$LABEL".data).isPrefixOf ("$$DIMENSION/".data ++ T) = false :=
    not_isPrefixOf_append _ _ _ (by decide)
  have h8 : ("$$DATE".data).isPrefixOf ("$$DIMENSION/".data ++ T) = false :=
    not_isPrefixOf_append _ _ _ (by decide)
  have h9 : ("$$DIMENSION".data).isPrefixOf ("$$DIMENSION/".data ++ T) = true := by
    rw [show ("$$DIMENSION/".data ++ T : List Char)
      = "$$DIMENSION".data ++ ('/' :: T) from rfl]
    exact isPrefixOf_append_self _ _
  have hdrop : ("$$DIMENSION/".data ++ T).drop 11 = '/' :: T := rfl
  unfold processHeaderLine
  simp only [h1, h2, h3, h4, h5, h6, h7, h8, h9, Bool.false_eq_true, if_false, if_true, hdrop]
  rw [hT]
  rw [readQ_fmt5Pad8 '/' a _ (Or.inl rfl) (Or.inr ⟨',', _, rfl, Or.inr (Or.inr rfl)⟩)]
  dsimp only
  rw [readQ_fmt5Pad8 ',' b _ (Or.inr rfl) (Or.inr ⟨',', _, rfl, Or.inr (Or.inr rfl)⟩)]
  dsimp only
  rw [readQ_fmt5Pad8 ',' c _ (Or.inr rfl) (Or.inr ⟨',', _, rfl, Or.inr (Or.inr rfl)⟩)]
  dsimp only
  rw [readQ_fmt5Pad8 ',' d _ (Or.inr rfl) (Or.inr ⟨',', _, rfl, Or.inr (Or.inr rfl)⟩)]
  dsimp only
  rw [readQ_fmt5Pad8 ',' e _ (Or.inr rfl) (Or.inr ⟨',', _, rfl, Or.inr (Or.inr rfl)⟩)]
  dsimp only
  rw [show (',' :: fmtFixed5Pad8 f : List Char) = ',' :: (fmtFixed5Pad8 f ++ []) from by simp]
  rw [readQ_fmt5Pad8 ',' f [] (Or.inr rfl) (Or.inl rfl)]

theorem processLine_geostart (s : RState) (n : ℕ)
    (hd : s.done = false) (hhs : s.header_started = true) (hhe : s.header_ended = true)
    (hbin : s.is_binary = false) (hgs : s.geometry_started = false) :
    processLine s n ("$$GEOMETRYSTART".data) = .ok {s with geometry_started := true} := by
  have hcl : cleanLine ("$$GEOMETRYSTART".data) = "$$GEOMETRYSTART".data := by decide
  have hfa : findAfter ("$$GEOMETRYSTART".data) ("$$GEOMETRYSTART".data) = some [] := by decide
  unfold processLine processPostHeader
  rw [hcl]
  simp only [hd, hhs, hhe, hbin, hgs, Bool.false_eq_true, Bool.not_true, Bool.not_false,
    if_false, if_true, hfa]
  simp
  exact fun h => absurd rfl h

theorem processLine_geoend (s : RState) (n : ℕ) (hm : GeomMode s) :
    processLine s n ("$$GEOMETRYEND".data) = .ok {s with done := true} := by
  rw [processLine_geom s n _ hm (by decide),
    show cleanLine ("$$GEOMETRYEND".data) = "$$GEOMETRYEND".data from by decide]
  unfold processGeometryLine
  rw [if_pos (by decide)]

theorem processLine_layer0 (s : RState) (n : ℕ) (hm : GeomMode s)
    (hpz : s.prev_z = none) :
    processLine s n ("$$LAYER/0.0".data) = .ok {s with prev_z := some 0} := by
  rw [processLine_geom s n _ hm (by decide),
    show cleanLine ("$$LAYER/0.0".data) = "$$LAYER/0.0".data from by decide]
  have h1 : ("$$GEOMETRYEND".data).isPrefixOf ("$$LAYER/0.0".data) = false := by decide
  have h2 : ("$$LAYER".data).isPrefixOf ("$$LAYER/0.0".data) = true := by decide
  have hdrop : ("$$LAYER/0.0".data).drop 7 = "/0.0".data := rfl
  have hq : readQ ("/0.0".data) = .ok (0, []) := by
    norm_num +decide [readQ, extract_parameter, parseFloatChars, breakAt, trimChars,
      ofDigitsChars, digitVal]
  unfold processGeometryLine
  simp only [h1, h2, Bool.false_eq_true, if_false, if_true, hdrop, hq]
  rw [hpz]
  dsimp only
  rw [zero_mul]
  rw [if_neg (by norm_num)]

theorem processLine_layer (s : RState) (n : ℕ) (u z : ℚ)
    (hm : GeomMode s) (hu : s.units_header = u)
    (hzlow : 1 / 100000 ≤ z / u) (hupos : 0 < u)
    (hpz : s.prev_z = none ∨ ∃ pz, s.prev_z = some pz ∧ pz ≤ roundedVal5 (z / u) * u) :
    processLine s n ("$$LAYER/".data ++ fmtFixed5 (z / u))
      = .ok {s with
          prev_z := some (roundedVal5 (z / u) * u)
          slices := s.slices ++ s.current_slice.toList
          current_slice := some (PolySlice.new (roundedVal5 (z / u) * u))} := by
  have hcl : cleanLine ("$$LAYER/".data ++ fmtFixed5 (z / u))
      = "$$LAYER/".data ++ fmtFixed5 (z / u) :=
    cleanLine_concrete_numtail _ _ (by decide) (by decide) (fmtFixed5_class4 _)
  have hne : cleanLine ("$$LAYER/".data ++ fmtFixed5 (z / u)) ≠ [] := by
    rw [hcl]
    intro h
    exact absurd (List.append_eq_nil.mp h).1 (by decide)
  rw [processLine_geom s n _ hm hne, hcl]
  have h1 : ("$$GEOMETRYEND".data).isPrefixOf ("$$LAYER/".data ++ fmtFixed5 (z / u)) = false :=
    not_isPrefixOf_append _ _ _ (by decide)
  have h2 : ("$$LAYER".data).isPrefixOf ("$$LAYER/".data ++ fmtFixed5 (z / u)) = true := by
    rw [show ("$$LAYER/".data ++ fmtFixed5 (z / u) : List Char)
      = "$$LAYER".data ++ ('/' :: fmtFixed5 (z / u)) from rfl]
    exact isPrefixOf_append_self _ _
  have hdrop : ("$$LAYER/".data ++ fmtFixed5 (z / u)).drop 7 = '/' :: fmtFixed5 (z / u) := rfl
  unfold processGeometryLine
  simp only [h1, h2, Bool.false_eq_true, if_false, if_true, hdrop]
  rw [show ('/' :: fmtFixed5 (z / u) : List Char) = '/' :: (fmtFixed5 (z / u) ++ []) from by
    simp]
  rw [readQ_fmt5 '/' (z / u) [] (Or.inl rfl) (Or.inl rfl)]
  dsimp only
  rw [hu]
  have hzpos : 0 < roundedVal5 (z / u) * u := by
    have := roundedVal5_ge (z / u) hzlow
    have h100 : (0:ℚ) < 1 / 100000 := by norm_num
    nlinarith
  rcases hpz with hnone | ⟨pz, hsome, hle⟩
  · rw [hnone]
    dsimp only
    rw [if_pos hzpos]
    cases hc : s.current_slice with
    | none => simp
    | some c => simp
  · rw [hsome]
    dsimp only
    rw [if_neg (not_lt.mpr hle), if_pos hzpos]
    cases hc : s.current_slice with
    | none => simp
    | some c => simp

theorem polyline_tail_class4 (u : ℚ) (c : PolyContour) :
    ∀ x ∈ natToChars (windingCode c.winding)
      ++ ',' :: (natToChars c.count ++ coordsTail u c.vertices),
      x.isDigit = true ∨ x = '.' ∨ x = '-' ∨ x = ',' := by
  intro x hx
  rcases List.mem_append.mp hx with hx | hx
  · exact Or.inl (natToChars_all_digit _ x hx)
  · rcases List.mem_cons.mp hx with rfl | hx
    · exact Or.inr (Or.inr (Or.inr rfl))
    · rcases List.mem_append.mp hx with hx | hx
      · exact Or.inl (natToChars_all_digit _ x hx)
      · exact coordsTail_class u c.vertices x hx

theorem processLine_polyline (s : RState) (n : ℕ) (u : ℚ) (c : PolyContour) (sl : PolySlice)
    (hm : GeomMode s) (hu : s.units_header = u)
    (hlabel : s.label_id = some 1) (hslice : s.current_slice = some sl)
    (hw : c.winding ≠ Winding.Unknown) (hv : 3 ≤ c.vertices.length) :
    processLine s n (polylineLine u c)
      = .ok {s with
          label_id := some 1
          current_slice := some (sl.add_contour (readBackContour u c))} := by
  have hne : c.vertices ≠ [] := by
    intro he
    rw [he] at hv
    simp at hv
  have hcl : cleanLine (polylineLine u c) = polylineLine u c := by
    rw [polylineLine_decomp u c hne]
    exact cleanLine_concrete_numtail _ _ (by decide) (by decide) (polyline_tail_class4 u c)
  have hnn : cleanLine (polylineLine u c) ≠ [] := by
    rw [hcl, polylineLine_decomp u c hne]
    intro h
    exact absurd (List.append_eq_nil.mp h).1 (by decide)
  rw [processLine_geom s n _ hm hnn, hcl]
  rw [polylineLine_decomp u c hne]
  rw [show ("$$POLYLINE/1,".data
      ++ (natToChars (windingCode c.winding)
        ++ ',' :: (natToChars c.count ++ coordsTail u c.vertices)) : List Char)
    = "$$POLYLINE".data ++ ('/' :: '1' :: ',' :: (natToChars (windingCode c.winding)
        ++ ',' :: (natToChars c.count ++ coordsTail u c.vertices))) from rfl]
  rw [processGeometryLine_polyline]
  rw [show ('/' :: '1' :: ',' :: (natToChars (windingCode c.winding)
      ++ ',' :: (natToChars c.count ++ coordsTail u c.vertices)) : List Char)
    = (polylineLine u c).drop 10 from by rw [polylineLine_decomp u c hne]; rfl]
  rw [processPolyline_roundtrip s n u sl c hlabel hslice hw hv]
  rw [hu]
  rfl

theorem runLines_polylines (u : ℚ) (cs : List PolyContour) (s : RState) (n : ℕ)
    (sl : PolySlice)
    (hm : GeomMode s) (hu : s.units_header = u)
    (hlabel : s.label_id = some 1) (hslice : s.current_slice = some sl)
    (hwind : ∀ c ∈ cs, c.winding ≠ Winding.Unknown)
    (hvert : ∀ c ∈ cs, 3 ≤ c.vertices.length) :
    runLines s n (cs.map (polylineLine u))
      = .ok {s with
          label_id := some 1
          current_slice := some ((cs.map (readBackContour u)).foldl PolySlice.add_contour sl)} := by
  induction cs generalizing s n sl with
  | nil =>
      show Except.ok s = _
      simp only [List.map_nil, List.foldl_nil]
      rw [← hlabel, ← hslice]
  | cons c cs' ih =>
      rw [List.map_cons, runLines]
      rw [processLine_polyline s n u c sl hm hu hlabel hslice
        (hwind c (List.mem_cons_self c cs')) (hvert c (List.mem_cons_self c cs'))]
      dsimp only
      rw [ih {s with
          label_id := some 1
          current_slice := some (sl.add_contour (readBackContour u c))}
        (n + 1) (sl.add_contour (readBackContour u c)) hm hu rfl rfl
        (fun x hx => hwind x (List.mem_cons_of_mem c hx))
        (fun x hx => hvert x (List.mem_cons_of_mem c hx))]
      rfl

theorem runLines_slice (u : ℚ) (sl : PolySlice) (s : RState) (n : ℕ)
    (hm : GeomMode s) (hu : s.units_header = u)
    (hlabel : s.label_id = some 1)
    (hzlow : 1 / 100000 ≤ sl.z_pos / u) (hupos : 0 < u)
    (hpz : s.prev_z = none ∨ ∃ pz, s.prev_z = some pz ∧ pz ≤ roundedVal5 (sl.z_pos / u) * u)
    (hwind : ∀ c ∈ sl.contours, c.winding ≠ Winding.Unknown)
    (hvert : ∀ c ∈ sl.contours, 3 ≤ c.vertices.length) :
    runLines s n (sliceLines u sl)
      = .ok {s with
          label_id := some 1
          prev_z := some (roundedVal5 (sl.z_pos / u) * u)
          slices := s.slices ++ s.current_slice.toList
          current_slice := some (readBackSlice u sl)} := by
  unfold sliceLines
  rw [runLines]
  rw [processLine_layer s n u sl.z_pos hm hu hzlow hupos hpz]
  dsimp only
  rw [runLines_polylines u (passEmit sl.contours)
    {s with
      prev_z := some (roundedVal5 (sl.z_pos / u) * u)
      slices := s.slices ++ s.current_slice.toList
      current_slice := some (PolySlice.new (roundedVal5 (sl.z_pos / u) * u))}
    (n + 1) (PolySlice.new (roundedVal5 (sl.z_pos / u) * u)) hm hu hlabel rfl
    (fun x hx => hwind x ((passEmit_perm sl.contours).mem_iff.mp hx))
    (fun x hx => hvert x ((passEmit_perm sl.contours).mem_iff.mp hx))]
  rfl

theorem runLines_slices_flat (u : ℚ) (sl0 : PolySlice) (rest : List PolySlice) (s : RState)
    (n : ℕ)
    (hm : GeomMode s) (hu : s.units_header = u)
    (hlabel : s.label_id = some 1) (hupos : 0 < u)
    (hzlow : ∀ x ∈ sl0 :: rest, 1 / 100000 ≤ x.z_pos / u)
    (hmono : ((sl0 :: rest).map PolySlice.z_pos).Chain' (· ≤ ·))
    (hpz : s.prev_z = none ∨ ∃ pz, s.prev_z = some pz ∧ pz ≤ roundedVal5 (sl0.z_pos / u) * u)
    (hwind : ∀ x ∈ sl0 :: rest, ∀ c ∈ x.contours, c.winding ≠ Winding.Unknown)
    (hvert : ∀ x ∈ sl0 :: rest, ∀ c ∈ x.contours, 3 ≤ c.vertices.length) :
    runLines s n ((sl0 :: rest).flatMap (sliceLines u))
      = .ok {s with
          label_id := some 1
          prev_z := some (roundedVal5 (((sl0 :: rest).getLast (by simp)).z_pos / u) * u)
          slices := s.slices ++ s.current_slice.toList
            ++ ((sl0 :: rest).dropLast.map (readBackSlice u))
          current_slice := some (readBackSlice u ((sl0 :: rest).getLast (by simp)))} := by
  induction rest generalizing sl0 s n with
  | nil =>
      rw [show ([sl0] : List PolySlice).flatMap (sliceLines u) = sliceLines u sl0 from by simp]
      rw [runLines_slice u sl0 s n hm hu hlabel (hzlow sl0 (List.mem_cons_self sl0 []))
        hupos hpz (hwind sl0 (List.mem_cons_self sl0 []))
        (hvert sl0 (List.mem_cons_self sl0 []))]
      simp
  | cons sl1 rest' ih =>
      rw [show ((sl0 :: sl1 :: rest').flatMap (sliceLines u) : List (List Char))
        = sliceLines u sl0 ++ (sl1 :: rest').flatMap (sliceLines u) from by
          simp [List.flatMap_cons]]
      rw [runLines_append]
      rw [runLines_slice u sl0 s n hm hu hlabel (hzlow sl0 (List.mem_cons_self sl0 _))
        hupos hpz (hwind sl0 (List.mem_cons_self sl0 _))
        (hvert sl0 (List.mem_cons_self sl0 _))]
      dsimp only
      have hz01 : sl0.z_pos ≤ sl1.z_pos := by
        rw [List.map_cons, List.map_cons, List.chain'_cons] at hmono
        exact hmono.1
      have hbound : roundedVal5 (sl0.z_pos / u) * u ≤ roundedVal5 (sl1.z_pos / u) * u := by
        have hdiv : sl0.z_pos / u ≤ sl1.z_pos / u := by
          gcongr
        exact mul_le_mul_of_nonneg_right (roundedVal5_mono _ _ hdiv) (le_of_lt hupos)
      rw [ih sl1 {s with
          label_id := some 1
          prev_z := some (roundedVal5 (sl0.z_pos / u) * u)
          slices := s.slices ++ s.current_slice.toList
          current_slice := some (readBackSlice u sl0)}
        (n + (sliceLines u sl0).length) hm hu rfl
        (fun x hx => hzlow x (List.mem_cons_of_mem sl0 hx))
        (by
          rw [List.map_cons] at hmono
          exact hmono.tail)
        (Or.inr ⟨roundedVal5 (sl0.z_pos / u) * u, rfl, hbound⟩)
        (fun x hx => hwind x (List.mem_cons_of_mem sl0 hx))
        (fun x hx => hvert x (List.mem_cons_of_mem sl0 hx))]
      have hgl : (sl0 :: sl1 :: rest').getLast (by simp) = (sl1 :: rest').getLast (by simp) :=
        List.getLast_cons (by simp)
      rw [hgl]
      simp [List.append_assoc]

theorem class4_append (t1 t2 : List Char)
    (h1 : ∀ c ∈ t1, c.isDigit = true ∨ c = '.' ∨ c = '-' ∨ c = ',')
    (h2 : ∀ c ∈ t2, c.isDigit = true ∨ c = '.' ∨ c = '-' ∨ c = ',') :
    ∀ c ∈ t1 ++ t2, c.isDigit = true ∨ c = '.' ∨ c = '-' ∨ c = ',' := by
  intro c hc
  rcases List.mem_append.mp hc with hc | hc
  · exact h1 c hc
  · exact h2 c hc

theorem class4_comma_cons (t : List Char)
    (h : ∀ c ∈ t, c.isDigit = true ∨ c = '.' ∨ c = '-' ∨ c = ',') :
    ∀ c ∈ ',' :: t, c.isDigit = true ∨ c = '.' ∨ c = '-' ∨ c = ',' := by
  intro c hc
  rcases List.mem_cons.mp hc with rfl | hc
  · exact Or.inr (Or.inr (Or.inr rfl))
  · exact h c hc

theorem dimTail_class4 (a b c d e f : ℚ) :
    ∀ x ∈ fmtFixed5Pad8 a ++ ',' :: (fmtFixed5Pad8 b ++ ',' :: (fmtFixed5Pad8 c
        ++ ',' :: (fmtFixed5Pad8 d ++ ',' :: (fmtFixed5Pad8 e ++ ',' :: fmtFixed5Pad8 f)))),
      x.isDigit = true ∨ x = '.' ∨ x = '-' ∨ x = ',' :=
  class4_append _ _ (fmtFixed5Pad8_class4 a) (class4_comma_cons _
    (class4_append _ _ (fmtFixed5Pad8_class4 b) (class4_comma_cons _
      (class4_append _ _ (fmtFixed5Pad8_class4 c) (class4_comma_cons _
        (class4_append _ _ (fmtFixed5Pad8_class4 d) (class4_comma_cons _
          (class4_append _ _ (fmtFixed5Pad8_class4 e) (class4_comma_cons _
            (fmtFixed5Pad8_class4 f))))))))))

theorem padNat5_class4 (m : ℕ) :
    ∀ x ∈ padNat5 m, x.isDigit = true ∨ x = '.' ∨ x = '-' ∨ x = ',' := by
  intro x hx
  exact Or.inl (padZerosTo_all_digit 5 _ (natToChars_all_digit m) x hx)

theorem append_data_ne_nil (sx : String) (t : List Char) (h : sx.data ≠ []) :
    sx.data ++ t ≠ [] := by
  intro he
  exact h (List.append_eq_nil.mp he).1

theorem runLines_header (u : ℚ) (hq : ¬roundedVal5 u ≤ 0) (a b c d e f : ℚ) (m : ℕ) :
    runLines {} 0
      ["$$HEADERSTART".data, "$$ASCII".data,
       "$$UNITS/".data ++ fmtFixed5Pad8 u,
       "$$VERSION/200".data, "$$LABEL/1,default".data,
       "$$DATE/".data ++ "1970-01-01".data,
       "$$DIMENSION/".data ++ fmtFixed5Pad8 a ++ [','] ++ fmtFixed5Pad8 b ++ [',']
         ++ fmtFixed5Pad8 c ++ [','] ++ fmtFixed5Pad8 d ++ [','] ++ fmtFixed5Pad8 e ++ [',']
         ++ fmtFixed5Pad8 f,
       "$$LAYERS/".data ++ padNat5 m,
       "$$HEADEREND".data, "$$GEOMETRYSTART".data]
      = .ok ⟨true, true, true, false, some 1, none, [], none,
          ⟨roundedVal5 a, roundedVal5 b, roundedVal5 c, roundedVal5 d, roundedVal5 e,
            roundedVal5 f⟩,
          false, roundedVal5 u, false, "1970-01-01".data, m, []⟩ := by
  rw [runLines, processLine_headerstart {} 0 rfl rfl]
  dsimp only
  rw [runLines, processLine_header _ 1 _ rfl rfl rfl (by decide),
    show cleanLine ("$$ASCII".data) = "$$ASCII".data from by decide,
    processHeaderLine_ascii]
  dsimp only
  have hclU : cleanLine ("$$UNITS/".data ++ fmtFixed5Pad8 u)
      = "$$UNITS/".data ++ fmtFixed5Pad8 u :=
    cleanLine_concrete_numtail _ _ (by decide) (by decide) (fmtFixed5Pad8_class4 u)
  rw [runLines, processLine_header _ 2 _ rfl rfl rfl
      (by rw [hclU]; exact append_data_ne_nil _ _ (by decide)),
    hclU, processHeaderLine_units _ u hq]
  dsimp only
  rw [runLines, processLine_header _ 3 _ rfl rfl rfl (by decide),
    show cleanLine ("$$VERSION/200".data) = "$$VERSION/200".data from by decide,
    processHeaderLine_version]
  dsimp only
  rw [runLines, processLine_header _ 4 _ rfl rfl rfl (by decide),
    show cleanLine ("$$LABEL/1,default".data) = "$$LABEL/1,default".data from by decide,
    processHeaderLine_label _ rfl]
  dsimp only
  rw [runLines, processLine_header _ 5 _ rfl rfl rfl (by decide),
    show cleanLine ("$$DATE/".data ++ "1970-01-01".data) = "$$DATE/1970-01-01".data from by
      decide,
    processHeaderLine_date]
  dsimp only
  have hdim : ("$$DIMENSION/".data ++ fmtFixed5Pad8 a ++ [','] ++ fmtFixed5Pad8 b ++ [',']
        ++ fmtFixed5Pad8 c ++ [','] ++ fmtFixed5Pad8 d ++ [','] ++ fmtFixed5Pad8 e ++ [',']
        ++ fmtFixed5Pad8 f : List Char)
      = "$$DIMENSION/".data ++ (fmtFixed5Pad8 a ++ ',' :: (fmtFixed5Pad8 b
          ++ ',' :: (fmtFixed5Pad8 c ++ ',' :: (fmtFixed5Pad8 d ++ ',' :: (fmtFixed5Pad8 e
            ++ ',' :: fmtFixed5Pad8 f))))) := by
    simp [List.append_assoc]
  rw [hdim]
  have hclD : cleanLine ("$$DIMENSION/".data ++ (fmtFixed5Pad8 a ++ ',' :: (fmtFixed5Pad8 b
        ++ ',' :: (fmtFixed5Pad8 c ++ ',' :: (fmtFixed5Pad8 d ++ ',' :: (fmtFixed5Pad8 e
          ++ ',' :: fmtFixed5Pad8 f))))))
      = "$$DIMENSION/".data ++ (fmtFixed5Pad8 a ++ ',' :: (fmtFixed5Pad8 b
          ++ ',' :: (fmtFixed5Pad8 c ++ ',' :: (fmtFixed5Pad8 d ++ ',' :: (fmtFixed5Pad8 e
            ++ ',' :: fmtFixed5Pad8 f))))) :=
    cleanLine_concrete_numtail _ _ (by decide) (by decide) (dimTail_class4 a b c d e f)
  rw [runLines, processLine_header _ 6 _ rfl rfl rfl
      (by rw [hclD]; exact append_data_ne_nil _ _ (by decide)),
    hclD, processHeaderLine_dimension _ a b c d e f]
  dsimp only
  have hclL : cleanLine ("$$LAYERS/".data ++ padNat5 m) = "$$LAYERS/".data ++ padNat5 m :=
    cleanLine_concrete_numtail _ _ (by decide) (by decide) (padNat5_class4 m)
  rw [runLines, processLine_header _ 7 _ rfl rfl rfl
      (by rw [hclL]; exact append_data_ne_nil _ _ (by decide)),
    hclL, processHeaderLine_layers _ m]
  dsimp only
  rw [runLines, processLine_header _ 8 _ rfl rfl rfl (by decide),
    show cleanLine ("$$HEADEREND".data) = "$$HEADEREND".data from by decide,
    processHeaderLine_headerend]
  dsimp only
  rw [runLines, processLine_geostart _ 9 rfl rfl rfl rfl rfl]
  dsimp only
  rfl

theorem add_slices_slices (ss : List PolySlice) (acc : PolySliceStack) :
    (acc.add_slices ss).slices = acc.slices ++ ss := by
  induction ss generalizing acc with
  | nil => simp [PolySliceStack.add_slices]
  | cons sl t ih =>
      unfold PolySliceStack.add_slices
      rw [List.foldl_cons]
      have := ih ⟨acc.slices ++ [sl], acc.bbox.include_bbox2 sl.bbox sl.z_pos⟩
      unfold PolySliceStack.add_slices at this
      rw [this]
      simp

theorem from_slices_slices (ss : List PolySlice) :
    (PolySliceStack.from_slices ss).slices = ss := by
  unfold PolySliceStack.from_slices
  rw [add_slices_slices]
  rfl

theorem foldl_add_contour_contours (l : List PolyContour) (b : PolySlice) :
    (l.foldl PolySlice.add_contour b).contours = b.contours ++ l := by
  induction l generalizing b with
  | nil => simp
  | cons c t ih =>
      rw [List.foldl_cons, ih]
      unfold PolySlice.add_contour
      simp

theorem readBackSlice_contours_length (u : ℚ) (sl : PolySlice) :
    (readBackSlice u sl).contours.length = sl.contours.length := by
  unfold readBackSlice
  rw [foldl_add_contour_contours]
  simp only [PolySlice.new, List.nil_append, List.length_map]
  exact (passEmit_perm sl.contours).length_eq

theorem roundVec_close (u q : ℚ) (hupos : 0 < u) :
    |roundedVal5 (q / u) * u - q| ≤ u / 100000 := by
  have h1 := roundedVal5_close (q / u)
  have h2 : roundedVal5 (q / u) * u - q = (roundedVal5 (q / u) - q / u) * u := by
    field_simp
  rw [h2, abs_mul, abs_of_pos hupos]
  have h3 : |roundedVal5 (q / u) - q / u| * u ≤ (1 / 200000) * u :=
    mul_le_mul_of_nonneg_right h1 (le_of_lt hupos)
  linarith

theorem write_lines_eq (stack : PolySliceStack) (fmt : CliFormat) (u : ℚ)
    (hne : stack.slices ≠ []) (hbbox : stack.bbox.is_empty = false) (hupos : 0 < u) :
    write_slices_to_cli_lines stack fmt none (some u)
      = .ok ((["$$HEADERSTART".data, "$$ASCII".data,
          "$$UNITS/".data ++ fmtFixed5Pad8 u,
          "$$VERSION/200".data, "$$LABEL/1,default".data,
          "$$DATE/".data ++ "1970-01-01".data,
          "$$DIMENSION/".data ++ fmtFixed5Pad8 stack.bbox.minx ++ [',']
            ++ fmtFixed5Pad8 stack.bbox.miny ++ [','] ++ fmtFixed5Pad8 0 ++ [',']
            ++ fmtFixed5Pad8 stack.bbox.maxx ++ [','] ++ fmtFixed5Pad8 stack.bbox.maxy
            ++ [','] ++ fmtFixed5Pad8 ((stack.slices.getLast hne).z_pos),
          "$$LAYERS/".data
            ++ padNat5 (stack.count + (if fmt = CliFormat.UseEmptyFirstLayer then 1 else 0)),
          "$$HEADEREND".data, "$$GEOMETRYSTART".data] : List (List Char))
        ++ (if fmt = CliFormat.UseEmptyFirstLayer then ["$$LAYER/0.0".data] else [])
        ++ stack.slices.flatMap (sliceLines u)
        ++ ["$$GEOMETRYEND".data]) := by
  unfold write_slices_to_cli_lines
  rw [if_neg (by
    rw [hbbox]
    simp only [Bool.false_eq_true, or_false, not_lt]
    unfold PolySliceStack.count
    have := List.length_pos.mpr hne
    omega)]
  simp only [Option.getD_some, Option.getD_none]
  rw [if_neg (not_le.mpr hupos)]
  rw [List.getLast?_eq_getLast stack.slices hne]

theorem map_dropLast_getLast (l : List PolySlice) (h : l ≠ []) (g : PolySlice → PolySlice) :
    l.dropLast.map g ++ [g (l.getLast h)] = l.map g := by
  conv_rhs => rw [← List.dropLast_append_getLast h]
  rw [List.map_append]
  rfl

theorem map_rBS_contour_lengths (u : ℚ) (l : List PolySlice) :
    (l.map (readBackSlice u)).map (fun sl => sl.contours.length)
      = l.map (fun sl => sl.contours.length) := by
  induction l with
  | nil => rfl
  | cons sl t ih =>
      simp only [List.map_cons, readBackSlice_contours_length, ih]

set_option maxHeartbeats 2000000 in
/-- C1: for every non-degenerate `PolySliceStack` (at least one slice,
non-empty bounding box, positive units factor that survives `{:08.5}`
quantization exactly, every slice `z` at least one quantum above zero and
non-decreasing, every contour with at least 3 vertices and a known winding),
writing it with `write_slices_to_cli_file` and reading the lines back with
`slices_from_cli_file` succeeds and yields a stack with the same number of
slices, the same number of contours in each slice (the writer's three-pass
order), and per-contour vertex coordinates equal to the originals within the
units-quantization tolerance `units / 100000`. -/
theorem C1_round_trip (stack : PolySliceStack) (fmt : CliFormat) (u : ℚ)
    (hupos : 0 < u) (huex : roundedVal5 u = u)
    (hne : stack.slices ≠ []) (hbbox : stack.bbox.is_empty = false)
    (hzlow : ∀ sl ∈ stack.slices, 1 / 100000 ≤ sl.z_pos / u)
    (hmono : (stack.slices.map PolySlice.z_pos).Chain' (· ≤ ·))
    (hwind : ∀ sl ∈ stack.slices, ∀ c ∈ sl.contours, c.winding ≠ Winding.Unknown)
    (hvert : ∀ sl ∈ stack.slices, ∀ c ∈ sl.contours, 3 ≤ c.vertices.length) :
    ∃ lines res,
      write_slices_to_cli_lines stack fmt none (some u) = .ok lines ∧
      slices_from_cli_lines lines = .ok res ∧
      res.slices.slices = stack.slices.map (readBackSlice u) ∧
      res.slices.count = stack.count ∧
      res.slices.slices.map (fun sl => sl.contours.length)
        = stack.slices.map (fun sl => sl.contours.length) ∧
      (∀ sl ∈ stack.slices, ∀ c ∈ sl.contours, ∀ v ∈ c.vertices,
        |roundedVal5 (v.x / u) * u - v.x| ≤ u / 100000 ∧
        |roundedVal5 (v.y / u) * u - v.y| ≤ u / 100000) := by
  obtain ⟨sl0, rest, hsplit⟩ := List.exists_cons_of_ne_nil hne
  have hq : ¬roundedVal5 u ≤ 0 := by
    rw [huex]
    exact not_le.mpr hupos
  have hzlow' : ∀ sl ∈ sl0 :: rest, 1 / 100000 ≤ sl.z_pos / u := hsplit ▸ hzlow
  have hmono' : ((sl0 :: rest).map PolySlice.z_pos).Chain' (· ≤ ·) := hsplit ▸ hmono
  have hwind' : ∀ sl ∈ sl0 :: rest, ∀ c ∈ sl.contours, c.winding ≠ Winding.Unknown :=
    hsplit ▸ hwind
  have hvert' : ∀ sl ∈ sl0 :: rest, ∀ c ∈ sl.contours, 3 ≤ c.vertices.length :=
    hsplit ▸ hvert
  have hflat : stack.slices.flatMap (sliceLines u) = (sl0 :: rest).flatMap (sliceLines u) := by
    rw [hsplit]
  have hclose : ∀ sl ∈ stack.slices, ∀ c ∈ sl.contours, ∀ v ∈ c.vertices,
      |roundedVal5 (v.x / u) * u - v.x| ≤ u / 100000 ∧
      |roundedVal5 (v.y / u) * u - v.y| ≤ u / 100000 :=
    fun _ _ c _ v _ => ⟨roundVec_close u v.x hupos, roundVec_close u v.y hupos⟩
  cases fmt with
  | FirstLayerWithContent =>
      refine ⟨_, ⟨PolySliceStack.from_slices ((sl0 :: rest).dropLast.map (readBackSlice u)
          ++ [readBackSlice u ((sl0 :: rest).getLast (by simp))]),
        ⟨roundedVal5 stack.bbox.minx, roundedVal5 stack.bbox.miny, roundedVal5 0,
          roundedVal5 stack.bbox.maxx, roundedVal5 stack.bbox.maxy,
          roundedVal5 ((stack.slices.getLast hne).z_pos)⟩,
        false, roundedVal5 u, false, 0, "1970-01-01".data, stack.count, []⟩,
        write_lines_eq stack CliFormat.FirstLayerWithContent u hne hbbox hupos,
        ?_, ?_, ?_, ?_, hclose⟩
      · unfold slices_from_cli_lines
        rw [hflat]
        rw [show (if CliFormat.FirstLayerWithContent = CliFormat.UseEmptyFirstLayer
            then (["$$LAYER/0.0".data] : List (List Char)) else []) = [] from rfl]
        rw [show stack.count
            + (if CliFormat.FirstLayerWithContent = CliFormat.UseEmptyFirstLayer then 1 else 0)
          = stack.count from rfl]
        rw [List.append_nil, List.append_assoc]
        rw [runLines_append]
        rw [runLines_header u hq stack.bbox.minx stack.bbox.miny 0 stack.bbox.maxx
          stack.bbox.maxy ((stack.slices.getLast hne).z_pos) stack.count]
        dsimp only
        rw [runLines_append]
        rw [runLines_slices_flat u sl0 rest
          ⟨true, true, true, false, some 1, none, [], none,
            ⟨roundedVal5 stack.bbox.minx, roundedVal5 stack.bbox.miny, roundedVal5 0,
              roundedVal5 stack.bbox.maxx, roundedVal5 stack.bbox.maxy,
              roundedVal5 ((stack.slices.getLast hne).z_pos)⟩,
            false, roundedVal5 u, false, "1970-01-01".data, stack.count, []⟩
          _ ⟨rfl, rfl, rfl, rfl, rfl⟩ huex rfl hupos hzlow' hmono' (Or.inl rfl)
          hwind' hvert']
        rfl
      · show (PolySliceStack.from_slices _).slices = _
        rw [from_slices_slices]
        conv_rhs => rw [hsplit]
        exact map_dropLast_getLast (sl0 :: rest) (by simp) (readBackSlice u)
      · unfold PolySliceStack.count
        rw [from_slices_slices, map_dropLast_getLast (sl0 :: rest) (by simp) (readBackSlice u),
          List.length_map, ← hsplit]
      · show (PolySliceStack.from_slices _).slices.map _ = _
        rw [from_slices_slices, map_dropLast_getLast (sl0 :: rest) (by simp) (readBackSlice u),
          map_rBS_contour_lengths, ← hsplit]
  | UseEmptyFirstLayer =>
      have hb0 : (0 : ℚ) ≤ roundedVal5 (sl0.z_pos / u) * u := by
        have h1 : 1 / 100000 ≤ roundedVal5 (sl0.z_pos / u) :=
          roundedVal5_ge _ (hzlow' sl0 (List.mem_cons_self sl0 rest))
        nlinarith
      refine ⟨_, ⟨PolySliceStack.from_slices ((sl0 :: rest).dropLast.map (readBackSlice u)
          ++ [readBackSlice u ((sl0 :: rest).getLast (by simp))]),
        ⟨roundedVal5 stack.bbox.minx, roundedVal5 stack.bbox.miny, roundedVal5 0,
          roundedVal5 stack.bbox.maxx, roundedVal5 stack.bbox.maxy,
          roundedVal5 ((stack.slices.getLast hne).z_pos)⟩,
        false, roundedVal5 u, false, 0, "1970-01-01".data, stack.count + 1, []⟩,
        write_lines_eq stack CliFormat.UseEmptyFirstLayer u hne hbbox hupos,
        ?_, ?_, ?_, ?_, hclose⟩
      · unfold slices_from_cli_lines
        rw [hflat]
        rw [show (if CliFormat.UseEmptyFirstLayer = CliFormat.UseEmptyFirstLayer
            then (["$$LAYER/0.0".data] : List (List Char)) else [])
          = ["$$LAYER/0.0".data] from rfl]
        rw [show stack.count
            + (if CliFormat.UseEmptyFirstLayer = CliFormat.UseEmptyFirstLayer then 1 else 0)
          = stack.count + 1 from rfl]
        rw [List.append_assoc, List.append_assoc]
        rw [runLines_append]
        rw [runLines_header u hq stack.bbox.minx stack.bbox.miny 0 stack.bbox.maxx
          stack.bbox.maxy ((stack.slices.getLast hne).z_pos) (stack.count + 1)]
        dsimp only
        rw [List.singleton_append]
        rw [runLines]
        rw [processLine_layer0
          ⟨true, true, true, false, some 1, none, [], none,
            ⟨roundedVal5 stack.bbox.minx, roundedVal5 stack.bbox.miny, roundedVal5 0,
              roundedVal5 stack.bbox.maxx, roundedVal5 stack.bbox.maxy,
              roundedVal5 ((stack.slices.getLast hne).z_pos)⟩,
            false, roundedVal5 u, false, "1970-01-01".data, stack.count + 1, []⟩
          _ ⟨rfl, rfl, rfl, rfl, rfl⟩ rfl]
        dsimp only
        rw [runLines_append]
        rw [runLines_slices_flat u sl0 rest
          ⟨true, true, true, false, some 1, none, [], some 0,
            ⟨roundedVal5 stack.bbox.minx, roundedVal5 stack.bbox.miny, roundedVal5 0,
              roundedVal5 stack.bbox.maxx, roundedVal5 stack.bbox.maxy,
              roundedVal5 ((stack.slices.getLast hne).z_pos)⟩,
            false, roundedVal5 u, false, "1970-01-01".data, stack.count + 1, []⟩
          _ ⟨rfl, rfl, rfl, rfl, rfl⟩ huex rfl hupos hzlow' hmono'
          (Or.inr ⟨0, rfl, hb0⟩) hwind' hvert']
        rfl
      · show (PolySliceStack.from_slices _).slices = _
        rw [from_slices_slices]
        conv_rhs => rw [hsplit]
        exact map_dropLast_getLast (sl0 :: rest) (by simp) (readBackSlice u)
      · unfold PolySliceStack.count
        rw [from_slices_slices, map_dropLast_getLast (sl0 :: rest) (by simp) (readBackSlice u),
          List.length_map, ← hsplit]
      · show (PolySliceStack.from_slices _).slices.map _ = _
        rw [from_slices_slices, map_dropLast_getLast (sl0 :: rest) (by simp) (readBackSlice u),
          map_rBS_contour_lengths, ← hsplit]

theorem roundedVal5_one : roundedVal5 1 = 1 := by
  rw [roundedVal5, if_neg (by norm_num)]
  rw [show ((1 : ℚ) * 100000) = ((100000 : ℤ) : ℚ) from by norm_num, round_intCast]
  norm_num

/-- Witness for C1: the concrete one-slice triangle stack satisfies every
non-degeneracy hypothesis at `units = 1`, so the round-trip conclusion holds
for it. -/
theorem C1_round_trip_witness :
    ∃ lines res,
      write_slices_to_cli_lines W1stack CliFormat.FirstLayerWithContent none (some 1)
        = .ok lines ∧
      slices_from_cli_lines lines = .ok res ∧
      res.slices.slices = W1stack.slices.map (readBackSlice 1) ∧
      res.slices.count = W1stack.count ∧
      res.slices.slices.map (fun sl => sl.contours.length)
        = W1stack.slices.map (fun sl => sl.contours.length) ∧
      (∀ sl ∈ W1stack.slices, ∀ c ∈ sl.contours, ∀ v ∈ c.vertices,
        |roundedVal5 (v.x / 1) * 1 - v.x| ≤ 1 / 100000 ∧
        |roundedVal5 (v.y / 1) * 1 - v.y| ≤ 1 / 100000) :=
  C1_round_trip W1stack CliFormat.FirstLayerWithContent 1
    (by norm_num)
    roundedVal5_one
    (by
      rw [show W1stack.slices = [W1s] from rfl]
      simp)
    (by

      norm_num +decide [W1stack, BBox3.is_empty])
    (by
      intro sl hsl
      rw [show W1stack.slices = [W1s] from rfl, List.mem_singleton] at hsl
      subst hsl
      show (1 : ℚ) / 100000 ≤ (1 : ℚ) / 1
      norm_num)
    (by
      rw [show W1stack.slices = [W1s] from rfl]
      simp)
    (by
      intro sl hsl
      rw [show W1stack.slices = [W1s] from rfl, List.mem_singleton] at hsl
      subst hsl
      intro c hc
      rw [show W1s.contours = [W1c] from rfl, List.mem_singleton] at hc
      subst hc
      decide)
    (by
      intro sl hsl
      rw [show W1stack.slices = [W1s] from rfl, List.mem_singleton] at hsl
      subst hsl
      intro c hc
      rw [show W1s.contours = [W1c] from rfl, List.mem_singleton] at hc
      subst hc
      decide)

end PicoGK
